import Mathlib

set_option autoImplicit false

namespace JsonSch

/-- JSON type tags, mirroring the `Type` enum in src/lib.rs. -/
inductive JsonType where
  | null
  | bool
  | number
  | integer
  | string
  | array
  | object
  deriving DecidableEq, Repr

/-- JSON numbers as stored by serde_json: a non-negative 64-bit integer, a negative
64-bit integer, or a double.  The double is modelled as an exact rational. -/
inductive Number where
  | posInt (n : Nat)
  | negInt (n : Int)
  | float (q : Rat)
  deriving DecidableEq, Repr

def I64_MAX : Nat := 9223372036854775807

/-- serde_json `Number::is_i64`. -/
def Number.isI64 : Number → Bool
  | .posInt n => decide (n ≤ I64_MAX)
  | .negInt _ => true
  | .float _ => false

/-- serde_json `Number::is_u64`. -/
def Number.isU64 : Number → Bool
  | .posInt _ => true
  | .negInt _ => false
  | .float _ => false

/-- serde_json `Number::as_f64`; the conversion is lossless in this model. -/
def Number.asF64 : Number → Option Rat
  | .posInt n => some (n : Rat)
  | .negInt n => some (n : Rat)
  | .float q => some q

/-- The exact mathematical value of a JSON number. -/
def Number.toRat : Number → Rat
  | .posInt n => (n : Rat)
  | .negInt n => (n : Rat)
  | .float q => q

/-- Rust `f64::trunc` (round toward zero), on the rational model of doubles.
Lean `Int` division truncates toward zero, matching Rust. -/
def ratTrunc (q : Rat) : Int := q.num / (q.den : Int)

/-- Rust `f64::fract = self - self.trunc()`, on the rational model of doubles. -/
def ratFract (q : Rat) : Rat := q - (ratTrunc q : Rat)

/-- JSON values, mirroring serde_json `Value`.  Objects are key-ordered maps,
modelled as association lists. -/
inductive Value where
  | null
  | bool (b : Bool)
  | num (n : Number)
  | str (s : String)
  | arr (elems : List Value)
  | obj (members : List (String × Value))

/-- The `Type::of` classification in src/lib.rs. -/
def JsonType.of : Value → JsonType
  | .null => .null
  | .bool _ => .bool
  | .num _ => .number
  | .str _ => .string
  | .arr _ => .array
  | .obj _ => .object

/-- First-match lookup in an association list (the model of HashMap/BTreeMap get). -/
def assocGet {α : Type} (m : List (String × α)) (k : String) : Option α :=
  (m.find? (fun p => p.1 == k)).map (fun p => p.2)

mutual

/-- Modelled from the spec: structural JSON equality (`util::equals`; util.rs is not
among the sources).  Numbers compare as exact mathematical values, arrays
element-wise, objects key-set-equal with recursive value equality. -/
def equals : Value → Value → Bool
  | .null, .null => true
  | .bool a, .bool b => a == b
  | .num a, .num b => decide (a.toRat = b.toRat)
  | .str a, .str b => a == b
  | .arr a, .arr b => equalsList a b
  | .obj a, .obj b => decide (a.length = b.length) && equalsMembers a b
  | _, _ => false

/-- Element-wise equality of JSON arrays. -/
def equalsList : List Value → List Value → Bool
  | [], [] => true
  | a :: as_, b :: bs => equals a b && equalsList as_ bs
  | _, _ => false

/-- Every member of the first object occurs, with an equal value, in the second. -/
def equalsMembers : List (String × Value) → List (String × Value) → Bool
  | [], _ => true
  | (k, v) :: rest, b =>
    (match assocGet b k with
     | some v2 => equals v v2
     | none => false) && equalsMembers rest b

end

/-- Modelled from the spec: JSON-pointer token escaping (`util::escape`; util.rs is
not among the sources).  RFC 6901 unescapes `~1` to a slash and `~0` to a tilde;
escaping is the reverse substitution. -/
def escape (s : String) : String :=
  s.toList.foldl (fun acc ch =>
    if ch = '~' then acc ++ "~0"
    else if ch = '/' then acc ++ "~1"
    else acc.push ch) ""

/-- Evaluation scope, mirroring `Scope` in src/lib.rs: a parent-linked chain.
The Rust struct stores `parent : Option<&Scope>`; the two constructors encode the
`None`/`Some` parent. -/
inductive Scope where
  | root (sch : Nat) (kwPath : String) (vid : Nat)
  | child (sch : Nat) (kwPath : String) (vid : Nat) (parent : Scope)

def Scope.sch : Scope → Nat
  | .root s _ _ => s
  | .child s _ _ _ => s

def Scope.kwPath : Scope → String
  | .root _ k _ => k
  | .child _ k _ _ => k

def Scope.vid : Scope → Nat
  | .root _ _ v => v
  | .child _ _ v _ => v

def Scope.parent : Scope → Option Scope
  | .root _ _ _ => none
  | .child _ _ _ p => some p

/-- Build a scope with the given optional parent (`Scope::child` / the root literal). -/
def Scope.make (sch : Nat) (kwPath : String) (vid : Nat) : Option Scope → Scope
  | none => .root sch kwPath vid
  | some p => .child sch kwPath vid p

/-- The loop body of `Scope::has_cycle`: `scp` is the ancestor currently examined;
`sch` and `vid` belong to the scope the walk started from. -/
def Scope.hasCycleAux (sch vid : Nat) : Scope → Bool
  | .root s _ v => if v ≠ vid then false else decide (s = sch)
  | .child s _ v p =>
    if v ≠ vid then false
    else if s = sch then true
    else Scope.hasCycleAux sch vid p

/-- `Scope::has_cycle` in src/lib.rs: walk strict ancestors while they share the
value id; report a cycle on the first one sharing the schema index. -/
def Scope.hasCycle (self : Scope) : Bool :=
  match self.parent with
  | none => false
  | some scp => Scope.hasCycleAux self.sch self.vid scp

/-- The strict ancestors of a scope, innermost first. -/
def Scope.ancestors : Scope → List Scope
  | .root _ _ _ => []
  | .child _ _ _ p => p :: p.ancestors

/-- The whole chain of a scope: itself, then its ancestors (innermost first,
outermost last). -/
def Scope.frames : Scope → List Scope
  | s@(.root _ _ _) => [s]
  | .child s k v p => .child s k v p :: p.frames

/-- The loop of `Scope::kw_loc`: prepend each scope's `kw_path` from the inside out. -/
def Scope.kwLocAux : Scope → String → String
  | .root _ kp _, loc =>
    kp ++ (if loc.isEmpty then loc else "/" ++ loc)
  | .child _ kp _ p, loc =>
    Scope.kwLocAux p (kp ++ (if loc.isEmpty then loc else "/" ++ loc))

/-- `Scope::kw_loc` in src/lib.rs. -/
def Scope.kwLoc (self : Scope) (kwPath : String) : String :=
  Scope.kwLocAux self kwPath

theorem hasCycleAux_eq (sch vid : Nat) (p : Scope) :
    Scope.hasCycleAux sch vid p =
      ((p :: p.ancestors).takeWhile (fun a => decide (a.vid = vid))).any
        (fun a => decide (a.sch = sch)) := by
  induction p with
  | root s k v =>
    by_cases h : v = vid <;>
      simp [Scope.hasCycleAux, Scope.ancestors, List.takeWhile, Scope.vid, Scope.sch, h]
  | child s k v q ih =>
    by_cases h : v = vid
    · by_cases hs : s = sch <;>
        simp [Scope.hasCycleAux, Scope.ancestors, List.takeWhile, Scope.vid, Scope.sch,
          h, hs, ih]
    · simp [Scope.hasCycleAux, Scope.ancestors, List.takeWhile, Scope.vid, Scope.sch, h]

/-- Characterization of the cycle walk: there is a cycle exactly when some strict
ancestor inside the maximal prefix of ancestors sharing the value id has the same
schema index.  `takeWhile` stops at the first ancestor whose `vid` differs. -/
theorem hasCycle_eq (s : Scope) :
    s.hasCycle =
      ((s.ancestors.takeWhile (fun a => decide (a.vid = s.vid))).any
        (fun a => decide (a.sch = s.sch))) := by
  cases s with
  | root s k v => simp [Scope.hasCycle, Scope.ancestors, Scope.parent]
  | child s k v p =>
    simp only [Scope.hasCycle, Scope.parent, Scope.ancestors]
    rw [hasCycleAux_eq]

/-- Failure kinds, mirroring `ErrorKind` in src/lib.rs (a closed sum). -/
inductive ErrorKind where
  | group
  | schema (url : String)
  | reference (url : String)
  | refCycle
  | falseSchema
  | type (got : JsonType) (want : List JsonType)
  | enum (got : Value) (want : List Value)
  | const (got : Value) (want : Value)
  | format (got : Value) (want : String)
  | minProperties (got want : Nat)
  | maxProperties (got want : Nat)
  | additionalProperties (got : List String)
  | required (want : List String)
  | dependentRequired (got : String) (want : List String)
  | minItems (got want : Nat)
  | maxItems (got want : Nat)
  | contains
  | minContains (got : List Nat) (want : Nat)
  | maxContains (got : List Nat) (want : Nat)
  | uniqueItems (got : Nat × Nat)
  | additionalItems (got : Nat)
  | minLength (got want : Nat)
  | maxLength (got want : Nat)
  | pattern (got want : String)
  | contentEncoding (got want : String)
  | contentMediaType (got : List Nat) (want : String)
  | minimum (got want : Number)
  | maximum (got want : Number)
  | exclusiveMinimum (got want : Number)
  | exclusiveMaximum (got want : Number)
  | multipleOf (got want : Number)
  | not
  | allOf (got : List Nat)
  | anyOf
  | oneOf (got : List Nat)

/-- A validation error, mirroring `ValidationError` in src/lib.rs: four location
and kind slots plus child causes. -/
inductive ValidationError where
  | mk (keyword_location : String) (absolute_keyword_location : String)
       (instance_location : String) (kind : ErrorKind)
       (causes : List ValidationError)

def ValidationError.kind : ValidationError → ErrorKind
  | .mk _ _ _ k _ => k

def ValidationError.causes : ValidationError → List ValidationError
  | .mk _ _ _ _ c => c

def ValidationError.keywordLocation : ValidationError → String
  | .mk kl _ _ _ _ => kl

def ValidationError.withCauses : ValidationError → List ValidationError → ValidationError
  | .mk kl akl il k _, c => .mk kl akl il k c

/-- The `Items` enum in src/lib.rs (draft-7 style `items`). -/
inductive Items where
  | schemaRef (sch : Nat)
  | schemaRefs (list : List Nat)

/-- The `Additional` enum in src/lib.rs. -/
inductive Additional where
  | bool (b : Bool)
  | schemaRef (sch : Nat)

/-- The `Dependency` enum in src/lib.rs. -/
inductive Dependency where
  | props (required : List String)
  | schemaRef (sch : Nat)

/-- A compiled schema node, mirroring `struct Schema` in src/lib.rs.  External
predicates (formats, regexes, content decoders) are ports and stored as functions;
a regex is stored together with its pattern text (`Regex::as_str`).  Byte strings
are lists of byte values. -/
structure Schema where
  draft_version : Nat := 0
  index : Nat := 0
  loc : String := ""
  resource : Nat := 0
  dynamic_anchors : List (String × Nat) := []
  boolean : Option Bool := none
  ref_ : Option Nat := none
  recursive_ref : Option Nat := none
  recursive_anchor : Bool := false
  dynamic_ref : Option Nat := none
  dynamic_anchor : Option String := none
  types : List JsonType := []
  enum_ : List Value := []
  constant : Option Value := none
  not : Option Nat := none
  all_of : List Nat := []
  any_of : List Nat := []
  one_of : List Nat := []
  if_ : Option Nat := none
  then_ : Option Nat := none
  else_ : Option Nat := none
  format : Option (String × (Value → Bool)) := none
  min_properties : Option Nat := none
  max_properties : Option Nat := none
  required : List String := []
  properties : List (String × Nat) := []
  pattern_properties : List ((String × (String → Bool)) × Nat) := []
  property_names : Option Nat := none
  additional_properties : Option Additional := none
  dependent_required : List (String × List String) := []
  dependent_schemas : List (String × Nat) := []
  dependencies : List (String × Dependency) := []
  unevaluated_properties : Option Nat := none
  min_items : Option Nat := none
  max_items : Option Nat := none
  unique_items : Bool := false
  min_contains : Option Nat := none
  max_contains : Option Nat := none
  contains : Option Nat := none
  items : Option Items := none
  additional_items : Option Additional := none
  prefix_items : List Nat := []
  items2020 : Option Nat := none
  unevaluated_items : Option Nat := none
  min_length : Option Nat := none
  max_length : Option Nat := none
  pattern : Option (String × (String → Bool)) := none
  content_encoding : Option (String × (String → Option (List Nat))) := none
  content_media_type : Option (String × (List Nat → Bool)) := none
  minimum : Option Number := none
  maximum : Option Number := none
  exclusive_minimum : Option Number := none
  exclusive_maximum : Option Number := none
  multiple_of : Option Number := none

/-- The compiled pool, mirroring `struct Schemas` in src/lib.rs. -/
structure Schemas where
  list : List Schema := []
  map : List (String × Nat) := []

/-- Fallible indexing into the pool (`self.list.get(i)`). -/
def Schemas.get? (self : Schemas) (i : Nat) : Option Schema :=
  self.list[i]?

/-- `Schemas::contains` in src/lib.rs. -/
def Schemas.containsIdx (self : Schemas) (schIndex : Nat) : Bool :=
  (self.list[schIndex]?).isSome

/-- Rust `Iterator::position`: index of the first element satisfying the test. -/
def listPos (p : String → Bool) : List String → Option Nat
  | [] => none
  | a :: l => if p a then some 0 else (listPos p l).map (fun n => n + 1)

/-- `Schemas::enqueue` in src/lib.rs: normalize the location, prefer an already
compiled entry, then an already queued one, else push.  Returns the assigned
index together with the (possibly grown) queue. -/
def Schemas.enqueue (self : Schemas) (queue : List String) (loc : String) :
    Nat × List String :=
  let loc := if loc.contains '#' then loc else loc ++ "#"
  match assocGet self.map loc with
  | some index => (index, queue)
  | none =>
    match listPos (fun e => e == loc) queue with
    | some qindex => (self.list.length + qindex, queue)
    | none =>
      let queue := queue ++ [loc]
      (self.list.length + queue.length - 1, queue)

/-- Per-instance-node bookkeeping, mirroring `struct Uneval` in src/lib.rs.  The
Rust hash sets are modelled as duplicate-free lists in a fixed enumeration order. -/
structure Uneval where
  props : List String := []
  items : List Nat := []

/-- `impl From<&Value> for Uneval` in src/lib.rs. -/
def Uneval.ofValue : Value → Uneval
  | .obj members => { props := members.map (fun m => m.1), items := [] }
  | .arr elems => { props := [], items := List.range elems.length }
  | _ => {}

/-- `Uneval::merge` in src/lib.rs: retain only entries the other set also holds. -/
def Uneval.merge (self other : Uneval) : Uneval :=
  { props := self.props.filter (fun p => other.props.contains p),
    items := self.items.filter (fun i => other.items.contains i) }

/-- Outcome of running a translated Rust computation: a Rust panic, exhaustion of
the fuel that makes the recursion structural, or a value. -/
inductive RunRes (α : Type) where
  | panic
  | fuelOut
  | val (a : α)

instance : Monad RunRes where
  pure := RunRes.val
  bind m f := match m with
    | .panic => .panic
    | .fuelOut => .fuelOut
    | .val a => f a

/-- Lift a fallible index access: `none` is a Rust panic. -/
def RunRes.ofPanic {α : Type} : Option α → RunRes α
  | none => .panic
  | some a => .val a

@[simp] theorem RunRes.val_bind {α β : Type} (a : α) (f : α → RunRes β) :
    (RunRes.val a >>= f) = f a := rfl

@[simp] theorem RunRes.panic_bind {α β : Type} (f : α → RunRes β) :
    ((RunRes.panic : RunRes α) >>= f) = .panic := rfl

@[simp] theorem RunRes.fuelOut_bind {α β : Type} (f : α → RunRes β) :
    ((RunRes.fuelOut : RunRes α) >>= f) = .fuelOut := rfl

@[simp] theorem RunRes.pure_def {α : Type} (a : α) :
    (pure a : RunRes α) = .val a := rfl

theorem RunRes.bind_ne_panic {α β : Type} (x : RunRes α) (f : α → RunRes β)
    (hx : x ≠ .panic) (hf : ∀ a, f a ≠ .panic) : x >>= f ≠ .panic := by
  cases x with
  | panic => exact absurd rfl hx
  | fuelOut => simp [Bind.bind, Monad.toBind]
  | val a => exact hf a

theorem RunRes.bind_ne_panic2 {α β : Type} (x : RunRes α) (f : α → RunRes β)
    (a : α) (hx : x = .val a) (hf : f a ≠ .panic) : x >>= f ≠ .panic := by
  subst hx
  exact hf

theorem RunRes.pure_ne_panic {α : Type} (a : α) : (pure a : RunRes α) ≠ .panic := by
  simp [Pure.pure, Monad.toApplicative]

theorem RunRes.ofPanic_ne_panic {α : Type} (o : Option α) (h : o.isSome) :
    RunRes.ofPanic o ≠ .panic := by
  cases o with
  | none => simp at h
  | some a => simp [RunRes.ofPanic]

theorem RunRes.foldlM_ne_panic {α β : Type} (f : β → α → RunRes β) (l : List α)
    (init : β) (h : ∀ acc a, a ∈ l → f acc a ≠ .panic) :
    l.foldlM f init ≠ .panic := by
  induction l generalizing init with
  | nil => simp [List.foldlM, Pure.pure, Monad.toApplicative]
  | cons x xs ih =>
    simp only [List.foldlM]
    refine RunRes.bind_ne_panic _ _ (h init x (by simp)) (fun acc => ?_)
    exact ih acc (fun acc' a ha => h acc' a (by simp [ha]))

/-- Type of the recursive validator passed into the keyword helpers: validate a
schema node against a value at an instance location under a scope. -/
abbrev Recur := Schema → Value → String → Scope → RunRes (Except ValidationError Uneval)

/-- The context captured by the closures inside `Schema::validate`. -/
structure VCtx where
  schemas : Schemas
  self : Schema
  v : Value
  vloc : String
  scope : Scope

/-- The `error` closure in `Schema::validate` (src/lib.rs lines 309-318). -/
def VCtx.mkError (c : VCtx) (kwPath : String) (kind : ErrorKind) : ValidationError :=
  .mk (c.scope.kwLoc kwPath)
      (if kwPath.isEmpty then c.self.loc else c.self.loc ++ "/" ++ kwPath)
      c.vloc kind []

/-- The `add_err!` macro: push the error of a failed subvalidation. -/
def addErr (errors : List ValidationError) : Except ValidationError Unit → List ValidationError
  | .ok _ => errors
  | .error e => errors ++ [e]

/-- The scope-chain walk of the `$recursiveRef` keyword (src/lib.rs lines 796-808):
from the innermost frame outward, each frame whose resource root carries
`$recursiveAnchor` overwrites the target, so the outermost such frame wins. -/
def recursiveResolve (schemas : Schemas) : Scope → Nat → Option Nat
  | .root sch _ _, cur =>
      match schemas.get? sch with
      | none => none
      | some scopeSch =>
        match schemas.get? scopeSch.resource with
        | none => none
        | some baseSch => some (if baseSch.recursive_anchor then sch else cur)
  | .child sch _ _ p, cur =>
      match schemas.get? sch with
      | none => none
      | some scopeSch =>
        match schemas.get? scopeSch.resource with
        | none => none
        | some baseSch =>
          recursiveResolve schemas p (if baseSch.recursive_anchor then sch else cur)

/-- The scope-chain walk of the `$dynamicRef` keyword (src/lib.rs lines 815-830):
from the innermost frame outward, each frame whose resource root declares the
dynamic anchor overwrites the target, so the outermost match wins. -/
def dynamicResolve (schemas : Schemas) (anchorName : String) : Scope → Nat → Option Nat
  | .root sch _ _, cur =>
      match schemas.get? sch with
      | none => none
      | some scopeSch =>
        match schemas.get? scopeSch.resource with
        | none => none
        | some baseSch =>
          some (match assocGet baseSch.dynamic_anchors anchorName with
                | some t => t
                | none => cur)
  | .child sch _ _ p, cur =>
      match schemas.get? sch with
      | none => none
      | some scopeSch =>
        match schemas.get? scopeSch.resource with
        | none => none
        | some baseSch =>
          dynamicResolve schemas anchorName p
            (match assocGet baseSch.dynamic_anchors anchorName with
             | some t => t
             | none => cur)

/-- Target selection for `$recursiveRef`: the walk runs only when the statically
resolved target carries `$recursiveAnchor`. -/
def selectRecursiveTarget (schemas : Schemas) (scope : Scope) (rref : Nat) : Option Nat :=
  match schemas.get? rref with
  | none => none
  | some target =>
    if target.recursive_anchor then recursiveResolve schemas scope rref else some rref

/-- Target selection for `$dynamicRef`: the walk runs only when the statically
resolved target declares a `$dynamicAnchor` name. -/
def selectDynamicTarget (schemas : Schemas) (scope : Scope) (dref : Nat) : Option Nat :=
  match schemas.get? dref with
  | none => none
  | some target =>
    match target.dynamic_anchor with
    | some name => dynamicResolve schemas name scope dref
    | none => some dref

/-- The underlying call of the `validate_self` closure: validate subschema `sch`
against the same value, the child scope inheriting `vid`. -/
def selfValidateRaw (recur : Recur) (c : VCtx) (sch : Nat) (kwPath : String) :
    RunRes (Except ValidationError Uneval) := do
  let s ← RunRes.ofPanic (c.schemas.get? sch)
  recur s c.v c.vloc (Scope.child sch kwPath c.scope.vid c.scope)

/-- The `validate_self` closure in `Schema::validate`: on success merge the
reply into the accumulated `uneval`. -/
def selfValidate (recur : Recur) (c : VCtx) (sch : Nat) (kwPath : String)
    (uneval : Uneval) : RunRes (Except ValidationError Unit × Uneval) := do
  let r ← selfValidateRaw recur c sch kwPath
  match r with
  | .ok reply => pure (.ok (), uneval.merge reply)
  | .error e => pure (.error e, uneval)

/-- The `validate` closure in `Schema::validate`: validate subschema `sch` against
a child value, with an incremented `vid`; the child's `Uneval` is discarded. -/
def childValidate (recur : Recur) (c : VCtx) (sch : Nat) (kwPath : String)
    (v : Value) (vpath : String) : RunRes (Except ValidationError Unit) := do
  let s ← RunRes.ofPanic (c.schemas.get? sch)
  let r ← recur s v (c.vloc ++ "/" ++ vpath) (Scope.child sch kwPath (c.scope.vid + 1) c.scope)
  pure (match r with | .ok _ => .ok () | .error e => .error e)

/-- The `validate_ref` closure (src/lib.rs lines 770-786): a failed reference
wraps its causes in a `Reference` error, unwrapping a `Group`. -/
def validateRef (recur : Recur) (c : VCtx) (sch : Nat) (kw : String)
    (uneval : Uneval) : RunRes (Except ValidationError Unit × Uneval) := do
  let (r, uneval) ← selfValidate recur c sch kw uneval
  match r with
  | .ok _ => pure (.ok (), uneval)
  | .error refErr => do
      let target ← RunRes.ofPanic (c.schemas.get? sch)
      let err := c.mkError kw (.reference target.loc)
      match refErr.kind with
      | .group => pure (.error (err.withCauses refErr.causes), uneval)
      | _ => pure (.error (err.withCauses [refErr]), uneval)

/-- The `type` keyword (src/lib.rs lines 365-380). -/
def typeKw (c : VCtx) (errors : List ValidationError) : List ValidationError :=
  if c.self.types.isEmpty then errors
  else
    let vType := JsonType.of c.v
    let matched := c.self.types.any (fun t =>
      if t = JsonType.integer ∧ vType = JsonType.number then
        match c.v with
        | .num n =>
          n.isI64 || n.isU64 ||
            (match n.asF64 with
             | some f => decide (ratFract f = 0)
             | none => false)
        | _ => decide (t = vType)
      else decide (t = vType))
    if !matched then errors ++ [c.mkError "type" (.type vType c.self.types)] else errors

/-- The `enum` keyword. -/
def enumKw (c : VCtx) (errors : List ValidationError) : List ValidationError :=
  if !c.self.enum_.isEmpty && !(c.self.enum_.any (fun e => equals e c.v)) then
    errors ++ [c.mkError "enum" (.enum c.v c.self.enum_)]
  else errors

/-- The `const` keyword. -/
def constKw (c : VCtx) (errors : List ValidationError) : List ValidationError :=
  match c.self.constant with
  | some cc =>
      if !(equals c.v cc) then errors ++ [c.mkError "const" (.const c.v cc)] else errors
  | none => errors

/-- The `format` keyword. -/
def formatKw (c : VCtx) (errors : List ValidationError) : List ValidationError :=
  match c.self.format with
  | some fc =>
      if !(fc.2 c.v) then errors ++ [c.mkError "format" (.format c.v fc.1)] else errors
  | none => errors

/-- The additionalProperties bool-variant error (src/lib.rs lines 508-514), as a
function of the order in which the hash set `uneval.props` is enumerated; Rust
does not fix that order. -/
def additionalPropertiesBoolErr (c : VCtx) (allowed : Bool) (iterOrder : List String) :
    List ValidationError :=
  if !allowed && !iterOrder.isEmpty then
    [c.mkError "additionalProperties" (.additionalProperties iterOrder)]
  else []

/-- The minProperties, maxProperties and required checks
(src/lib.rs lines 403-426), in source order. -/
def objChecks (c : VCtx) (members : List (String × Value))
    (errors : List ValidationError) : List ValidationError :=
  let errors := match c.self.min_properties with
    | some min =>
        if members.length < min then
          errors ++ [c.mkError "minProperties" (.minProperties members.length min)]
        else errors
    | none => errors
  let errors := match c.self.max_properties with
    | some max =>
        if members.length > max then
          errors ++ [c.mkError "maxProperties" (.maxProperties members.length max)]
        else errors
    | none => errors
  let missing := c.self.required.filter (fun p => !(members.any (fun m => m.1 == p)))
  if !missing.isEmpty then errors ++ [c.mkError "required" (.required missing)]
  else errors

/-- The pre-2019 `dependencies` keyword (src/lib.rs lines 428-451). -/
def objDependencies (recur : Recur) (c : VCtx) (members : List (String × Value))
    (errors : List ValidationError) (uneval : Uneval) :
    RunRes (List ValidationError × Uneval) :=
  c.self.dependencies.foldlM (fun acc pd => do
      let (errors, uneval) := acc
      if members.any (fun m => m.1 == pd.1) then
        let kwPath := "dependencies/" ++ escape pd.1
        match pd.2 with
        | .props reqd =>
            let missing := reqd.filter (fun p => !(members.any (fun m => m.1 == p)))
            if !missing.isEmpty then
              pure (errors ++ [c.mkError kwPath (.dependentRequired pd.1 missing)], uneval)
            else pure (errors, uneval)
        | .schemaRef sch => do
            let (r, uneval) ← selfValidate recur c sch kwPath uneval
            pure (addErr errors r, uneval)
      else pure (errors, uneval)) (errors, uneval)

/-- The `dependentSchemas` keyword (src/lib.rs lines 453-459). -/
def objDependentSchemas (recur : Recur) (c : VCtx) (members : List (String × Value))
    (errors : List ValidationError) (uneval : Uneval) :
    RunRes (List ValidationError × Uneval) :=
  c.self.dependent_schemas.foldlM (fun acc ps => do
      let (errors, uneval) := acc
      if members.any (fun m => m.1 == ps.1) then
        let (r, uneval) ← selfValidate recur c ps.2 ("dependentSchemas/" ++ escape ps.1) uneval
        pure (addErr errors r, uneval)
      else pure (errors, uneval)) (errors, uneval)

/-- The `dependentRequired` keyword (src/lib.rs lines 461-476). -/
def objDependentRequired (c : VCtx) (members : List (String × Value))
    (errors : List ValidationError) : List ValidationError :=
  c.self.dependent_required.foldl (fun errors pr =>
      if members.any (fun m => m.1 == pr.1) then
        let missing := pr.2.filter (fun p => !(members.any (fun m => m.1 == p)))
        if !missing.isEmpty then
          errors ++ [c.mkError ("dependentRequired/" ++ escape pr.1)
            (.dependentRequired pr.1 missing)]
        else errors
      else errors) errors

/-- The `properties` keyword (src/lib.rs lines 478-485). -/
def objProperties (recur : Recur) (c : VCtx) (members : List (String × Value))
    (errors : List ValidationError) (uneval : Uneval) :
    RunRes (List ValidationError × Uneval) :=
  c.self.properties.foldlM (fun acc pp => do
      let (errors, uneval) := acc
      match assocGet members pp.1 with
      | some pvalue => do
          let uneval := { uneval with props := uneval.props.filter (fun p => !(p == pp.1)) }
          let r ← childValidate recur c pp.2 ("properties/" ++ escape pp.1) pvalue (escape pp.1)
          pure (addErr errors r, uneval)
      | none => pure (errors, uneval)) (errors, uneval)

/-- The `patternProperties` keyword (src/lib.rs lines 487-494). -/
def objPatternProperties (recur : Recur) (c : VCtx) (members : List (String × Value))
    (errors : List ValidationError) (uneval : Uneval) :
    RunRes (List ValidationError × Uneval) :=
  c.self.pattern_properties.foldlM (fun acc rp =>
      (members.filter (fun m => rp.1.2 m.1)).foldlM (fun acc2 pv => do
          let (errors, uneval) := acc2
          let uneval := { uneval with props := uneval.props.filter (fun p => !(p == pv.1)) }
          let r ← childValidate recur c rp.2 ("patternProperties/" ++ escape rp.1.1)
            pv.2 (escape pv.1)
          pure (addErr errors r, uneval)) acc) (errors, uneval)

/-- The `propertyNames` keyword (src/lib.rs lines 496-502). -/
def objPropertyNames (recur : Recur) (c : VCtx) (members : List (String × Value))
    (errors : List ValidationError) (uneval : Uneval) :
    RunRes (List ValidationError × Uneval) :=
  match c.self.property_names with
  | some sch =>
      members.foldlM (fun acc pv => do
        let (errors, uneval) := acc
        let r ← childValidate recur c sch "propertyNames" (.str pv.1) (escape pv.1)
        pure (addErr errors r, uneval)) (errors, uneval)
  | none => pure (errors, uneval)

/-- The `additionalProperties` keyword (src/lib.rs lines 504-530); both variants
clear the remaining property bookkeeping. -/
def objAdditionalProperties (recur : Recur) (c : VCtx)
    (members : List (String × Value)) (errors : List ValidationError)
    (uneval : Uneval) : RunRes (List ValidationError × Uneval) :=
  match c.self.additional_properties with
  | some (.bool allowed) =>
      pure (errors ++ additionalPropertiesBoolErr c allowed uneval.props,
            { uneval with props := [] })
  | some (.schemaRef sch) => do
      let errors ← uneval.props.foldlM (fun errors pname => do
          match assocGet members pname with
          | some pvalue => do
              let r ← childValidate recur c sch "additionalProperties" pvalue (escape pname)
              pure (addErr errors r)
          | none => pure errors) errors
      pure (errors, { uneval with props := [] })
  | none => pure (errors, uneval)

/-- The object-shaped keyword section of `Schema::validate`
(src/lib.rs lines 402-531), in source order. -/
def objectKws (recur : Recur) (c : VCtx) (members : List (String × Value))
    (errors : List ValidationError) (uneval : Uneval) :
    RunRes (List ValidationError × Uneval) := do
  let errors := objChecks c members errors
  let (errors, uneval) ← objDependencies recur c members errors uneval
  let (errors, uneval) ← objDependentSchemas recur c members errors uneval
  let errors := objDependentRequired c members errors
  let (errors, uneval) ← objProperties recur c members errors uneval
  let (errors, uneval) ← objPatternProperties recur c members errors uneval
  let (errors, uneval) ← objPropertyNames recur c members errors uneval
  objAdditionalProperties recur c members errors uneval

/-- The minItems, maxItems and uniqueItems checks (src/lib.rs lines 534-557). -/
def arrChecks (c : VCtx) (arr : List Value) (errors : List ValidationError) :
    List ValidationError :=
  let errors := match c.self.min_items with
    | some min =>
        if arr.length < min then
          errors ++ [c.mkError "minItems" (.minItems arr.length min)]
        else errors
    | none => errors
  let errors := match c.self.max_items with
    | some max =>
        if arr.length > max then
          errors ++ [c.mkError "maxItems" (.maxItems arr.length max)]
        else errors
    | none => errors
  if c.self.unique_items then
    (List.range arr.length).foldl (fun errors i =>
      (List.range i).foldl (fun errors j =>
        if equals (arr.getD i .null) (arr.getD j .null) then
          errors ++ [c.mkError "uniqueItems" (.uniqueItems (j, i))]
        else errors) errors) errors
  else errors

/-- The draft-7 style `items` keyword (src/lib.rs lines 559-576). -/
def arrItems (recur : Recur) (c : VCtx) (arr : List Value)
    (errors : List ValidationError) (uneval : Uneval) :
    RunRes (List ValidationError × Uneval) :=
  match c.self.items with
  | some (.schemaRef sch) => do
      let errors ← arr.enum.foldlM (fun errors iv => do
          let r ← childValidate recur c sch "items" iv.2 (toString iv.1)
          pure (addErr errors r)) errors
      pure (errors, { uneval with items := [] })
  | some (.schemaRefs list) =>
      (arr.zip list).enum.foldlM (fun acc p => do
          let (errors, uneval) := acc
          let uneval := { uneval with items := uneval.items.filter (fun x => !(x == p.1)) }
          let r ← childValidate recur c p.2.2 ("items/" ++ toString p.1) p.2.1 (toString p.1)
          pure (addErr errors r, uneval)) (errors, uneval)
  | none => pure (errors, uneval)

/-- The `additionalItems` keyword (src/lib.rs lines 578-604). -/
def arrAdditionalItems (recur : Recur) (c : VCtx) (arr : List Value)
    (errors : List ValidationError) (uneval : Uneval) :
    RunRes (List ValidationError × Uneval) :=
  match c.self.additional_items with
  | some (.bool allowed) =>
      let errors := if !allowed && !uneval.items.isEmpty then
          errors ++ [c.mkError "additionalItems"
            (.additionalItems (arr.length - uneval.items.length))]
        else errors
      pure (errors, { uneval with items := [] })
  | some (.schemaRef sch) => do
      let errors ← uneval.items.foldlM (fun errors index => do
          match arr[index]? with
          | some pvalue => do
              let r ← childValidate recur c sch "additionalItems" pvalue (toString index)
              pure (addErr errors r)
          | none => pure errors) errors
      pure (errors, { uneval with items := [] })
  | none => pure (errors, uneval)

/-- The `prefixItems` keyword (src/lib.rs lines 606-611). -/
def arrPrefixItems (recur : Recur) (c : VCtx) (arr : List Value)
    (errors : List ValidationError) (uneval : Uneval) :
    RunRes (List ValidationError × Uneval) :=
  (c.self.prefix_items.zip arr).enum.foldlM (fun acc p => do
      let (errors, uneval) := acc
      let uneval := { uneval with items := uneval.items.filter (fun x => !(x == p.1)) }
      let r ← childValidate recur c p.2.1 ("prefixItems/" ++ toString p.1) p.2.2 (toString p.1)
      pure (addErr errors r, uneval)) (errors, uneval)

/-- The 2020-12 `items` keyword (src/lib.rs lines 613-621). -/
def arrItems2020 (recur : Recur) (c : VCtx) (arr : List Value)
    (errors : List ValidationError) (uneval : Uneval) :
    RunRes (List ValidationError × Uneval) :=
  match c.self.items2020 with
  | some sch => do
      let errors ← uneval.items.foldlM (fun errors index => do
          match arr[index]? with
          | some pvalue => do
              let r ← childValidate recur c sch "items" pvalue (toString index)
              pure (addErr errors r)
          | none => pure errors) errors
      pure (errors, { uneval with items := [] })
  | none => pure (errors, uneval)

/-- The `contains` scan (src/lib.rs lines 623-637): matched indices, collected
branch errors, and (2020-12 only) bookkeeping removal. -/
def arrContains (recur : Recur) (c : VCtx) (arr : List Value) (uneval : Uneval) :
    RunRes (List Nat × List ValidationError × Uneval) :=
  match c.self.contains with
  | some sch =>
      arr.enum.foldlM (fun acc iv => do
          let (matched, cerrs, uneval) := acc
          let r ← childValidate recur c sch "contains" iv.2 (toString iv.1)
          match r with
          | .error e => pure (matched, cerrs ++ [e], uneval)
          | .ok _ =>
              let uneval := if c.self.draft_version ≥ 2020 then
                  { uneval with items := uneval.items.filter (fun x => !(x == iv.1)) }
                else uneval
              pure (matched ++ [iv.1], cerrs, uneval))
        (([] : List Nat), ([] : List ValidationError), uneval)
  | none => pure ([], [], uneval)

/-- The minContains, contains and maxContains error checks
(src/lib.rs lines 639-660). -/
def arrContainsChecks (c : VCtx) (containsMatched : List Nat)
    (containsErrors errors : List ValidationError) : List ValidationError :=
  let errors :=
    match c.self.min_contains with
    | some min =>
        if containsMatched.length < min then
          errors ++ [(c.mkError "minContains"
            (.minContains containsMatched min)).withCauses containsErrors]
        else errors
    | none =>
        if c.self.contains.isSome && containsMatched.isEmpty then
          errors ++ [(c.mkError "contains" .contains).withCauses containsErrors]
        else errors
  match c.self.max_contains with
  | some max =>
      if containsMatched.length > max then
        errors ++ [c.mkError "maxContains" (.maxContains containsMatched max)]
      else errors
  | none => errors

/-- The array-shaped keyword section of `Schema::validate`
(src/lib.rs lines 533-661), in source order. -/
def arrayKws (recur : Recur) (c : VCtx) (arr : List Value)
    (errors : List ValidationError) (uneval : Uneval) :
    RunRes (List ValidationError × Uneval) := do
  let errors := arrChecks c arr errors
  let (errors, uneval) ← arrItems recur c arr errors uneval
  let (errors, uneval) ← arrAdditionalItems recur c arr errors uneval
  let (errors, uneval) ← arrPrefixItems recur c arr errors uneval
  let (errors, uneval) ← arrItems2020 recur c arr errors uneval
  let (containsMatched, containsErrors, uneval) ← arrContains recur c arr uneval
  pure (arrContainsChecks c containsMatched containsErrors errors, uneval)

/-- UTF-8 bytes of a string (`s.as_bytes()`). -/
def strBytes (s : String) : List Nat := s.toUTF8.toList.map (fun b => b.toNat)

/-- The string-shaped keyword section of `Schema::validate`
(src/lib.rs lines 663-713), in source order. -/
def stringKws (c : VCtx) (s : String) (errors : List ValidationError) :
    List ValidationError :=
  let errors := match c.self.min_length with
    | some min =>
        if s.length < min then errors ++ [c.mkError "minLength" (.minLength s.length min)]
        else errors
    | none => errors
  let errors := match c.self.max_length with
    | some max =>
        if s.length > max then errors ++ [c.mkError "maxLength" (.maxLength s.length max)]
        else errors
    | none => errors
  let errors := match c.self.pattern with
    | some rx =>
        if !(rx.2 s) then errors ++ [c.mkError "pattern" (.pattern s rx.1)] else errors
    | none => errors
  let dec := match c.self.content_encoding with
    | some enc =>
        (match enc.2 s with
         | some bytes => (bytes, errors)
         | none =>
            (strBytes s, errors ++ [c.mkError "contentEncoding" (.contentEncoding s enc.1)]))
    | none => (strBytes s, errors)
  let errors := match c.self.content_media_type with
    | some mt =>
        if !(mt.2 dec.1) then
          dec.2 ++ [c.mkError "contentMediaType" (.contentMediaType dec.1 mt.1)]
        else dec.2
    | none => dec.2
  errors

/-- The number-shaped keyword section of `Schema::validate`
(src/lib.rs lines 715-766), in source order. -/
def numberKws (c : VCtx) (n : Number) (errors : List ValidationError) :
    List ValidationError :=
  let errors := match c.self.minimum with
    | some min =>
        match min.asF64, n.asF64 with
        | some minf, some vf =>
            if vf < minf then errors ++ [c.mkError "minimum" (.minimum n min)] else errors
        | _, _ => errors
    | none => errors
  let errors := match c.self.maximum with
    | some max =>
        match max.asF64, n.asF64 with
        | some maxf, some vf =>
            if vf > maxf then errors ++ [c.mkError "maximum" (.maximum n max)] else errors
        | _, _ => errors
    | none => errors
  let errors := match c.self.exclusive_minimum with
    | some exMin =>
        match exMin.asF64, n.asF64 with
        | some exMinf, some nf =>
            if nf ≤ exMinf then
              errors ++ [c.mkError "exclusiveMinimum" (.exclusiveMinimum n exMin)]
            else errors
        | _, _ => errors
    | none => errors
  let errors := match c.self.exclusive_maximum with
    | some exMax =>
        match exMax.asF64, n.asF64 with
        | some exMaxf, some nf =>
            if nf ≥ exMaxf then
              errors ++ [c.mkError "exclusiveMaximum" (.exclusiveMaximum n exMax)]
            else errors
        | _, _ => errors
    | none => errors
  let errors := match c.self.multiple_of with
    | some mul =>
        match mul.asF64, n.asF64 with
        | some mulf, some nf =>
            if ratFract (nf / mulf) ≠ 0 then
              errors ++ [c.mkError "multipleOf" (.multipleOf n mul)]
            else errors
        | _, _ => errors
    | none => errors
  errors

/-- The shape dispatch of `Schema::validate` (the big `match v`). -/
def shapeKws (recur : Recur) (c : VCtx) (errors : List ValidationError)
    (uneval : Uneval) : RunRes (List ValidationError × Uneval) :=
  match c.v with
  | .obj members => objectKws recur c members errors uneval
  | .arr elems => arrayKws recur c elems errors uneval
  | .str s => pure (stringKws c s errors, uneval)
  | .num n => pure (numberKws c n errors, uneval)
  | _ => pure (errors, uneval)

/-- The `$ref` keyword (src/lib.rs lines 788-791). -/
def refKw (recur : Recur) (c : VCtx) (errors : List ValidationError)
    (uneval : Uneval) : RunRes (List ValidationError × Uneval) :=
  match c.self.ref_ with
  | some r => do
      let (res, uneval) ← validateRef recur c r "$ref" uneval
      pure (addErr errors res, uneval)
  | none => pure (errors, uneval)

/-- The `$recursiveRef` keyword (src/lib.rs lines 793-811). -/
def recursiveRefKw (recur : Recur) (c : VCtx) (errors : List ValidationError)
    (uneval : Uneval) : RunRes (List ValidationError × Uneval) :=
  match c.self.recursive_ref with
  | some rref => do
      let target ← RunRes.ofPanic (selectRecursiveTarget c.schemas c.scope rref)
      let (res, uneval) ← validateRef recur c target "$recursiveRef" uneval
      pure (addErr errors res, uneval)
  | none => pure (errors, uneval)

/-- The `$dynamicRef` keyword (src/lib.rs lines 813-832). -/
def dynamicRefKw (recur : Recur) (c : VCtx) (errors : List ValidationError)
    (uneval : Uneval) : RunRes (List ValidationError × Uneval) :=
  match c.self.dynamic_ref with
  | some dref => do
      let target ← RunRes.ofPanic (selectDynamicTarget c.schemas c.scope dref)
      let (res, uneval) ← validateRef recur c target "$dynamicRef" uneval
      pure (addErr errors res, uneval)
  | none => pure (errors, uneval)

/-- The referential keyword section of `Schema::validate`
(src/lib.rs lines 789-832): `$ref`, `$recursiveRef`, `$dynamicRef`. -/
def refKws (recur : Recur) (c : VCtx) (errors : List ValidationError)
    (uneval : Uneval) : RunRes (List ValidationError × Uneval) := do
  let (errors, uneval) ← refKw recur c errors uneval
  let (errors, uneval) ← recursiveRefKw recur c errors uneval
  dynamicRefKw recur c errors uneval

/-- The loop over the anyOf branch results (src/lib.rs lines 850-863): each
passing branch merges its reply into the bookkeeping, each failing branch
contributes its error, in branch order; branch results do not depend on the
bookkeeping, so the results can be taken as a list. -/
def anyOfStep : List (Except ValidationError Uneval) → Uneval →
    Uneval × List ValidationError
  | [], uneval => (uneval, [])
  | .ok reply :: rest, uneval => anyOfStep rest (uneval.merge reply)
  | .error e :: rest, uneval =>
    let (u, es) := anyOfStep rest uneval
    (u, e :: es)

/-- The oneOf loop (src/lib.rs lines 866-878): validate branches in order,
breaking as soon as two have passed. -/
def oneOfLoop (bval : Nat → Nat → RunRes (Except ValidationError Uneval)) :
    List (Nat × Nat) → Uneval → List Nat → List ValidationError →
    RunRes (Uneval × List Nat × List ValidationError)
  | [], u, m, es => pure (u, m, es)
  | p :: rest, u, m, es => do
    let r ← bval p.1 p.2
    match r with
    | .error e => oneOfLoop bval rest u m (es ++ [e])
    | .ok reply =>
        let u := u.merge reply
        let m := m ++ [p.1]
        if m.length = 2 then pure (u, m, es) else oneOfLoop bval rest u m es

/-- The error contribution of the oneOf keyword after the loop
(src/lib.rs lines 879-883): no pass surfaces all branch errors, two passes
surface a single `OneOf` error listing them, exactly one pass is silent. -/
def oneOfOutcome (c : VCtx) (errors : List ValidationError) (matched : List Nat)
    (oneofErrors : List ValidationError) : List ValidationError :=
  if matched.isEmpty then errors ++ oneofErrors
  else if matched.length > 1 then errors ++ [c.mkError "oneOf" (.oneOf matched)]
  else errors

/-- The `not` keyword (src/lib.rs lines 834-839). -/
def notKw (recur : Recur) (c : VCtx) (errors : List ValidationError)
    (uneval : Uneval) : RunRes (List ValidationError × Uneval) :=
  match c.self.not with
  | some notSch => do
      let (r, uneval) ← selfValidate recur c notSch "not" uneval
      match r with
      | .ok _ => pure (errors ++ [c.mkError "not" .not], uneval)
      | .error _ => pure (errors, uneval)
  | none => pure (errors, uneval)

/-- The `allOf` keyword (src/lib.rs lines 841-847). -/
def allOfKw (recur : Recur) (c : VCtx) (errors : List ValidationError)
    (uneval : Uneval) : RunRes (List ValidationError × Uneval) :=
  if c.self.all_of.isEmpty then pure (errors, uneval)
  else c.self.all_of.enum.foldlM (fun acc p => do
      let (errors, uneval) := acc
      let (r, uneval) ← selfValidate recur c p.2 ("allOf/" ++ toString p.1) uneval
      pure (addErr errors r, uneval)) (errors, uneval)

/-- The `anyOf` keyword (src/lib.rs lines 849-863): every branch is validated. -/
def anyOfKw (recur : Recur) (c : VCtx) (errors : List ValidationError)
    (uneval : Uneval) : RunRes (List ValidationError × Uneval) :=
  if c.self.any_of.isEmpty then pure (errors, uneval)
  else do
    let results ← c.self.any_of.enum.foldlM (fun rs p => do
        let r ← selfValidateRaw recur c p.2 ("anyOf/" ++ toString p.1)
        pure (rs ++ [r])) []
    let (uneval, anyofErrors) := anyOfStep results uneval
    let errors := if anyofErrors.length = c.self.any_of.length then
        errors ++ anyofErrors
      else errors
    pure (errors, uneval)

/-- The `oneOf` keyword (src/lib.rs lines 865-884). -/
def oneOfKw (recur : Recur) (c : VCtx) (errors : List ValidationError)
    (uneval : Uneval) : RunRes (List ValidationError × Uneval) :=
  if c.self.one_of.isEmpty then pure (errors, uneval)
  else do
    let out ← oneOfLoop (fun i sch => selfValidateRaw recur c sch ("oneOf/" ++ toString i))
        c.self.one_of.enum uneval [] []
    let (uneval, matched, oneofErrors) := out
    pure (oneOfOutcome c errors matched oneofErrors, uneval)

/-- The `if`/`then`/`else` keywords (src/lib.rs lines 886-895). -/
def ifThenElseKw (recur : Recur) (c : VCtx) (errors : List ValidationError)
    (uneval : Uneval) : RunRes (List ValidationError × Uneval) :=
  match c.self.if_ with
  | some ifSch => do
      let (r, uneval) ← selfValidate recur c ifSch "if" uneval
      match r with
      | .ok _ =>
          (match c.self.then_ with
           | some thenSch => do
               let (r2, uneval) ← selfValidate recur c thenSch "then" uneval
               pure (addErr errors r2, uneval)
           | none => pure (errors, uneval))
      | .error _ =>
          (match c.self.else_ with
           | some elseSch => do
               let (r2, uneval) ← selfValidate recur c elseSch "else" uneval
               pure (addErr errors r2, uneval)
           | none => pure (errors, uneval))
  | none => pure (errors, uneval)

/-- The logic-combinator section of `Schema::validate`
(src/lib.rs lines 834-895): `not`, `allOf`, `anyOf`, `oneOf`, `if`/`then`/`else`. -/
def combinatorKws (recur : Recur) (c : VCtx) (errors : List ValidationError)
    (uneval : Uneval) : RunRes (List ValidationError × Uneval) := do
  let (errors, uneval) ← notKw recur c errors uneval
  let (errors, uneval) ← allOfKw recur c errors uneval
  let (errors, uneval) ← anyOfKw recur c errors uneval
  let (errors, uneval) ← oneOfKw recur c errors uneval
  ifThenElseKw recur c errors uneval

/-- The `unevaluatedProperties` keyword (src/lib.rs lines 897-906). -/
def unevalPropsKw (recur : Recur) (c : VCtx) (errors : List ValidationError)
    (uneval : Uneval) : RunRes (List ValidationError × Uneval) :=
  match c.self.unevaluated_properties, c.v with
  | some sch, .obj members => do
      let errors ← uneval.props.foldlM (fun errors pname => do
          match assocGet members pname with
          | some pvalue => do
              let r ← childValidate recur c sch "unevaluatedProperties" pvalue (escape pname)
              pure (addErr errors r)
          | none => pure errors) errors
      pure (errors, { uneval with props := [] })
  | _, _ => pure (errors, uneval)

/-- The `unevaluatedItems` keyword (src/lib.rs lines 908-917). -/
def unevalItemsKw (recur : Recur) (c : VCtx) (errors : List ValidationError)
    (uneval : Uneval) : RunRes (List ValidationError × Uneval) :=
  match c.self.unevaluated_items, c.v with
  | some sch, .arr arr => do
      let errors ← uneval.items.foldlM (fun errors i => do
          match arr[i]? with
          | some pvalue => do
              let r ← childValidate recur c sch "unevaluatedItems" pvalue (toString i)
              pure (addErr errors r)
          | none => pure errors) errors
      pure (errors, { uneval with items := [] })
  | _, _ => pure (errors, uneval)

/-- The annotation-consuming section of `Schema::validate`
(src/lib.rs lines 897-917): `unevaluatedProperties`, `unevaluatedItems`. -/
def unevalKws (recur : Recur) (c : VCtx) (errors : List ValidationError)
    (uneval : Uneval) : RunRes (List ValidationError × Uneval) := do
  let (errors, uneval) ← unevalPropsKw recur c errors uneval
  unevalItemsKw recur c errors uneval

/-- The final aggregation of `Schema::validate` (src/lib.rs lines 919-927):
no error is success, one error returns as itself, several wrap into a `Group`. -/
def aggregateErrors (c : VCtx) (errors : List ValidationError) (uneval : Uneval) :
    Except ValidationError Uneval :=
  match errors with
  | [] => .ok uneval
  | [e] => .error e
  | es => .error ((c.mkError "" .group).withCauses es)

/-- The keyword pipeline of `Schema::validate` for a non-boolean node, in source
order, accumulating keyword errors and the unevaluated bookkeeping. -/
def Schema.processKeywords (recur : Recur) (c : VCtx) :
    RunRes (List ValidationError × Uneval) := do
  let uneval := Uneval.ofValue c.v
  let errors := typeKw c []
  let errors := enumKw c errors
  let errors := constKw c errors
  let errors := formatKw c errors
  let (errors, uneval) ← shapeKws recur c errors uneval
  let (errors, uneval) ← refKws recur c errors uneval
  let (errors, uneval) ← combinatorKws recur c errors uneval
  unevalKws recur c errors uneval

/-- The body of `Schema::validate` after the cycle guard: boolean shortcut, then
the keyword pipeline, then error aggregation. -/
def validateBody (recur : Recur) (c : VCtx) : RunRes (Except ValidationError Uneval) :=
  match c.self.boolean with
  | some false => pure (.error (c.mkError "" .falseSchema))
  | some true => pure (.ok (Uneval.ofValue c.v))
  | none => do
      let (errors, uneval) ← Schema.processKeywords recur c
      pure (aggregateErrors c errors uneval)

/-- `Schema::validate` in src/lib.rs, made structural on a fuel counter: with no
fuel the run reports `fuelOut` (Rust recursion has no such bound; every
terminating Rust run corresponds to every large enough fuel). -/
def Schema.validate : Nat → Schemas → Schema → Value → String → Scope →
    RunRes (Except ValidationError Uneval)
  | 0, _, _, _, _, _ => .fuelOut
  | Nat.succ fuel, schemas, self, v, vloc, scope =>
    if scope.hasCycle then
      .val (.error (VCtx.mkError ⟨schemas, self, v, vloc, scope⟩ "" .refCycle))
    else
      validateBody (fun s v2 vl sc => Schema.validate fuel schemas s v2 vl sc)
        ⟨schemas, self, v, vloc, scope⟩

/-- `Schemas::validate` in src/lib.rs: panic when the index was not generated for
this pool, otherwise run the root schema and wrap failures in a `Schema` error. -/
def Schemas.validate (self : Schemas) (fuel : Nat) (v : Value) (schIndex : Nat) :
    RunRes (Except ValidationError Unit) :=
  match self.list[schIndex]? with
  | none => .panic
  | some sch =>
    match Schema.validate fuel self sch v "" (Scope.root sch.index "" 0) with
    | .val (.error e) => .val (.error (.mk "" sch.loc "" (.schema sch.loc) [e]))
    | .val (.ok _) => .val (.ok ())
    | .panic => .panic
    | .fuelOut => .fuelOut

/-- Modelled from the spec: the compiler failure modes of section 7 (the enum lives
in compiler.rs, which is not among the sources; loader.rs constructs the
`LoadUrlError` and `UnsupportedUrlScheme` variants). -/
inductive CompileError where
  | loadUrlError (url : String) (src : String)
  | parseUrlError (url : String) (src : String)
  | unsupportedUrlScheme (url : String)
  | duplicateId (url id ptr1 ptr2 : String)
  | anchorNotFound (url reference : String)
  | invalidJsonPtr (loc : String)
  | jsonPtrNotFound (loc : String)
  | unsupportedDraft (url : String)
  | unsupportedVocabulary (url vocabulary : String)
  | bug (msg : String)

/-- Rust `str::strip_prefix`. -/
def stripPre (pre s : String) : Option String :=
  if pre.isPrefixOf s then some (s.drop pre.length) else none

/-- The scheme of an absolute URL: the part before the first colon (what the url
crate's `Url::scheme` returns). -/
def urlScheme (url : String) : String :=
  ((url.toList.takeWhile (fun ch => ch ≠ ':')).asString)

/-- The `STD_METAFILES` table of src/loader.rs: the bundled metaschema paths.  The
file contents come from include_str of files that are not among the sources, so
each path is mapped to an abstract content token (the path itself); the claims
being checked treat contents opaquely through the parsing port. -/
def STD_METAFILES : List (String × String) :=
  [ ("draft-04/schema", "draft-04/schema"),
    ("draft-06/schema", "draft-06/schema"),
    ("draft-07/schema", "draft-07/schema"),
    ("draft/2019-09/schema", "draft/2019-09/schema"),
    ("draft/2019-09/meta/core", "draft/2019-09/meta/core"),
    ("draft/2019-09/meta/applicator", "draft/2019-09/meta/applicator"),
    ("draft/2019-09/meta/validation", "draft/2019-09/meta/validation"),
    ("draft/2019-09/meta/meta-data", "draft/2019-09/meta/meta-data"),
    ("draft/2019-09/meta/format", "draft/2019-09/meta/format"),
    ("draft/2019-09/meta/content", "draft/2019-09/meta/content"),
    ("draft/2020-12/schema", "draft/2020-12/schema"),
    ("draft/2020-12/meta/core", "draft/2020-12/meta/core"),
    ("draft/2020-12/meta/applicator", "draft/2020-12/meta/applicator"),
    ("draft/2020-12/meta/unevaluated", "draft/2020-12/meta/unevaluated"),
    ("draft/2020-12/meta/validation", "draft/2020-12/meta/validation"),
    ("draft/2020-12/meta/meta-data", "draft/2020-12/meta/meta-data"),
    ("draft/2020-12/meta/content", "draft/2020-12/meta/content"),
    ("draft/2020-12/meta/format-annotation", "draft/2020-12/meta/format-annotation"),
    ("draft/2020-12/meta/format-assertion", "draft/2020-12/meta/format-assertion") ]

/-- `DefaultUrlLoader` in src/loader.rs: preloaded resources plus per-scheme
loaders (each loader is a port returning parsed JSON or an error message). -/
structure DefaultUrlLoader where
  resources : List (String × Value)
  loaders : List (String × (String → Except String Value))

/-- `HashMap::remove`: the removed value together with the remaining map. -/
def assocRemove {α : Type} : List (String × α) → String → Option (α × List (String × α))
  | [], _ => none
  | p :: rest, k =>
    if p.1 == k then some (p.2, rest)
    else
      match assocRemove rest k with
      | some (v, rest2) => some (v, p :: rest2)
      | none => none

/-- The combined metafile lookup at the top of `DefaultUrlLoader::load`: strip the
json-schema.org prefix (http, then https) and consult the bundled table. -/
def metaLookup (url : String) : Option String :=
  (((stripPre "http://json-schema.org/" url).orElse
      (fun _ => stripPre "https://json-schema.org/" url)).bind
    (fun m => assocGet STD_METAFILES m))

/-- `DefaultUrlLoader::load` in src/loader.rs: bundled metaschemas first, then
preloaded resources (removing the hit), then the scheme-routed loader; with no
loader registered for the scheme the load fails with `UnsupportedUrlScheme`.
`fromStr` is the serde_json parsing port. -/
def DefaultUrlLoader.load (fromStr : String → Except String Value)
    (self : DefaultUrlLoader) (url : String) :
    Except CompileError (Value × DefaultUrlLoader) :=
  match metaLookup url with
  | some content =>
      match fromStr content with
      | .ok v => .ok (v, self)
      | .error e => .error (.loadUrlError url e)
  | none =>
      match assocRemove self.resources url with
      | some (v, rest) => .ok (v, { self with resources := rest })
      | none =>
          match assocGet self.loaders (urlScheme url) with
          | some loader =>
              match loader url with
              | .ok v => .ok (v, self)
              | .error src => .error (.loadUrlError url src)
          | none => .error (.unsupportedUrlScheme url)

/-- C1: every validation call first walks the scope chain: it returns the
immediate `RefCycle` error exactly when some strict ancestor inside the maximal
same-`vid` prefix of the chain (the walk stops at the first ancestor whose `vid`
differs) has the same schema index; otherwise the keyword pipeline runs. -/
theorem claim_C1 (fuel : Nat) (schemas : Schemas) (self : Schema) (v : Value)
    (vloc : String) (scope : Scope) :
    Schema.validate (fuel + 1) schemas self v vloc scope =
      if ((scope.ancestors.takeWhile (fun a => decide (a.vid = scope.vid))).any
            (fun a => decide (a.sch = scope.sch))) then
        .val (.error (.mk (scope.kwLoc "") self.loc vloc .refCycle []))
      else
        validateBody (fun s v2 vl sc => Schema.validate fuel schemas s v2 vl sc)
          ⟨schemas, self, v, vloc, scope⟩ := by
  show (if scope.hasCycle then
      RunRes.val (.error (VCtx.mkError ⟨schemas, self, v, vloc, scope⟩ "" .refCycle))
    else validateBody (fun s v2 vl sc => Schema.validate fuel schemas s v2 vl sc)
      ⟨schemas, self, v, vloc, scope⟩) = _
  rw [hasCycle_eq]
  rfl

theorem listPos_append_singleton (l : List String) (x : String)
    (h : listPos (fun e => e == x) l = none) :
    listPos (fun e => e == x) (l ++ [x]) = some l.length := by
  induction l with
  | nil => simp [listPos]
  | cons a l ih =>
    rw [List.cons_append]
    rw [listPos] at h ⊢
    by_cases ha : (a == x) = true
    · simp [ha] at h
    · simp only [ha, if_neg, Bool.false_eq_true, if_false] at h ⊢
      cases hf : listPos (fun e => e == x) l with
      | none => rw [ih hf]; simp
      | some q => simp [hf] at h

/-- C6: enqueue first normalizes the location by appending a fragment when none is
present; an already compiled location returns its pool index, an already queued
one at position q returns pool length plus q, and a new one is pushed and gets
pool length plus queue length; a repeated enqueue of the same location returns
the same index, so indices are fixed before compilation. -/
theorem claim_C6 (pool : Schemas) (queue : List String) (loc : String) :
    (∀ i, assocGet pool.map (if loc.contains '#' then loc else loc ++ "#") = some i →
        pool.enqueue queue loc = (i, queue)) ∧
    (assocGet pool.map (if loc.contains '#' then loc else loc ++ "#") = none →
      ∀ q, listPos (fun e => e == (if loc.contains '#' then loc else loc ++ "#")) queue
          = some q →
        pool.enqueue queue loc = (pool.list.length + q, queue)) ∧
    (assocGet pool.map (if loc.contains '#' then loc else loc ++ "#") = none →
      listPos (fun e => e == (if loc.contains '#' then loc else loc ++ "#")) queue = none →
        pool.enqueue queue loc =
          (pool.list.length + queue.length,
           queue ++ [if loc.contains '#' then loc else loc ++ "#"])) ∧
    pool.enqueue (pool.enqueue queue loc).2 loc = pool.enqueue queue loc := by
  set nloc := if loc.contains '#' then loc else loc ++ "#" with hnloc
  refine ⟨?_, ?_, ?_, ?_⟩
  · intro i hi
    simp [Schemas.enqueue, ← hnloc, hi]
  · intro hm q hq
    simp [Schemas.enqueue, ← hnloc, hm, hq]
  · intro hm hq
    simp [Schemas.enqueue, ← hnloc, hm, hq]
  · rcases hm : assocGet pool.map nloc with _ | i
    · rcases hq : listPos (fun e => e == nloc) queue with _ | q
      · have h1 : pool.enqueue queue loc =
            (pool.list.length + queue.length, queue ++ [nloc]) := by
          simp [Schemas.enqueue, ← hnloc, hm, hq]
        rw [h1]
        simp [Schemas.enqueue, ← hnloc, hm, listPos_append_singleton queue nloc hq]
      · have h1 : pool.enqueue queue loc = (pool.list.length + q, queue) := by
          simp [Schemas.enqueue, ← hnloc, hm, hq]
        rw [h1]
        simp [Schemas.enqueue, ← hnloc, hm, hq]
    · have h1 : pool.enqueue queue loc = (i, queue) := by
        simp [Schemas.enqueue, ← hnloc, hm]
      rw [h1]
      simp [Schemas.enqueue, ← hnloc, hm]

/-- Witness for C6 at concrete inputs: a compiled location, a queued location and
a fresh location each get the stated index. -/
theorem claim_C6_witness :
    ({ list := [{}], map := [("a#", 0)] } : Schemas).enqueue [] "a" = (0, []) ∧
    ({ list := [{}], map := [] } : Schemas).enqueue ["b#"] "b" = (1, ["b#"]) ∧
    ({ list := [], map := [] } : Schemas).enqueue [] "c" = (0, ["c#"]) := by
  refine ⟨(claim_C6 _ [] "a").1 0 (by with_unfolding_all rfl), ?_, ?_⟩
  · have h := (claim_C6 ({ list := [{}], map := [] } : Schemas) ["b#"] "b").2.1
      (by with_unfolding_all rfl) 0 (by with_unfolding_all rfl)
    exact h.trans (by with_unfolding_all rfl)
  · have h := (claim_C6 ({ list := [], map := [] } : Schemas) [] "c").2.2.1
      (by with_unfolding_all rfl) (by with_unfolding_all rfl)
    exact h.trans (by with_unfolding_all rfl)

/-- C9 counterexample: a URL that is preloaded as a resource but whose scheme has
no registered loader does not fail with `UnsupportedUrlScheme` as the claim
states: the preloaded resource is returned (and consumed). -/
theorem claim_C9_counterexample :
    DefaultUrlLoader.load (fun s => .error s)
        { resources := [("foo://x", Value.null)], loaders := [] } "foo://x"
      = .ok (Value.null, { resources := [], loaders := [] }) ∧
    ({ resources := [("foo://x", Value.null)], loaders := [] } :
        DefaultUrlLoader).loaders.length = 0 := by
  constructor
  · rfl
  · rfl

/-- C9 as amended: a json-schema.org URL naming a bundled metaschema is served
from the built-in table without touching resources or loaders; otherwise a
preloaded resource is returned and removed; otherwise the loader registered for
the URL's scheme runs; with no such loader the load fails with
`UnsupportedUrlScheme`. -/
theorem claim_C9 (fromStr : String → Except String Value)
    (self : DefaultUrlLoader) (url : String) :
    (∀ content, metaLookup url = some content →
      self.load fromStr url =
        match fromStr content with
        | .ok v => .ok (v, self)
        | .error e => .error (.loadUrlError url e)) ∧
    (metaLookup url = none →
      ∀ v rest, assocRemove self.resources url = some (v, rest) →
        self.load fromStr url = .ok (v, { self with resources := rest })) ∧
    (metaLookup url = none →
      assocRemove self.resources url = none →
      ∀ loader, assocGet self.loaders (urlScheme url) = some loader →
        self.load fromStr url =
          match loader url with
          | .ok v => .ok (v, self)
          | .error src => .error (.loadUrlError url src)) ∧
    (metaLookup url = none →
      assocRemove self.resources url = none →
      assocGet self.loaders (urlScheme url) = none →
        self.load fromStr url = .error (.unsupportedUrlScheme url)) := by
  refine ⟨?_, ?_, ?_, ?_⟩
  · intro content hc
    simp [DefaultUrlLoader.load, hc]
  · intro hm v rest hr
    simp [DefaultUrlLoader.load, hm, hr]
  · intro hm hr loader hl
    simp [DefaultUrlLoader.load, hm, hr, hl]
  · intro hm hr hl
    simp [DefaultUrlLoader.load, hm, hr, hl]

/-- Witness for C9 at concrete inputs: a bundled metaschema URL is answered from
the table even though the same URL is preloaded as a resource, and an unknown
scheme with no registered loader fails with `UnsupportedUrlScheme`. -/
theorem claim_C9_witness :
    DefaultUrlLoader.load (fun _ => .ok Value.null)
        { resources := [("http://json-schema.org/draft-07/schema", Value.bool true)],
          loaders := [] }
        "http://json-schema.org/draft-07/schema"
      = .ok (Value.null,
          { resources := [("http://json-schema.org/draft-07/schema", Value.bool true)],
            loaders := [] }) ∧
    DefaultUrlLoader.load (fun s => .error s)
        { resources := [], loaders := [] } "foo://y"
      = .error (.unsupportedUrlScheme "foo://y") := by
  constructor
  · exact (claim_C9 (fun _ => .ok Value.null) _ _).1 "draft-07/schema"
      (by with_unfolding_all rfl)
  · exact (claim_C9 (fun s => .error s) _ _).2.2.2 (by with_unfolding_all rfl)
      (by with_unfolding_all rfl) (by with_unfolding_all rfl)

/-- The dynamic-anchor lookup a single scope frame contributes: fetch the frame's
schema, then its resource root, then ask that root's `dynamic_anchors` map. -/
def frameAnchor (schemas : Schemas) (anchorName : String) (fr : Scope) : Option Nat :=
  (schemas.get? fr.sch).bind fun scopeSch =>
    (schemas.get? scopeSch.resource).bind fun baseSch =>
      assocGet baseSch.dynamic_anchors anchorName

theorem dynamicResolve_eq (schemas : Schemas) (name : String) :
    ∀ (scope : Scope) (cur : Nat),
    (∀ fr ∈ scope.frames,
      ((schemas.get? fr.sch).bind (fun s => schemas.get? s.resource)).isSome) →
    dynamicResolve schemas name scope cur =
      some ((((scope.frames).filterMap (frameAnchor schemas name)).getLast?).getD cur) := by
  intro scope
  induction scope with
  | root sch k v =>
    intro cur h
    have hh := h (.root sch k v) (by simp [Scope.frames])
    simp only [Scope.sch] at hh
    rcases hs : schemas.get? sch with _ | scopeSch
    · rw [hs] at hh; simp at hh
    · rcases hb : schemas.get? scopeSch.resource with _ | baseSch
      · rw [hs] at hh; simp [hb] at hh
      · simp only [dynamicResolve, hs, hb]
        simp only [Scope.frames, List.filterMap, frameAnchor, Scope.sch, hs, hb,
          Option.some_bind]
        rcases ha : assocGet baseSch.dynamic_anchors name with _ | t
        · simp [ha]
        · simp [ha]
  | child sch k v p ih =>
    intro cur h
    have hh := h (.child sch k v p) (by simp [Scope.frames])
    simp only [Scope.sch] at hh
    have hrest : ∀ fr ∈ p.frames,
        ((schemas.get? fr.sch).bind (fun s => schemas.get? s.resource)).isSome := by
      intro fr hfr
      exact h fr (by simp [Scope.frames]; right; exact hfr)
    rcases hs : schemas.get? sch with _ | scopeSch
    · rw [hs] at hh; simp at hh
    · rcases hb : schemas.get? scopeSch.resource with _ | baseSch
      · rw [hs] at hh; simp [hb] at hh
      · simp only [dynamicResolve, hs, hb]
        have hfa : frameAnchor schemas name (.child sch k v p)
            = assocGet baseSch.dynamic_anchors name := by
          simp [frameAnchor, Scope.sch, hs, hb]
        rcases ha : assocGet baseSch.dynamic_anchors name with _ | t
        · simp only [ha]
          rw [ih cur hrest]
          simp only [Scope.frames, List.filterMap_cons, hfa, ha]
        · simp only [ha]
          rw [ih t hrest]
          simp only [Scope.frames, List.filterMap_cons, hfa, ha]
          rcases hrest2 : p.frames.filterMap (frameAnchor schemas name) with _ | ⟨x, xs⟩
          · simp [hrest2]
          · simp only [hrest2, List.getLast?_cons_cons]
            rcases hg : (x :: xs).getLast? with _ | g
            · simp [List.getLast?_eq_none_iff] at hg
            · simp [hg]

/-- C5: when a `$dynamicRef` target declares a dynamic anchor name, the target
actually validated is obtained by looking that name up on the resource root of
every frame of the scope chain; the chain is listed innermost first, so the last
hit — the outermost matching scope — wins, and the statically resolved target is
kept when no frame matches. -/
theorem claim_C5 (schemas : Schemas) (scope : Scope) (dref : Nat) (target : Schema)
    (ht : schemas.get? dref = some target)
    (hres : ∀ fr ∈ scope.frames,
      ((schemas.get? fr.sch).bind (fun s => schemas.get? s.resource)).isSome) :
    (target.dynamic_anchor = none → selectDynamicTarget schemas scope dref = some dref) ∧
    (∀ name, target.dynamic_anchor = some name →
      selectDynamicTarget schemas scope dref =
        some ((((scope.frames).filterMap (frameAnchor schemas name)).getLast?).getD dref)) := by
  constructor
  · intro hn
    simp [selectDynamicTarget, ht, hn]
  · intro name hn
    simp only [selectDynamicTarget, ht, Option.bind_some, hn]
    exact dynamicResolve_eq schemas name scope dref hres

/-- The two-nested-resources scenario of the spec: the outer resource (schema 0)
and the inner resource (schema 1) both declare dynamic anchor "node", at schemas
2 and 3 respectively; schema 3 is the statically resolved target. -/
def dynPool : Schemas :=
  { list :=
      [ { index := 0, resource := 0, dynamic_anchors := [("node", 2)] },
        { index := 1, resource := 1, dynamic_anchors := [("node", 3)] },
        { index := 2, resource := 0 },
        { index := 3, resource := 1, dynamic_anchor := some "node" } ],
    map := [] }

/-- Witness for C5: with the inner frame (schema 1) on top of the outer frame
(schema 0), the outer resource's anchored subschema (index 2) is selected, not
the inner's (index 3). -/
theorem claim_C5_witness :
    selectDynamicTarget dynPool (Scope.child 1 "r" 0 (.root 0 "" 0)) 3 = some 2 := by
  have h := (claim_C5 dynPool (Scope.child 1 "r" 0 (.root 0 "" 0)) 3
      { index := 3, resource := 1, dynamic_anchor := some "node" } rfl ?_).2 "node" rfl
  · exact h.trans (by with_unfolding_all rfl)
  · intro fr hfr
    simp only [Scope.frames, List.mem_cons, List.mem_singleton] at hfr
    rcases hfr with rfl | hfr
    · rfl
    · rcases hfr with rfl | hfr
      · rfl
      · simp at hfr

theorem Uneval.mem_merge_props (u w : Uneval) (p : String) :
    p ∈ (u.merge w).props ↔ p ∈ u.props ∧ p ∈ w.props := by
  simp [Uneval.merge, List.mem_filter]

theorem Uneval.mem_merge_items (u w : Uneval) (i : Nat) :
    i ∈ (u.merge w).items ↔ i ∈ u.items ∧ i ∈ w.items := by
  simp [Uneval.merge, List.mem_filter]

theorem anyOfStep_mem_props (rs : List (Except ValidationError Uneval)) :
    ∀ (u : Uneval) (p : String),
      p ∈ (anyOfStep rs u).1.props ↔
        p ∈ u.props ∧ ∀ rep, Except.ok rep ∈ rs → p ∈ rep.props := by
  induction rs with
  | nil => intro u p; simp [anyOfStep]
  | cons r rs ih =>
    intro u p
    cases r with
    | ok rep =>
      simp only [anyOfStep]
      rw [ih]
      rw [Uneval.mem_merge_props]
      simp only [List.mem_cons]
      constructor
      · rintro ⟨⟨h1, h2⟩, h3⟩
        refine ⟨h1, ?_⟩
        rintro rep' (h | h)
        · cases h; exact h2
        · exact h3 rep' h
      · rintro ⟨h1, h2⟩
        exact ⟨⟨h1, h2 rep (Or.inl rfl)⟩, fun rep' h => h2 rep' (Or.inr h)⟩
    | error e =>
      simp only [anyOfStep]
      rcases hs : anyOfStep rs u with ⟨u', es⟩
      have := ih u p
      rw [hs] at this
      simp only [this]
      simp

theorem anyOfStep_mem_items (rs : List (Except ValidationError Uneval)) :
    ∀ (u : Uneval) (i : Nat),
      i ∈ (anyOfStep rs u).1.items ↔
        i ∈ u.items ∧ ∀ rep, Except.ok rep ∈ rs → i ∈ rep.items := by
  induction rs with
  | nil => intro u i; simp [anyOfStep]
  | cons r rs ih =>
    intro u i
    cases r with
    | ok rep =>
      simp only [anyOfStep]
      rw [ih]
      rw [Uneval.mem_merge_items]
      simp only [List.mem_cons]
      constructor
      · rintro ⟨⟨h1, h2⟩, h3⟩
        refine ⟨h1, ?_⟩
        rintro rep' (h | h)
        · cases h; exact h2
        · exact h3 rep' h
      · rintro ⟨h1, h2⟩
        exact ⟨⟨h1, h2 rep (Or.inl rfl)⟩, fun rep' h => h2 rep' (Or.inr h)⟩
    | error e =>
      simp only [anyOfStep]
      rcases hs : anyOfStep rs u with ⟨u', es⟩
      have := ih u i
      rw [hs] at this
      simp only [this]
      simp

theorem anyOfStep_errors (rs : List (Except ValidationError Uneval)) :
    ∀ u : Uneval, (anyOfStep rs u).2 =
      rs.filterMap (fun r => match r with
        | .error e => some e
        | .ok _ => none) := by
  induction rs with
  | nil => intro u; simp [anyOfStep]
  | cons r rs ih =>
    intro u
    cases r with
    | ok rep => simp only [anyOfStep, List.filterMap_cons]; exact ih (u.merge rep)
    | error e =>
      simp only [anyOfStep, List.filterMap_cons]
      rcases hs : anyOfStep rs u with ⟨u', es⟩
      have := ih u
      rw [hs] at this
      simpa using this

theorem filterMap_err_length (rs : List (Except ValidationError Uneval)) :
    (rs.filterMap (fun r => match r with
        | .error e => some e
        | .ok _ => none)).length = rs.length ↔
      ∀ r ∈ rs, ∃ e, r = Except.error e := by
  induction rs with
  | nil => simp
  | cons r rs ih =>
    cases r with
    | ok rep =>
      simp only [List.filterMap_cons, List.length_cons]
      have hle := List.length_filterMap_le
        (fun r => match r with | Except.error e => some e | Except.ok _ => none) rs
      constructor
      · intro h; omega
      · intro h
        exact absurd (h (Except.ok rep) (by simp)) (by simp)
    | error e =>
      simp only [List.filterMap_cons, List.length_cons]
      constructor
      · intro h
        intro r hr
        rcases List.mem_cons.mp hr with rfl | hr
        · exact ⟨e, rfl⟩
        · exact (ih.mp (by omega)) r hr
      · intro h
        have := ih.mpr (fun r hr => h r (by simp [hr]))
        omega

/-- The branch-collection fold of the anyOf keyword returns the list of branch
results when every branch evaluation returns a value. -/
theorem anyCollect_val (recur : Recur) (c : VCtx) :
    ∀ {l : List (Nat × Nat)} {rs : List (Except ValidationError Uneval)},
      List.Forall₂ (fun q r => selfValidateRaw recur c q.2 ("anyOf/" ++ toString q.1)
          = RunRes.val r) l rs →
      ∀ acc, (l.foldlM (fun a p => do
          let r ← selfValidateRaw recur c p.2 ("anyOf/" ++ toString p.1)
          pure (a ++ [r])) acc) = RunRes.val (acc ++ rs) := by
  intro l rs h
  induction h with
  | nil => intro acc; simp [List.foldlM]
  | cons hq hrest ih =>
    rename_i q b l₁ l₂
    intro acc
    simp only [List.foldlM, hq, RunRes.val_bind, RunRes.pure_def]
    have ih' := ih (acc ++ [b])
    simp only [RunRes.pure_def] at ih'
    rw [ih']
    simp

/-- The branch-collection fold of the anyOf keyword demands every branch: if the
branches before position `p` return values (passing or failing alike) and the
branch at `p` panics, the fold panics, whatever follows. -/
theorem anyCollect_panic (recur : Recur) (c : VCtx) :
    ∀ {pre : List (Nat × Nat)} {rs₁ : List (Except ValidationError Uneval)},
      List.Forall₂ (fun q r => selfValidateRaw recur c q.2 ("anyOf/" ++ toString q.1)
          = RunRes.val r) pre rs₁ →
      ∀ (p : Nat × Nat) (post : List (Nat × Nat)) (acc : List (Except ValidationError Uneval)),
        selfValidateRaw recur c p.2 ("anyOf/" ++ toString p.1) = RunRes.panic →
        ((pre ++ p :: post).foldlM (fun a q => do
            let r ← selfValidateRaw recur c q.2 ("anyOf/" ++ toString q.1)
            pure (a ++ [r])) acc) = RunRes.panic := by
  intro pre rs₁ h
  induction h with
  | nil =>
    intro p post acc hpanic
    simp only [List.nil_append, List.foldlM, hpanic, RunRes.panic_bind]
  | cons hq hrest ih =>
    rename_i q b l₁ l₂
    intro p post acc hpanic
    simp only [List.cons_append, List.foldlM, hq, RunRes.val_bind, RunRes.pure_def]
    have ih' := ih p post (acc ++ [b]) hpanic
    simp only [RunRes.pure_def] at ih'
    exact ih'

/-- C3: for a non-empty anyOf list, first, every branch is validated — a branch
whose evaluation diverges makes the keyword diverge even when branches before it
(passing ones included) completed, so there is no short-circuit on first
success; second, when all branches complete, the node's bookkeeping keeps
exactly the entries that the incoming bookkeeping had and every passing branch
also left unevaluated (set intersection; failing branches leave it unchanged),
and the branch errors are appended to the node's errors exactly when their
number equals the branch count, which holds exactly when every branch failed. -/
theorem claim_C3 (recur : Recur) (c : VCtx) (errors : List ValidationError)
    (uneval : Uneval) (hne : c.self.any_of ≠ []) :
    (∀ (pre : List (Nat × Nat)) (p : Nat × Nat) (post : List (Nat × Nat))
        (rs₁ : List (Except ValidationError Uneval)),
      c.self.any_of.enum = pre ++ p :: post →
      List.Forall₂ (fun q r => selfValidateRaw recur c q.2 ("anyOf/" ++ toString q.1)
          = RunRes.val r) pre rs₁ →
      selfValidateRaw recur c p.2 ("anyOf/" ++ toString p.1) = RunRes.panic →
      anyOfKw recur c errors uneval = RunRes.panic) ∧
    (∀ rs : List (Except ValidationError Uneval),
      List.Forall₂ (fun q r => selfValidateRaw recur c q.2 ("anyOf/" ++ toString q.1)
          = RunRes.val r) c.self.any_of.enum rs →
      ∃ u' : Uneval,
        anyOfKw recur c errors uneval =
          RunRes.val ((if (rs.filterMap (fun r => match r with
                | .error e => some e
                | .ok _ => none)).length = c.self.any_of.length
              then errors ++ rs.filterMap (fun r => match r with
                | .error e => some e
                | .ok _ => none)
              else errors), u') ∧
        ((rs.filterMap (fun r => match r with
            | .error e => some e
            | .ok _ => none)).length = c.self.any_of.length ↔
          ∀ r ∈ rs, ∃ e, r = Except.error e) ∧
        (∀ pp, pp ∈ u'.props ↔
          pp ∈ uneval.props ∧ ∀ rep, Except.ok rep ∈ rs → pp ∈ rep.props) ∧
        (∀ ii, ii ∈ u'.items ↔
          ii ∈ uneval.items ∧ ∀ rep, Except.ok rep ∈ rs → ii ∈ rep.items)) := by
  have hbool : ¬ (c.self.any_of.isEmpty = true) := by
    cases h : c.self.any_of with
    | nil => exact absurd h hne
    | cons a l => simp [List.isEmpty]
  constructor
  · intro pre p post rs₁ henum hf hpanic
    unfold anyOfKw
    rw [if_neg hbool, henum, anyCollect_panic recur c hf p post [] hpanic]
    simp
  · intro rs hf
    unfold anyOfKw
    rw [if_neg hbool, anyCollect_val recur c hf []]
    simp only [List.nil_append, RunRes.val_bind]
    rcases hstep : anyOfStep rs uneval with ⟨u', aerrs⟩
    have herr : aerrs = rs.filterMap (fun r => match r with
        | .error e => some e
        | .ok _ => none) := by
      have := anyOfStep_errors rs uneval
      rw [hstep] at this
      exact this
    have hu : (anyOfStep rs uneval).1 = u' := by rw [hstep]
    have hlen : rs.length = c.self.any_of.length := by
      have h1 := hf.length_eq
      rw [List.enum_length] at h1
      omega
    refine ⟨u', ?_, ?_, ?_, ?_⟩
    · dsimp only
      rw [herr]
      rfl
    · rw [← hlen]
      exact filterMap_err_length rs
    · intro pp
      have := anyOfStep_mem_props rs uneval pp
      rw [hu] at this
      exact this
    · intro ii
      have := anyOfStep_mem_items rs uneval ii
      rw [hu] at this
      exact this

/-- A two-schema pool backing the C3 witness: branch schemas distinguished by
their boolean field. -/
def anyOfPool : Schemas :=
  { list := [{ boolean := some true }, { boolean := some false }], map := [] }

/-- The C3 witness context: a node whose anyOf lists both pool schemas. -/
def anyOfCtx : VCtx := ⟨anyOfPool, { any_of := [0, 1] }, .null, "", .root 0 "" 0⟩

/-- A recursive validator for the C3 witness under which the first branch passes
and the second diverges, making its evaluation observable. -/
def anyOfRecPanic : Recur := fun s _ _ _ =>
  match s.boolean with
  | some true => .val (.ok {})
  | _ => .panic

/-- A recursive validator for the C3 witness under which the first branch passes
leaving only "a" unevaluated and the second fails. -/
def anyOfRecBoth : Recur := fun s _ _ _ =>
  match s.boolean with
  | some true => .val (.ok { props := ["a"], items := [] })
  | _ => .val (.error (.mk "x" "x" "" .not []))

/-- Witness for C3 at concrete inputs: the second anyOf branch is demanded even
though the first passed (the keyword diverges when that branch diverges); and
with one passing and one failing branch, "a" survives the merged bookkeeping,
"b" is dropped, and no branch errors are appended. -/
theorem claim_C3_witness :
    anyOfKw anyOfRecPanic anyOfCtx [] { props := ["a", "b"], items := [] }
      = RunRes.panic ∧
    ∃ u' : Uneval,
      anyOfKw anyOfRecBoth anyOfCtx [] { props := ["a", "b"], items := [] }
          = RunRes.val ([], u') ∧
      "a" ∈ u'.props ∧ ¬ "b" ∈ u'.props := by
  have hne : anyOfCtx.self.any_of ≠ [] := by
    with_unfolding_all decide
  constructor
  · exact (claim_C3 anyOfRecPanic anyOfCtx [] { props := ["a", "b"], items := [] }
      hne).1 [(0, 0)] (1, 1) [] [Except.ok {}] (by with_unfolding_all rfl)
      (List.Forall₂.cons (by with_unfolding_all rfl) List.Forall₂.nil)
      (by with_unfolding_all rfl)
  · obtain ⟨u', heq, hlen, hp, hi⟩ :=
      (claim_C3 anyOfRecBoth anyOfCtx [] { props := ["a", "b"], items := [] }
        hne).2 [Except.ok { props := ["a"], items := [] },
          Except.error (.mk "x" "x" "" .not [])]
        (List.Forall₂.cons (by with_unfolding_all rfl)
          (List.Forall₂.cons (by with_unfolding_all rfl) List.Forall₂.nil))
    rw [if_neg (by with_unfolding_all decide)] at heq
    refine ⟨u', heq, ?_, ?_⟩
    · refine (hp "a").mpr ⟨by simp, ?_⟩
      intro rep hrep
      simp only [List.mem_cons, List.not_mem_nil, or_false] at hrep
      rcases hrep with hrep | hrep
      · cases hrep; simp
      · cases hrep
    · intro hmem
      have h2 := (hp "b").mp hmem
      have := h2.2 { props := ["a"], items := [] } (by simp)
      simp at this

/-- Indices of the oneOf branches whose (pure) result passes, in list order. -/
def passIdx (bval : Nat → Nat → RunRes (Except ValidationError Uneval))
    (branches : List (Nat × Nat)) : List Nat :=
  branches.filterMap (fun p => match bval p.1 p.2 with
    | .val (.ok _) => some p.1
    | _ => none)

/-- Errors of the oneOf branches whose (pure) result fails, in list order. -/
def errList (bval : Nat → Nat → RunRes (Except ValidationError Uneval))
    (branches : List (Nat × Nat)) : List ValidationError :=
  branches.filterMap (fun p => match bval p.1 p.2 with
    | .val (.error e) => some e
    | _ => none)

theorem oneOfLoop_char (bval : Nat → Nat → RunRes (Except ValidationError Uneval)) :
    ∀ (branches : List (Nat × Nat)) (u : Uneval) (m : List Nat)
      (es : List ValidationError),
    m.length ≤ 1 →
    (∀ p ∈ branches, ∃ x, bval p.1 p.2 = RunRes.val x) →
    ∃ u' es', oneOfLoop bval branches u m es
        = .val (u', m ++ (passIdx bval branches).take (2 - m.length), es') ∧
      (passIdx bval branches = [] → es' = es ++ errList bval branches) := by
  intro branches
  induction branches with
  | nil =>
    intro u m es hm hval
    exact ⟨u, es, by simp [oneOfLoop, passIdx], by simp [errList]⟩
  | cons p rest ih =>
    intro u m es hm hval
    obtain ⟨x, hx⟩ := hval p (by simp)
    have hvalrest : ∀ q ∈ rest, ∃ y, bval q.1 q.2 = RunRes.val y :=
      fun q hq => hval q (by simp [hq])
    cases x with
    | error e =>
      have hstep : oneOfLoop bval (p :: rest) u m es
          = oneOfLoop bval rest u m (es ++ [e]) := by
        simp [oneOfLoop, hx]
      obtain ⟨u', es', h1, h2⟩ := ih u m (es ++ [e]) hm hvalrest
      refine ⟨u', es', ?_, ?_⟩
      · rw [hstep, h1]
        have : passIdx bval (p :: rest) = passIdx bval rest := by
          simp [passIdx, List.filterMap_cons, hx]
        rw [this]
      · intro hpass
        have hrest0 : passIdx bval rest = [] := by
          simpa [passIdx, List.filterMap_cons, hx] using hpass
        rw [h2 hrest0]
        simp [errList, List.filterMap_cons, hx]
    | ok reply =>
      have hpassc : passIdx bval (p :: rest) = p.1 :: passIdx bval rest := by
        simp [passIdx, List.filterMap_cons, hx]
      have hlen : (m ++ [p.1]).length = m.length + 1 := by simp
      by_cases h2 : (m ++ [p.1]).length = 2
      · have hm1 : m.length = 1 := by omega
        have hstep : oneOfLoop bval (p :: rest) u m es
            = .val (u.merge reply, m ++ [p.1], es) := by
          simp [oneOfLoop, hx, hm1]
        refine ⟨u.merge reply, es, ?_, ?_⟩
        · rw [hstep, hpassc, hm1]
          simp
        · intro hpass; rw [hpassc] at hpass; cases hpass
      · have hm0 : m.length = 0 := by omega
        have hmnil : m = [] := List.length_eq_zero.mp hm0
        subst hmnil
        have hstep : oneOfLoop bval (p :: rest) u [] es
            = oneOfLoop bval rest (u.merge reply) [p.1] es := by
          simp [oneOfLoop, hx]
        obtain ⟨u', es', h1', h2'⟩ := ih (u.merge reply) [p.1] es
          (by simp) hvalrest
        refine ⟨u', es', ?_, ?_⟩
        · rw [hstep, h1', hpassc]
          simp [List.take_succ_cons]
        · intro hpass; rw [hpassc] at hpass; cases hpass

theorem oneOfLoop_append (bval : Nat → Nat → RunRes (Except ValidationError Uneval)) :
    ∀ (xs ys : List (Nat × Nat)) (u : Uneval) (m : List Nat)
      (es : List ValidationError),
    m.length ≤ 1 →
    oneOfLoop bval (xs ++ ys) u m es =
      (oneOfLoop bval xs u m es >>= fun r =>
        if r.2.1.length = 2 then pure r else oneOfLoop bval ys r.1 r.2.1 r.2.2) := by
  intro xs
  induction xs with
  | nil =>
    intro ys u m es hm
    have hne : ¬ (m.length = 2) := by omega
    simp [oneOfLoop, hne]
  | cons p xs ih =>
    intro ys u m es hm
    rw [List.cons_append]
    cases hb : bval p.1 p.2 with
    | panic =>
      have l1 : oneOfLoop bval (p :: (xs ++ ys)) u m es = .panic := by
        simp [oneOfLoop, hb]
      have l2 : oneOfLoop bval (p :: xs) u m es = .panic := by
        simp [oneOfLoop, hb]
      rw [l1, l2]; rfl
    | fuelOut =>
      have l1 : oneOfLoop bval (p :: (xs ++ ys)) u m es = .fuelOut := by
        simp [oneOfLoop, hb]
      have l2 : oneOfLoop bval (p :: xs) u m es = .fuelOut := by
        simp [oneOfLoop, hb]
      rw [l1, l2]; rfl
    | val r =>
      cases r with
      | error e =>
        have l1 : oneOfLoop bval (p :: (xs ++ ys)) u m es
            = oneOfLoop bval (xs ++ ys) u m (es ++ [e]) := by
          simp [oneOfLoop, hb]
        have l2 : oneOfLoop bval (p :: xs) u m es
            = oneOfLoop bval xs u m (es ++ [e]) := by
          simp [oneOfLoop, hb]
        rw [l1, l2]
        exact ih ys u m (es ++ [e]) hm
      | ok reply =>
        have hlen : (m ++ [p.1]).length = m.length + 1 := by simp
        by_cases h2 : (m ++ [p.1]).length = 2
        · have hm1 : m.length = 1 := by omega
          have l1 : oneOfLoop bval (p :: (xs ++ ys)) u m es
              = .val (u.merge reply, m ++ [p.1], es) := by
            simp [oneOfLoop, hb, hm1]
          have l2 : oneOfLoop bval (p :: xs) u m es
              = .val (u.merge reply, m ++ [p.1], es) := by
            simp [oneOfLoop, hb, hm1]
          rw [l1, l2]
          simp [h2]
        · have hne1 : ¬ m.length = 1 := by omega
          have hm1 : (m ++ [p.1]).length ≤ 1 := by omega
          have l1 : oneOfLoop bval (p :: (xs ++ ys)) u m es
              = oneOfLoop bval (xs ++ ys) (u.merge reply) (m ++ [p.1]) es := by
            simp [oneOfLoop, hb, hne1]
          have l2 : oneOfLoop bval (p :: xs) u m es
              = oneOfLoop bval xs (u.merge reply) (m ++ [p.1]) es := by
            simp [oneOfLoop, hb, hne1]
          rw [l1, l2]
          exact ih ys (u.merge reply) (m ++ [p.1]) es hm1

/-- C4: the oneOf loop visits branches in list order and, as `oneOfLoop_append`
shows, the suffix after the branch completing the second pass is never
evaluated; when every branch result is a value, the matched list is the first
(at most) two passing indices in order, with all branch errors collected when
none passes; the keyword then contributes nothing for exactly one pass, all
branch errors for zero passes, and a single `OneOf` error carrying the matched
indices for two passes. -/
theorem claim_C4 (bval : Nat → Nat → RunRes (Except ValidationError Uneval))
    (branches : List (Nat × Nat)) (uneval : Uneval) :
    ((∀ p ∈ branches, ∃ x, bval p.1 p.2 = RunRes.val x) →
      ∃ u' es', oneOfLoop bval branches uneval [] []
          = .val (u', (passIdx bval branches).take 2, es') ∧
        (passIdx bval branches = [] → es' = errList bval branches)) ∧
    (∀ xs ys, branches = xs ++ ys →
      oneOfLoop bval branches uneval [] [] =
        (oneOfLoop bval xs uneval [] [] >>= fun r =>
          if r.2.1.length = 2 then pure r else oneOfLoop bval ys r.1 r.2.1 r.2.2)) ∧
    (∀ c errors matched oneofErrors,
      (matched = [] →
        oneOfOutcome c errors matched oneofErrors = errors ++ oneofErrors) ∧
      (matched.length = 1 → oneOfOutcome c errors matched oneofErrors = errors) ∧
      (matched.length > 1 → oneOfOutcome c errors matched oneofErrors
          = errors ++ [c.mkError "oneOf" (.oneOf matched)])) := by
  refine ⟨?_, ?_, ?_⟩
  · intro hval
    obtain ⟨u', es', h1, h2⟩ := oneOfLoop_char bval branches uneval [] []
      (by simp) hval
    exact ⟨u', es', by simpa using h1, by simpa using h2⟩
  · intro xs ys hsplit
    subst hsplit
    exact oneOfLoop_append bval xs ys uneval [] [] (by simp)
  · intro c errors matched oneofErrors
    refine ⟨?_, ?_, ?_⟩
    · intro h; subst h; simp [oneOfOutcome]
    · intro h
      have hne : ¬ matched.isEmpty = true := by
        cases matched with
        | nil => simp at h
        | cons a l => simp
      have hgt : ¬ matched.length > 1 := by omega
      simp [oneOfOutcome, hne, hgt]
    · intro h
      have hne : ¬ matched.isEmpty = true := by
        cases matched with
        | nil => simp at h
        | cons a l => simp
      simp [oneOfOutcome, hne, h]

/-- Witness for C4 at concrete inputs: three branches where the first two pass
and the third would panic if evaluated; the loop stops after the second pass
and returns matched `[0, 1]` untouched by the third branch, and the outcome is
the single `OneOf` error. -/
theorem claim_C4_witness :
    oneOfLoop (fun i _ => if i ≤ 1 then .val (.ok {}) else .panic)
        [(0, 10), (1, 11), (2, 12)] {} [] []
      = .val ({}, [0, 1], []) ∧
    oneOfOutcome ⟨{}, {}, .null, "", .root 0 "" 0⟩ [] [0, 1] []
      = [VCtx.mkError ⟨{}, {}, .null, "", .root 0 "" 0⟩ "oneOf" (.oneOf [0, 1])] := by
  constructor
  · have h := (claim_C4 (fun i _ => if i ≤ 1 then .val (.ok {}) else .panic)
      [(0, 10), (1, 11), (2, 12)] {}).2.1 [(0, 10), (1, 11)] [(2, 12)] rfl
    rw [h]
    with_unfolding_all rfl
  · have h := ((claim_C4 (fun i _ => if i ≤ 1 then .val (.ok {}) else .panic)
      [(0, 10), (1, 11), (2, 12)] {}).2.2
        ⟨{}, {}, .null, "", .root 0 "" 0⟩ [] [0, 1] []).2.2 (by simp)
    simpa using h

/-- C2: for a non-boolean node whose keyword pipeline collected the given errors
and bookkeeping, validation succeeds exactly when no error was collected, a
single collected error is returned as itself, and two or more are wrapped in a
`Group` error at the node location whose causes are exactly the collected
errors, in order. -/
theorem claim_C2 (recur : Recur) (c : VCtx) (errors : List ValidationError)
    (uneval : Uneval) (hb : c.self.boolean = none)
    (hp : Schema.processKeywords recur c = .val (errors, uneval)) :
    (errors = [] → validateBody recur c = .val (.ok uneval)) ∧
    (∀ u', validateBody recur c = .val (.ok u') → errors = [] ∧ u' = uneval) ∧
    (∀ e, errors = [e] → validateBody recur c = .val (.error e)) ∧
    (2 ≤ errors.length →
      validateBody recur c = .val (.error
        (.mk (c.scope.kwLoc "") c.self.loc c.vloc .group errors))) := by
  have hv : validateBody recur c = .val (aggregateErrors c errors uneval) := by
    simp [validateBody, hb, hp]
  refine ⟨?_, ?_, ?_, ?_⟩
  · intro he; subst he; rw [hv]; rfl
  · intro u' hu
    rw [hv] at hu
    match he : errors with
    | [] =>
      subst he
      simp [aggregateErrors] at hu
      exact ⟨rfl, hu.symm⟩
    | [e] => subst he; simp [aggregateErrors] at hu
    | e1 :: e2 :: rest => subst he; simp [aggregateErrors] at hu
  · intro e he; subst he; rw [hv]; rfl
  · intro hlen
    match he : errors with
    | [] => subst he; simp at hlen
    | [e] => subst he; simp at hlen
    | e1 :: e2 :: rest =>
      subst he
      rw [hv]
      have hemp : ("" : String).isEmpty = true := rfl
      simp [aggregateErrors, VCtx.mkError, ValidationError.withCauses, hemp]

/-- A node carrying two failing keywords, used to exercise the Group case. -/
def twoErrSchema : Schema := { min_properties := some 2, required := ["x"] }

/-- Witness for C2: on the empty object the node collects two errors and returns
a single `Group` wrapping exactly them, in keyword order. -/
theorem claim_C2_witness :
    validateBody (fun _ _ _ _ => .fuelOut)
        ⟨{ list := [twoErrSchema], map := [] }, twoErrSchema, .obj [], "", .root 0 "" 0⟩
      = .val (.error (.mk "" "" "" .group
          [.mk "/minProperties" "/minProperties" "" (.minProperties 0 2) [],
           .mk "/required" "/required" "" (.required ["x"]) []])) := by
  have h := (claim_C2 (fun _ _ _ _ => .fuelOut)
      ⟨{ list := [twoErrSchema], map := [] }, twoErrSchema, .obj [], "", .root 0 "" 0⟩
      [.mk "/minProperties" "/minProperties" "" (.minProperties 0 2) [],
       .mk "/required" "/required" "" (.required ["x"]) []]
      { props := [], items := [] } rfl (by with_unfolding_all rfl)).2.2.2 (by simp)
  exact h.trans (by with_unfolding_all rfl)

/-- The schema `{"type":"integer"}` and its singleton pool. -/
def intSchema : Schema := { types := [.integer] }

def intPool : Schemas := { list := [intSchema], map := [] }

theorem ratFract_eq_zero_iff (q : Rat) : ratFract q = 0 ↔ q.den = 1 := by
  unfold ratFract ratTrunc
  constructor
  · intro h
    have hq : q = ((q.num / (q.den : Int) : Int) : ℚ) := by
      have := sub_eq_zero.mp h
      exact this
    have hd := congrArg Rat.den hq
    simpa using hd
  · intro h
    have hq : ((q.num : ℚ)) = q := by
      rw [← Rat.den_eq_one_iff]
      exact h
    rw [h]
    simp [hq]

/-- C7: with `types = [integer]` and a number instance, the type keyword accepts
exactly when the number is an i64, a u64, or a double with zero fractional
part — equivalently, exactly when its mathematical value is an integer — and in
particular `3.0` validates against the schema while `3.5` produces a `Type`
error. -/
theorem claim_C7 :
    (∀ (c : VCtx) (n : Number) (errors : List ValidationError),
      c.self.types = [JsonType.integer] → c.v = .num n →
      (typeKw c errors =
        if n.isI64 || n.isU64 || (match n.asF64 with
            | some f => decide (ratFract f = 0)
            | none => false) then errors
        else errors ++ [c.mkError "type" (.type .number [.integer])]) ∧
      ((n.isI64 || n.isU64 || (match n.asF64 with
          | some f => decide (ratFract f = 0)
          | none => false)) = true ↔ n.toRat.den = 1)) ∧
    Schema.validate 5 intPool intSchema (.num (.float 3)) "" (.root 0 "" 0)
      = .val (.ok { props := [], items := [] }) ∧
    Schema.validate 5 intPool intSchema (.num (.float (7/2))) "" (.root 0 "" 0)
      = .val (.error (.mk "/type" "/type" "" (.type .number [.integer]) [])) := by
  refine ⟨?_, by with_unfolding_all rfl, by with_unfolding_all rfl⟩
  intro c n errors htypes hv
  constructor
  · rw [typeKw, htypes, hv]
    simp only [JsonType.of, List.isEmpty_cons, List.any_cons, List.any_nil,
      Bool.or_false]
    cases hm : (n.isI64 || n.isU64 || (match n.asF64 with
        | some f => decide (ratFract f = 0)
        | none => false)) with
    | true => simp [hm]
    | false => simp [hm]
  · cases n with
    | posInt k =>
      simp [Number.isU64, Number.toRat]
    | negInt k =>
      simp [Number.isI64, Number.toRat]
    | float q =>
      simp only [Number.isI64, Number.isU64, Number.asF64, Number.toRat,
        Bool.false_or, decide_eq_true_eq]
      exact ratFract_eq_zero_iff q

/-- Witness for C7: at the concrete number `7/2` the type keyword emits exactly
the `Type` error. -/
theorem claim_C7_witness :
    typeKw ⟨intPool, intSchema, .num (.float (7/2)), "", .root 0 "" 0⟩ []
      = [.mk "/type" "/type" "" (.type .number [.integer]) []] := by
  have h := (claim_C7.1 ⟨intPool, intSchema, .num (.float (7/2)), "", .root 0 "" 0⟩
      (.float (7/2)) [] rfl rfl).1
  exact h.trans (by with_unfolding_all rfl)

/-- C8 counterexample: the `got` payload of the AdditionalProperties error is
collected by iterating the `uneval.props` hash set, and two enumeration orders
of the same set — both possible across runs, since Rust seeds each `HashSet`
instance differently — produce different error values; so two runs of validate
on the same pair need not produce identical error payloads. -/
theorem claim_C8_counterexample :
    (["b", "c"] : List String).Perm ["c", "b"] ∧
    additionalPropertiesBoolErr
        ⟨{ list := [], map := [] }, {}, .obj [("b", .null), ("c", .null)], "",
          .root 0 "" 0⟩ false ["b", "c"]
      ≠ additionalPropertiesBoolErr
        ⟨{ list := [], map := [] }, {}, .obj [("b", .null), ("c", .null)], "",
          .root 0 "" 0⟩ false ["c", "b"] := by
  constructor
  · exact List.Perm.swap "c" "b" []
  · intro h
    simp [additionalPropertiesBoolErr, VCtx.mkError] at h

/-- The validator reads a hash set only through its iteration order, which Rust
leaves unspecified (each `HashSet`/`HashMap` carries a per-instance random
seed). The order is made an explicit parameter: an enumeration strategy gives,
for every read site — identified by the scope chain, the instance location and
the keyword — the order in which the set's current contents are walked. -/
structure HashOrder where
  props : Scope → String → String → List String → List String
  items : Scope → String → String → List Nat → List Nat

/-- An admissible enumeration strategy walks each set's contents exactly once:
every returned order is a permutation of the contents. -/
def HashOrder.ok (ρ : HashOrder) : Prop :=
  (∀ sc vl kw l, (ρ.props sc vl kw l).Perm l) ∧
  (∀ sc vl kw l, (ρ.items sc vl kw l).Perm l)

/-- The enumeration the order-free pipeline fixed implicitly: walk the set in
the model's own list order. -/
def canonOrder : HashOrder :=
  ⟨fun _ _ _ l => l, fun _ _ _ l => l⟩

/-- An enumeration strategy that walks every set backwards. -/
def reverseOrder : HashOrder :=
  ⟨fun _ _ _ l => l.reverse, fun _ _ _ l => l.reverse⟩

/-- The `additionalProperties` keyword with the hash-set iteration order
explicit (src/lib.rs lines 504-530): both the `got` payload of the bool variant
and the visit order of the schema variant follow the enumeration of
`uneval.props`. -/
def objAdditionalPropertiesH (ρ : HashOrder) (recur : Recur) (c : VCtx)
    (members : List (String × Value)) (errors : List ValidationError)
    (uneval : Uneval) : RunRes (List ValidationError × Uneval) :=
  match c.self.additional_properties with
  | some (.bool allowed) =>
      pure (errors ++ additionalPropertiesBoolErr c allowed
              (ρ.props c.scope c.vloc "additionalProperties" uneval.props),
            { uneval with props := [] })
  | some (.schemaRef sch) => do
      let errors ← (ρ.props c.scope c.vloc "additionalProperties"
          uneval.props).foldlM (fun errors pname => do
          match assocGet members pname with
          | some pvalue => do
              let r ← childValidate recur c sch "additionalProperties" pvalue (escape pname)
              pure (addErr errors r)
          | none => pure errors) errors
      pure (errors, { uneval with props := [] })
  | none => pure (errors, uneval)

/-- The `additionalItems` keyword with the hash-set iteration order explicit
(src/lib.rs lines 578-604): the schema variant visits `uneval.items` in
enumeration order (the bool variant only reads the set's size). -/
def arrAdditionalItemsH (ρ : HashOrder) (recur : Recur) (c : VCtx)
    (arr : List Value) (errors : List ValidationError) (uneval : Uneval) :
    RunRes (List ValidationError × Uneval) :=
  match c.self.additional_items with
  | some (.bool allowed) =>
      let errors := if !allowed && !uneval.items.isEmpty then
          errors ++ [c.mkError "additionalItems"
            (.additionalItems (arr.length - uneval.items.length))]
        else errors
      pure (errors, { uneval with items := [] })
  | some (.schemaRef sch) => do
      let errors ← (ρ.items c.scope c.vloc "additionalItems"
          uneval.items).foldlM (fun errors index => do
          match arr[index]? with
          | some pvalue => do
              let r ← childValidate recur c sch "additionalItems" pvalue (toString index)
              pure (addErr errors r)
          | none => pure errors) errors
      pure (errors, { uneval with items := [] })
  | none => pure (errors, uneval)

/-- The 2020-12 `items` keyword with the hash-set iteration order explicit
(src/lib.rs lines 613-621). -/
def arrItems2020H (ρ : HashOrder) (recur : Recur) (c : VCtx) (arr : List Value)
    (errors : List ValidationError) (uneval : Uneval) :
    RunRes (List ValidationError × Uneval) :=
  match c.self.items2020 with
  | some sch => do
      let errors ← (ρ.items c.scope c.vloc "items" uneval.items).foldlM
          (fun errors index => do
          match arr[index]? with
          | some pvalue => do
              let r ← childValidate recur c sch "items" pvalue (toString index)
              pure (addErr errors r)
          | none => pure errors) errors
      pure (errors, { uneval with items := [] })
  | none => pure (errors, uneval)

/-- The `unevaluatedProperties` keyword with the hash-set iteration order
explicit (src/lib.rs lines 897-906). -/
def unevalPropsKwH (ρ : HashOrder) (recur : Recur) (c : VCtx)
    (errors : List ValidationError) (uneval : Uneval) :
    RunRes (List ValidationError × Uneval) :=
  match c.self.unevaluated_properties, c.v with
  | some sch, .obj members => do
      let errors ← (ρ.props c.scope c.vloc "unevaluatedProperties"
          uneval.props).foldlM (fun errors pname => do
          match assocGet members pname with
          | some pvalue => do
              let r ← childValidate recur c sch "unevaluatedProperties" pvalue (escape pname)
              pure (addErr errors r)
          | none => pure errors) errors
      pure (errors, { uneval with props := [] })
  | _, _ => pure (errors, uneval)

/-- The `unevaluatedItems` keyword with the hash-set iteration order explicit
(src/lib.rs lines 908-917). -/
def unevalItemsKwH (ρ : HashOrder) (recur : Recur) (c : VCtx)
    (errors : List ValidationError) (uneval : Uneval) :
    RunRes (List ValidationError × Uneval) :=
  match c.self.unevaluated_items, c.v with
  | some sch, .arr arr => do
      let errors ← (ρ.items c.scope c.vloc "unevaluatedItems"
          uneval.items).foldlM (fun errors i => do
          match arr[i]? with
          | some pvalue => do
              let r ← childValidate recur c sch "unevaluatedItems" pvalue (toString i)
              pure (addErr errors r)
          | none => pure errors) errors
      pure (errors, { uneval with items := [] })
  | _, _ => pure (errors, uneval)

/-- The object-shaped keyword section with the hash-set iteration order
explicit; only `additionalProperties` enumerates a hash set, the other
keywords are shared with the order-free pipeline. -/
def objectKwsH (ρ : HashOrder) (recur : Recur) (c : VCtx)
    (members : List (String × Value)) (errors : List ValidationError)
    (uneval : Uneval) : RunRes (List ValidationError × Uneval) := do
  let errors := objChecks c members errors
  let (errors, uneval) ← objDependencies recur c members errors uneval
  let (errors, uneval) ← objDependentSchemas recur c members errors uneval
  let errors := objDependentRequired c members errors
  let (errors, uneval) ← objProperties recur c members errors uneval
  let (errors, uneval) ← objPatternProperties recur c members errors uneval
  let (errors, uneval) ← objPropertyNames recur c members errors uneval
  objAdditionalPropertiesH ρ recur c members errors uneval

/-- The array-shaped keyword section with the hash-set iteration order
explicit. -/
def arrayKwsH (ρ : HashOrder) (recur : Recur) (c : VCtx) (arr : List Value)
    (errors : List ValidationError) (uneval : Uneval) :
    RunRes (List ValidationError × Uneval) := do
  let errors := arrChecks c arr errors
  let (errors, uneval) ← arrItems recur c arr errors uneval
  let (errors, uneval) ← arrAdditionalItemsH ρ recur c arr errors uneval
  let (errors, uneval) ← arrPrefixItems recur c arr errors uneval
  let (errors, uneval) ← arrItems2020H ρ recur c arr errors uneval
  let (containsMatched, containsErrors, uneval) ← arrContains recur c arr uneval
  pure (arrContainsChecks c containsMatched containsErrors errors, uneval)

/-- The shape dispatch with the hash-set iteration order explicit. -/
def shapeKwsH (ρ : HashOrder) (recur : Recur) (c : VCtx)
    (errors : List ValidationError) (uneval : Uneval) :
    RunRes (List ValidationError × Uneval) :=
  match c.v with
  | .obj members => objectKwsH ρ recur c members errors uneval
  | .arr elems => arrayKwsH ρ recur c elems errors uneval
  | .str s => pure (stringKws c s errors, uneval)
  | .num n => pure (numberKws c n errors, uneval)
  | _ => pure (errors, uneval)

/-- The annotation-consuming section with the hash-set iteration order
explicit. -/
def unevalKwsH (ρ : HashOrder) (recur : Recur) (c : VCtx)
    (errors : List ValidationError) (uneval : Uneval) :
    RunRes (List ValidationError × Uneval) := do
  let (errors, uneval) ← unevalPropsKwH ρ recur c errors uneval
  unevalItemsKwH ρ recur c errors uneval

/-- The keyword pipeline of `Schema::validate` with the hash-set iteration
order explicit. -/
def processKeywordsH (ρ : HashOrder) (recur : Recur) (c : VCtx) :
    RunRes (List ValidationError × Uneval) := do
  let uneval := Uneval.ofValue c.v
  let errors := typeKw c []
  let errors := enumKw c errors
  let errors := constKw c errors
  let errors := formatKw c errors
  let (errors, uneval) ← shapeKwsH ρ recur c errors uneval
  let (errors, uneval) ← refKws recur c errors uneval
  let (errors, uneval) ← combinatorKws recur c errors uneval
  unevalKwsH ρ recur c errors uneval

/-- The body of `Schema::validate` with the hash-set iteration order
explicit. -/
def validateBodyH (ρ : HashOrder) (recur : Recur) (c : VCtx) :
    RunRes (Except ValidationError Uneval) :=
  match c.self.boolean with
  | some false => pure (.error (c.mkError "" .falseSchema))
  | some true => pure (.ok (Uneval.ofValue c.v))
  | none => do
      let (errors, uneval) ← processKeywordsH ρ recur c
      pure (aggregateErrors c errors uneval)

/-- `Schema::validate` with the hash-set iteration order explicit: one run of
the Rust function corresponds to one admissible enumeration strategy, and the
order-free `Schema.validate` is the canonical-order instance. -/
def Schema.validateH (ρ : HashOrder) : Nat → Schemas → Schema → Value → String →
    Scope → RunRes (Except ValidationError Uneval)
  | 0, _, _, _, _, _ => .fuelOut
  | Nat.succ fuel, schemas, self, v, vloc, scope =>
    if scope.hasCycle then
      .val (.error (VCtx.mkError ⟨schemas, self, v, vloc, scope⟩ "" .refCycle))
    else
      validateBodyH ρ (fun s v2 vl sc => Schema.validateH ρ fuel schemas s v2 vl sc)
        ⟨schemas, self, v, vloc, scope⟩

/-- `Schemas::validate` with the hash-set iteration order explicit. -/
def Schemas.validateH (ρ : HashOrder) (self : Schemas) (fuel : Nat) (v : Value)
    (schIndex : Nat) : RunRes (Except ValidationError Unit) :=
  match self.list[schIndex]? with
  | none => .panic
  | some sch =>
    match Schema.validateH ρ fuel self sch v "" (Scope.root sch.index "" 0) with
    | .val (.error e) => .val (.error (.mk "" sch.loc "" (.schema sch.loc) [e]))
    | .val (.ok _) => .val (.ok ())
    | .panic => .panic
    | .fuelOut => .fuelOut

/-- Two error kinds agree up to hash enumeration: equal, except that the
AdditionalProperties key lists — collected by walking a hash set — may be
permutations of each other. -/
def KindRel (k₁ k₂ : ErrorKind) : Prop :=
  k₁ = k₂ ∨ ∃ g₁ g₂, k₁ = ErrorKind.additionalProperties g₁ ∧
    k₂ = ErrorKind.additionalProperties g₂ ∧ g₁.Perm g₂

/-- Depth-bounded agreement of two error trees up to hash enumeration: equal
locations, kinds agreeing up to `KindRel`, and cause lists agreeing up to a
permutation with pairwise related elements. -/
def ErrRelN : Nat → ValidationError → ValidationError → Prop
  | 0, _, _ => False
  | n+1, .mk kl₁ akl₁ il₁ k₁ cs₁, .mk kl₂ akl₂ il₂ k₂ cs₂ =>
      kl₁ = kl₂ ∧ akl₁ = akl₂ ∧ il₁ = il₂ ∧ KindRel k₁ k₂ ∧
      ∃ l, cs₁.Perm l ∧ List.Forall₂ (ErrRelN n) l cs₂

/-- Agreement of two error trees up to hash enumeration, at any depth. -/
def ErrRel (e₁ e₂ : ValidationError) : Prop := ∃ n, ErrRelN n e₁ e₂

/-- Agreement of two collected error lists up to hash enumeration: a
permutation with pairwise related elements. -/
def ErrsRel (es₁ es₂ : List ValidationError) : Prop :=
  ∃ l, es₁.Perm l ∧ List.Forall₂ ErrRel l es₂

/-- Agreement of the unevaluated bookkeeping up to hash enumeration: equal
sets, free list orders. -/
def UnevalRel (u₁ u₂ : Uneval) : Prop :=
  u₁.props.Perm u₂.props ∧ u₁.items.Perm u₂.items

/-- Agreement of two node results up to hash enumeration. -/
def ResRel : Except ValidationError Uneval → Except ValidationError Uneval → Prop
  | .ok u₁, .ok u₂ => UnevalRel u₁ u₂
  | .error e₁, .error e₂ => ErrRel e₁ e₂
  | _, _ => False

/-- Agreement of two subvalidation verdicts up to hash enumeration. -/
def UnitResRel : Except ValidationError Unit → Except ValidationError Unit → Prop
  | .ok _, .ok _ => True
  | .error e₁, .error e₂ => ErrRel e₁ e₂
  | _, _ => False

/-- Agreement of two keyword-state pairs up to hash enumeration. -/
def StRel (p₁ p₂ : List ValidationError × Uneval) : Prop :=
  ErrsRel p₁.1 p₂.1 ∧ UnevalRel p₁.2 p₂.2

/-- Lift a relation to run outcomes: completed runs carry related values, and
two runs that fail to complete (a Rust panic, or fuel exhaustion of the
embedding) are compared no further. -/
def RunRel {α β : Type} (R : α → β → Prop) : RunRes α → RunRes β → Prop
  | .val a, .val b => R a b
  | .val _, .panic => False
  | .val _, .fuelOut => False
  | .panic, .val _ => False
  | .fuelOut, .val _ => False
  | _, _ => True

/-- Two recursive validators agreeing up to hash enumeration on every call. -/
def RecurRel (recur₁ recur₂ : Recur) : Prop :=
  ∀ s v vl sc, RunRel ResRel (recur₁ s v vl sc) (recur₂ s v vl sc)

theorem kindRel_refl (k : ErrorKind) : KindRel k k := Or.inl rfl

theorem errRelN_mono : ∀ {n m : Nat}, n ≤ m →
    ∀ {e₁ e₂ : ValidationError}, ErrRelN n e₁ e₂ → ErrRelN m e₁ e₂ := by
  intro n
  induction n with
  | zero => intro m _ e₁ e₂ h; exact absurd h (by simp [ErrRelN])
  | succ n ih =>
    intro m hm e₁ e₂ h
    cases m with
    | zero => omega
    | succ m =>
      cases e₁ with
      | mk kl₁ akl₁ il₁ k₁ cs₁ =>
        cases e₂ with
        | mk kl₂ akl₂ il₂ k₂ cs₂ =>
          obtain ⟨h1, h2, h3, h4, l, hperm, hall⟩ := h
          exact ⟨h1, h2, h3, h4, l, hperm,
            hall.imp (fun _ _ hx => ih (by omega) hx)⟩

theorem forall₂_errRel_depth : ∀ {l₁ l₂ : List ValidationError},
    List.Forall₂ ErrRel l₁ l₂ → ∃ n, List.Forall₂ (ErrRelN n) l₁ l₂ := by
  intro l₁ l₂ h
  induction h with
  | nil => exact ⟨0, List.Forall₂.nil⟩
  | cons h₁ h₂ ih =>
    obtain ⟨n₁, hn₁⟩ := h₁
    obtain ⟨n₂, hn₂⟩ := ih
    refine ⟨max n₁ n₂, List.Forall₂.cons (errRelN_mono (le_max_left n₁ n₂) hn₁) ?_⟩
    exact hn₂.imp (fun _ _ hx => errRelN_mono (le_max_right n₁ n₂) hx)

theorem errRel_refl_aux : ∀ (n : Nat) (e : ValidationError), sizeOf e ≤ n → ErrRel e e := by
  intro n
  induction n with
  | zero =>
    intro e h
    cases e with
    | mk kl akl il k cs => simp at h
  | succ n ih =>
    intro e h
    cases e with
    | mk kl akl il k cs =>
      have hx : ∀ x ∈ cs, ErrRel x x := by
        intro x hmem
        refine ih x ?_
        have h1 : sizeOf x < sizeOf cs := List.sizeOf_lt_of_mem hmem
        have h2 : sizeOf (ValidationError.mk kl akl il k cs) =
            1 + sizeOf kl + sizeOf akl + sizeOf il + sizeOf k + sizeOf cs := by
          simp
        omega
      have hcs : List.Forall₂ ErrRel cs cs := List.forall₂_same.mpr hx
      obtain ⟨m, hm⟩ := forall₂_errRel_depth hcs
      exact ⟨m + 1, rfl, rfl, rfl, kindRel_refl k, cs, List.Perm.refl cs, hm⟩

theorem errRel_refl (e : ValidationError) : ErrRel e e :=
  errRel_refl_aux (sizeOf e) e le_rfl

theorem errRel_mk {kl akl il : String} {k₁ k₂ : ErrorKind}
    {cs₁ cs₂ : List ValidationError} (hk : KindRel k₁ k₂) (hc : ErrsRel cs₁ cs₂) :
    ErrRel (.mk kl akl il k₁ cs₁) (.mk kl akl il k₂ cs₂) := by
  obtain ⟨l, hp, hf⟩ := hc
  obtain ⟨m, hm⟩ := forall₂_errRel_depth hf
  exact ⟨m + 1, rfl, rfl, rfl, hk, l, hp, hm⟩

theorem errsRel_refl (es : List ValidationError) : ErrsRel es es :=
  ⟨es, List.Perm.refl es, List.forall₂_same.mpr (fun x _ => errRel_refl x)⟩

theorem forall₂_append {α β : Type} {R : α → β → Prop} :
    ∀ {a b : List α} {c d : List β}, List.Forall₂ R a c → List.Forall₂ R b d →
      List.Forall₂ R (a ++ b) (c ++ d) := by
  intro a b c d h₁ h₂
  induction h₁ with
  | nil => exact h₂
  | cons hx hxs ih => exact List.Forall₂.cons hx ih

theorem errsRel_append {a₁ a₂ b₁ b₂ : List ValidationError} (ha : ErrsRel a₁ a₂)
    (hb : ErrsRel b₁ b₂) : ErrsRel (a₁ ++ b₁) (a₂ ++ b₂) := by
  obtain ⟨la, hpa, hfa⟩ := ha
  obtain ⟨lb, hpb, hfb⟩ := hb
  exact ⟨la ++ lb, hpa.append hpb, forall₂_append hfa hfb⟩

theorem errsRel_single {e₁ e₂ : ValidationError} (h : ErrRel e₁ e₂) :
    ErrsRel [e₁] [e₂] :=
  ⟨[e₁], List.Perm.refl _, List.Forall₂.cons h List.Forall₂.nil⟩

theorem errsRel_length {es₁ es₂ : List ValidationError} (h : ErrsRel es₁ es₂) :
    es₁.length = es₂.length := by
  obtain ⟨l, hp, hf⟩ := h
  rw [hp.length_eq, hf.length_eq]

theorem errsRel_perm_left {es₀ es₁ es₂ : List ValidationError} (hp : es₀.Perm es₁)
    (h : ErrsRel es₁ es₂) : ErrsRel es₀ es₂ := by
  obtain ⟨l, hpl, hf⟩ := h
  exact ⟨l, hp.trans hpl, hf⟩

theorem errRel_withCauses {cs₁ cs₂ : List ValidationError} (e : ValidationError)
    (h : ErrsRel cs₁ cs₂) : ErrRel (e.withCauses cs₁) (e.withCauses cs₂) := by
  cases e with
  | mk kl akl il k cs => exact errRel_mk (kindRel_refl k) h

theorem runRel_pure {α β : Type} {R : α → β → Prop} {a : α} {b : β} (h : R a b) :
    RunRel R (pure a) (pure b) := h

theorem runRel_bind {α₁ α₂ β₁ β₂ : Type} {R : α₁ → α₂ → Prop} {S : β₁ → β₂ → Prop}
    {x₁ : RunRes α₁} {x₂ : RunRes α₂} {f₁ : α₁ → RunRes β₁} {f₂ : α₂ → RunRes β₂}
    (hx : RunRel R x₁ x₂) (hf : ∀ a b, R a b → RunRel S (f₁ a) (f₂ b)) :
    RunRel S (x₁ >>= f₁) (x₂ >>= f₂) := by
  cases x₁ with
  | val a =>
    cases x₂ with
    | val b => exact hf a b hx
    | panic => exact False.elim hx
    | fuelOut => exact False.elim hx
  | panic =>
    cases x₂ with
    | val b => exact False.elim hx
    | panic => exact True.intro
    | fuelOut => exact True.intro
  | fuelOut =>
    cases x₂ with
    | val b => exact False.elim hx
    | panic => exact True.intro
    | fuelOut => exact True.intro

theorem runRel_imp {α β : Type} {R S : α → β → Prop} (h : ∀ a b, R a b → S a b) :
    ∀ {x₁ : RunRes α} {x₂ : RunRes β}, RunRel R x₁ x₂ → RunRel S x₁ x₂ := by
  intro x₁ x₂ hx
  cases x₁ <;> cases x₂ <;>
    first | exact False.elim hx | exact h _ _ hx | exact True.intro

theorem runRel_comp_perm {x₁ x₂ x₃ : RunRes (List ValidationError)}
    (h₁ : RunRel (fun a b => a.Perm b) x₁ x₂) (h₂ : RunRel ErrsRel x₂ x₃) :
    RunRel ErrsRel x₁ x₃ := by
  cases x₁ <;> cases x₂ <;> cases x₃ <;>
    first
      | exact False.elim h₁
      | exact False.elim h₂
      | exact True.intro
      | exact errsRel_perm_left h₁ h₂

theorem runRel_perm_trans {x₁ x₂ x₃ : RunRes (List ValidationError)}
    (h₁ : RunRel (fun a b => a.Perm b) x₁ x₂)
    (h₂ : RunRel (fun a b => a.Perm b) x₂ x₃) :
    RunRel (fun a b => a.Perm b) x₁ x₃ := by
  cases x₁ <;> cases x₂ <;> cases x₃ <;>
    first
      | exact False.elim h₁
      | exact False.elim h₂
      | exact True.intro
      | exact h₁.trans h₂

theorem foldlM_rel {α σ₁ σ₂ : Type} {R : σ₁ → σ₂ → Prop}
    {f₁ : σ₁ → α → RunRes σ₁} {f₂ : σ₂ → α → RunRes σ₂} :
    ∀ (l : List α), (∀ x ∈ l, ∀ s₁ s₂, R s₁ s₂ → RunRel R (f₁ s₁ x) (f₂ s₂ x)) →
      ∀ {s₁ s₂}, R s₁ s₂ → RunRel R (l.foldlM f₁ s₁) (l.foldlM f₂ s₂) := by
  intro l
  induction l with
  | nil => intro _ s₁ s₂ h; exact runRel_pure h
  | cons x xs ih =>
    intro hstep s₁ s₂ h
    simp only [List.foldlM]
    exact runRel_bind (hstep x (by simp) s₁ s₂ h)
      (fun a b hab => ih (fun y hy => hstep y (by simp [hy])) hab)

/-- A fold step that only appends to the error accumulator: its effect splits
into the contribution computed from the entry alone, appended to the incoming
accumulator. -/
def SplitStep {α : Type}
    (f : List ValidationError → α → RunRes (List ValidationError)) : Prop :=
  ∀ es x, f es x = (f [] x) >>= fun d => pure (es ++ d)

theorem foldAppend_congr {α : Type}
    {f : List ValidationError → α → RunRes (List ValidationError)}
    (hsp : SplitStep f) :
    ∀ (l : List α) {es₁ es₂ : List ValidationError}, es₁.Perm es₂ →
      RunRel (fun a b => a.Perm b) (l.foldlM f es₁) (l.foldlM f es₂) := by
  intro l
  induction l with
  | nil => intro es₁ es₂ h; exact runRel_pure h
  | cons x xs ih =>
    intro es₁ es₂ h
    simp only [List.foldlM]
    rw [hsp es₁ x, hsp es₂ x]
    cases hf : f [] x with
    | panic => exact True.intro
    | fuelOut => exact True.intro
    | val d =>
      simp only [RunRes.val_bind, RunRes.pure_def]
      exact ih (h.append_right d)

theorem foldAppend_notVal {α : Type}
    {f : List ValidationError → α → RunRes (List ValidationError)}
    (hsp : SplitStep f) {z : α} (hz : ∀ d, f [] z ≠ RunRes.val d) :
    ∀ (l : List α), z ∈ l → ∀ es r, l.foldlM f es ≠ RunRes.val r := by
  intro l
  induction l with
  | nil => simp
  | cons x xs ih =>
    intro hmem es r hval
    simp only [List.foldlM] at hval
    cases hf : f es x with
    | panic => rw [hf] at hval; simp at hval
    | fuelOut => rw [hf] at hval; simp at hval
    | val d =>
      rw [hf] at hval
      simp only [RunRes.val_bind] at hval
      rcases List.mem_cons.mp hmem with heq | hmem'
      · have hs := hsp es x
        rw [hf] at hs
        cases hfx : f [] x with
        | val d' => exact hz d' (by rw [heq]; exact hfx)
        | panic => rw [hfx] at hs; simp at hs
        | fuelOut => rw [hfx] at hs; simp at hs
      · exact ih hmem' d r hval

theorem runRel_of_not_val {α β : Type} {R : α → β → Prop} {x₁ : RunRes α}
    {x₂ : RunRes β} (h₁ : ∀ a, x₁ ≠ .val a) (h₂ : ∀ b, x₂ ≠ .val b) :
    RunRel R x₁ x₂ := by
  cases x₁ with
  | val a => exact absurd rfl (h₁ a)
  | panic =>
    cases x₂ with
    | val b => exact absurd rfl (h₂ b)
    | panic => exact True.intro
    | fuelOut => exact True.intro
  | fuelOut =>
    cases x₂ with
    | val b => exact absurd rfl (h₂ b)
    | panic => exact True.intro
    | fuelOut => exact True.intro

theorem foldAppend_perm {α : Type}
    {f : List ValidationError → α → RunRes (List ValidationError)}
    (hsp : SplitStep f) :
    ∀ {l₁ l₂ : List α}, l₁.Perm l₂ → ∀ es,
      RunRel (fun a b => a.Perm b) (l₁.foldlM f es) (l₂.foldlM f es) := by
  intro l₁ l₂ hp
  induction hp with
  | nil => intro es; exact runRel_pure (List.Perm.refl es)
  | cons x hxs ih =>
    intro es
    simp only [List.foldlM]
    cases hf : f es x with
    | panic => exact True.intro
    | fuelOut => exact True.intro
    | val d =>
      simp only [RunRes.val_bind]
      exact ih d
  | swap x y l =>
    intro es
    by_cases hvy : ∀ d, f [] y ≠ RunRes.val d
    · exact runRel_of_not_val (foldAppend_notVal hsp hvy _ (by simp) es)
        (foldAppend_notVal hsp hvy _ (by simp) es)
    · push_neg at hvy
      obtain ⟨dy, hfy⟩ := hvy
      by_cases hvx : ∀ d, f [] x ≠ RunRes.val d
      · exact runRel_of_not_val (foldAppend_notVal hsp hvx _ (by simp) es)
          (foldAppend_notVal hsp hvx _ (by simp) es)
      · push_neg at hvx
        obtain ⟨dx, hfx⟩ := hvx
        simp only [List.foldlM]
        have h1 : f es y = RunRes.val (es ++ dy) := by
          rw [hsp es y, hfy]; rfl
        have h3 : f es x = RunRes.val (es ++ dx) := by
          rw [hsp es x, hfx]; rfl
        rw [h1, h3]
        simp only [RunRes.val_bind]
        have h2 : f (es ++ dy) x = RunRes.val ((es ++ dy) ++ dx) := by
          rw [hsp (es ++ dy) x, hfx]; rfl
        have h4 : f (es ++ dx) y = RunRes.val ((es ++ dx) ++ dy) := by
          rw [hsp (es ++ dx) y, hfy]; rfl
        rw [h2, h4]
        simp only [RunRes.val_bind]
        refine foldAppend_congr hsp l ?_
        rw [List.append_assoc, List.append_assoc]
        exact List.Perm.append_left es List.perm_append_comm
  | trans hp₁ hp₂ ih₁ ih₂ =>
    intro es
    exact runRel_perm_trans (ih₁ es) (ih₂ es)

theorem foldAppend_rel_same {α : Type}
    {f₁ f₂ : List ValidationError → α → RunRes (List ValidationError)}
    (hsp₁ : SplitStep f₁) (hsp₂ : SplitStep f₂) :
    ∀ (l : List α), (∀ x ∈ l, RunRel ErrsRel (f₁ [] x) (f₂ [] x)) →
      ∀ {es₁ es₂ : List ValidationError}, ErrsRel es₁ es₂ →
      RunRel ErrsRel (l.foldlM f₁ es₁) (l.foldlM f₂ es₂) := by
  intro l
  induction l with
  | nil => intro _ es₁ es₂ h; exact runRel_pure h
  | cons x xs ih =>
    intro hx es₁ es₂ h
    simp only [List.foldlM]
    rw [hsp₁ es₁ x, hsp₂ es₂ x]
    have hr := hx x (by simp)
    cases hf₁ : f₁ [] x with
    | panic =>
      rw [hf₁] at hr
      cases hf₂ : f₂ [] x with
      | val d => rw [hf₂] at hr; exact False.elim hr
      | panic => exact True.intro
      | fuelOut => exact True.intro
    | fuelOut =>
      rw [hf₁] at hr
      cases hf₂ : f₂ [] x with
      | val d => rw [hf₂] at hr; exact False.elim hr
      | panic => exact True.intro
      | fuelOut => exact True.intro
    | val d₁ =>
      rw [hf₁] at hr
      cases hf₂ : f₂ [] x with
      | panic => rw [hf₂] at hr; exact False.elim hr
      | fuelOut => rw [hf₂] at hr; exact False.elim hr
      | val d₂ =>
        rw [hf₂] at hr
        simp only [RunRes.val_bind, RunRes.pure_def]
        exact ih (fun y hy => hx y (by simp [hy])) (errsRel_append h hr)

theorem foldAppend_rel {α : Type}
    {f₁ f₂ : List ValidationError → α → RunRes (List ValidationError)}
    (hsp₁ : SplitStep f₁) (hsp₂ : SplitStep f₂) {l₁ l₂ : List α}
    (hp : l₁.Perm l₂) (hx : ∀ x ∈ l₂, RunRel ErrsRel (f₁ [] x) (f₂ [] x))
    {es₁ es₂ : List ValidationError} (hes : ErrsRel es₁ es₂) :
    RunRel ErrsRel (l₁.foldlM f₁ es₁) (l₂.foldlM f₂ es₂) :=
  runRel_comp_perm (foldAppend_perm hsp₁ hp es₁)
    (foldAppend_rel_same hsp₁ hsp₂ l₂ hx hes)

theorem perm_contains_eq {α : Type} [BEq α] [LawfulBEq α] {l₁ l₂ : List α}
    (h : l₁.Perm l₂) (a : α) : l₁.contains a = l₂.contains a := by
  apply Bool.eq_iff_iff.mpr
  constructor
  · intro hc
    have hm : a ∈ l₁ := by simpa using hc
    simpa using h.mem_iff.mp hm
  · intro hc
    have hm : a ∈ l₂ := by simpa using hc
    simpa using h.mem_iff.mpr hm

theorem perm_filter_rel {α : Type} {l₁ l₂ : List α} {p q : α → Bool}
    (hl : l₁.Perm l₂) (hpq : ∀ a, p a = q a) : (l₁.filter p).Perm (l₂.filter q) := by
  have h1 : (l₁.filter p).Perm (l₂.filter p) := hl.filter p
  have h2 : l₂.filter p = l₂.filter q := List.filter_congr (fun x _ => hpq x)
  rw [h2] at h1
  exact h1

theorem unevalRel_merge {u₁ u₂ r₁ r₂ : Uneval} (hu : UnevalRel u₁ u₂)
    (hr : UnevalRel r₁ r₂) : UnevalRel (u₁.merge r₁) (u₂.merge r₂) := by
  refine ⟨?_, ?_⟩
  · exact perm_filter_rel hu.1 (fun a => perm_contains_eq hr.1 a)
  · exact perm_filter_rel hu.2 (fun a => perm_contains_eq hr.2 a)

theorem unevalRel_filter {u₁ u₂ : Uneval} (hu : UnevalRel u₁ u₂)
    (p : String → Bool) :
    UnevalRel { u₁ with props := u₁.props.filter p }
      { u₂ with props := u₂.props.filter p } :=
  ⟨hu.1.filter p, hu.2⟩

theorem unevalRel_filterItems {u₁ u₂ : Uneval} (hu : UnevalRel u₁ u₂)
    (p : Nat → Bool) :
    UnevalRel { u₁ with items := u₁.items.filter p }
      { u₂ with items := u₂.items.filter p } :=
  ⟨hu.1, hu.2.filter p⟩

theorem errRel_kind {e₁ e₂ : ValidationError} (h : ErrRel e₁ e₂) :
    KindRel e₁.kind e₂.kind := by
  obtain ⟨n, hn⟩ := h
  cases n with
  | zero => exact absurd hn (by simp [ErrRelN])
  | succ n =>
    cases e₁ with
    | mk kl₁ akl₁ il₁ k₁ cs₁ =>
      cases e₂ with
      | mk kl₂ akl₂ il₂ k₂ cs₂ => exact hn.2.2.2.1

theorem errRel_causes {e₁ e₂ : ValidationError} (h : ErrRel e₁ e₂) :
    ErrsRel e₁.causes e₂.causes := by
  obtain ⟨n, hn⟩ := h
  cases n with
  | zero => exact absurd hn (by simp [ErrRelN])
  | succ n =>
    cases e₁ with
    | mk kl₁ akl₁ il₁ k₁ cs₁ =>
      cases e₂ with
      | mk kl₂ akl₂ il₂ k₂ cs₂ =>
        obtain ⟨l, hp, hf⟩ := hn.2.2.2.2
        exact ⟨l, hp, hf.imp (fun _ _ hx => ⟨n, hx⟩)⟩

theorem kindRel_group_iff {k₁ k₂ : ErrorKind} (h : KindRel k₁ k₂) :
    k₁ = ErrorKind.group ↔ k₂ = ErrorKind.group := by
  rcases h with rfl | ⟨g₁, g₂, rfl, rfl, _⟩
  · exact Iff.rfl
  · constructor <;> intro hx <;> exact absurd hx (by simp)

theorem addErr_rel {es₁ es₂ : List ValidationError}
    {r₁ r₂ : Except ValidationError Unit} (hes : ErrsRel es₁ es₂)
    (hr : UnitResRel r₁ r₂) : ErrsRel (addErr es₁ r₁) (addErr es₂ r₂) := by
  cases r₁ with
  | ok _ =>
    cases r₂ with
    | ok _ => exact hes
    | error e₂ => exact False.elim hr
  | error e₁ =>
    cases r₂ with
    | ok _ => exact False.elim hr
    | error e₂ => exact errsRel_append hes (errsRel_single hr)

/-- Agreement of a subvalidation verdict paired with the bookkeeping. -/
def VURel (p₁ p₂ : Except ValidationError Unit × Uneval) : Prop :=
  UnitResRel p₁.1 p₂.1 ∧ UnevalRel p₁.2 p₂.2

theorem selfValidateRaw_rel {recur₁ recur₂ : Recur} (hrec : RecurRel recur₁ recur₂)
    (c : VCtx) (sch : Nat) (kwPath : String) :
    RunRel ResRel (selfValidateRaw recur₁ c sch kwPath)
      (selfValidateRaw recur₂ c sch kwPath) := by
  unfold selfValidateRaw
  cases hg : c.schemas.get? sch with
  | none => exact True.intro
  | some s =>
    simp only [RunRes.ofPanic, RunRes.val_bind]
    exact hrec s c.v c.vloc (Scope.child sch kwPath c.scope.vid c.scope)

theorem selfValidate_rel {recur₁ recur₂ : Recur} (hrec : RecurRel recur₁ recur₂)
    (c : VCtx) (sch : Nat) (kwPath : String) {u₁ u₂ : Uneval}
    (hu : UnevalRel u₁ u₂) :
    RunRel VURel (selfValidate recur₁ c sch kwPath u₁)
      (selfValidate recur₂ c sch kwPath u₂) := by
  unfold selfValidate
  refine runRel_bind (selfValidateRaw_rel hrec c sch kwPath) ?_
  intro a b hab
  cases a with
  | ok rep₁ =>
    cases b with
    | ok rep₂ => exact runRel_pure ⟨True.intro, unevalRel_merge hu hab⟩
    | error e₂ => exact False.elim hab
  | error e₁ =>
    cases b with
    | ok rep₂ => exact False.elim hab
    | error e₂ => exact runRel_pure ⟨hab, hu⟩

theorem childValidate_rel {recur₁ recur₂ : Recur} (hrec : RecurRel recur₁ recur₂)
    (c : VCtx) (sch : Nat) (kwPath : String) (v : Value) (vpath : String) :
    RunRel UnitResRel (childValidate recur₁ c sch kwPath v vpath)
      (childValidate recur₂ c sch kwPath v vpath) := by
  unfold childValidate
  cases hg : c.schemas.get? sch with
  | none => exact True.intro
  | some s =>
    simp only [RunRes.ofPanic, RunRes.val_bind]
    refine runRel_bind (hrec s v (c.vloc ++ "/" ++ vpath)
      (Scope.child sch kwPath (c.scope.vid + 1) c.scope)) ?_
    intro a b hab
    cases a with
    | ok rep₁ =>
      cases b with
      | ok rep₂ => exact runRel_pure True.intro
      | error e₂ => exact False.elim hab
    | error e₁ =>
      cases b with
      | ok rep₂ => exact False.elim hab
      | error e₂ => exact runRel_pure hab

theorem validateRef_rel {recur₁ recur₂ : Recur} (hrec : RecurRel recur₁ recur₂)
    (c : VCtx) (sch : Nat) (kw : String) {u₁ u₂ : Uneval}
    (hu : UnevalRel u₁ u₂) :
    RunRel VURel (validateRef recur₁ c sch kw u₁)
      (validateRef recur₂ c sch kw u₂) := by
  unfold validateRef
  refine runRel_bind (selfValidate_rel hrec c sch kw hu) ?_
  rintro ⟨r₁, w₁⟩ ⟨r₂, w₂⟩ ⟨hr, hw⟩
  dsimp only at hr hw ⊢
  cases r₁ with
  | ok _ =>
    cases r₂ with
    | ok _ => exact runRel_pure ⟨True.intro, hw⟩
    | error e₂ => exact False.elim hr
  | error e₁ =>
    cases r₂ with
    | ok _ => exact False.elim hr
    | error e₂ =>
      cases hg : c.schemas.get? sch with
      | none => exact True.intro
      | some target =>
        simp only [RunRes.ofPanic, RunRes.val_bind]
        have hkind := errRel_kind (show ErrRel e₁ e₂ from hr)
        have hcauses := errRel_causes (show ErrRel e₁ e₂ from hr)
        cases hk₁ : e₁.kind <;> rw [hk₁] at hkind <;>
          rcases hkind with heq | ⟨g₁, g₂, hg₁, hg₂, hperm⟩ <;>
          first
            | (rw [← heq]
               first
                 | exact runRel_pure ⟨errRel_withCauses _ hcauses, hw⟩
                 | exact runRel_pure ⟨errRel_withCauses _ (errsRel_single hr), hw⟩)
            | (rw [hg₂]
               exact runRel_pure ⟨errRel_withCauses _ (errsRel_single hr), hw⟩)
            | simp at hg₁

theorem foldl_appendForm {α : Type}
    (g : List ValidationError → α → List ValidationError)
    (hg : ∀ es x, g es x = es ++ g [] x) :
    ∀ (l : List α) (es : List ValidationError), l.foldl g es = es ++ l.foldl g [] := by
  intro l
  induction l with
  | nil => intro es; simp
  | cons x xs ih =>
    intro es
    rw [List.foldl_cons, List.foldl_cons, ih (g es x), ih (g [] x), hg es x,
      List.append_assoc]

/-- Transport of the error-list relation through a keyword that only appends a
contribution independent of the incoming list. -/
theorem appendForm_rel {f : List ValidationError → List ValidationError}
    (hf : ∀ es, f es = es ++ f []) {es₁ es₂ : List ValidationError}
    (h : ErrsRel es₁ es₂) : ErrsRel (f es₁) (f es₂) := by
  rw [hf es₁, hf es₂]
  exact errsRel_append h (errsRel_refl _)

theorem typeKw_appendForm (c : VCtx) : ∀ es, typeKw c es = es ++ typeKw c [] := by
  intro es
  unfold typeKw
  dsimp only
  split_ifs <;> simp

theorem enumKw_appendForm (c : VCtx) : ∀ es, enumKw c es = es ++ enumKw c [] := by
  intro es
  unfold enumKw
  split_ifs <;> simp

theorem constKw_appendForm (c : VCtx) : ∀ es, constKw c es = es ++ constKw c [] := by
  intro es
  unfold constKw
  repeat' split
  all_goals simp

theorem formatKw_appendForm (c : VCtx) : ∀ es, formatKw c es = es ++ formatKw c [] := by
  intro es
  unfold formatKw
  repeat' split
  all_goals simp

theorem objChecks_appendForm (c : VCtx) (members : List (String × Value)) :
    ∀ es, objChecks c members es = es ++ objChecks c members [] := by
  intro es
  unfold objChecks
  dsimp only
  repeat' split
  all_goals simp

theorem objDependentRequired_appendForm (c : VCtx) (members : List (String × Value)) :
    ∀ es, objDependentRequired c members es = es ++ objDependentRequired c members [] := by
  intro es
  unfold objDependentRequired
  refine foldl_appendForm _ ?_ _ es
  intro es' x
  dsimp only
  split_ifs <;> simp

theorem arrChecks_appendForm (c : VCtx) (arr : List Value) :
    ∀ es, arrChecks c arr es = es ++ arrChecks c arr [] := by
  have hinner : ∀ (i : Nat) (es' : List ValidationError),
      (List.range i).foldl (fun errors j =>
        if equals (arr.getD i .null) (arr.getD j .null) then
          errors ++ [c.mkError "uniqueItems" (.uniqueItems (j, i))]
        else errors) es' =
      es' ++ (List.range i).foldl (fun errors j =>
        if equals (arr.getD i .null) (arr.getD j .null) then
          errors ++ [c.mkError "uniqueItems" (.uniqueItems (j, i))]
        else errors) [] := by
    intro i
    refine foldl_appendForm _ ?_ _
    intro es' j
    split <;> simp
  have houter : ∀ es' : List ValidationError,
      (List.range arr.length).foldl (fun errors i =>
        (List.range i).foldl (fun errors j =>
          if equals (arr.getD i .null) (arr.getD j .null) then
            errors ++ [c.mkError "uniqueItems" (.uniqueItems (j, i))]
          else errors) errors) es' =
      es' ++ (List.range arr.length).foldl (fun errors i =>
        (List.range i).foldl (fun errors j =>
          if equals (arr.getD i .null) (arr.getD j .null) then
            errors ++ [c.mkError "uniqueItems" (.uniqueItems (j, i))]
          else errors) errors) [] := by
    refine foldl_appendForm _ ?_ _
    intro es' i
    exact hinner i es'
  intro es
  unfold arrChecks
  dsimp only
  repeat' split
  all_goals try rw [houter]
  all_goals try conv_rhs => rw [houter]
  all_goals simp

set_option maxHeartbeats 1000000 in
theorem stringKws_appendForm (c : VCtx) (s : String) :
    ∀ es, stringKws c s es = es ++ stringKws c s [] := by
  intro es
  unfold stringKws
  rcases c.self.min_length with _ | min <;>
    rcases c.self.max_length with _ | max <;>
      rcases c.self.pattern with _ | rx <;>
        rcases c.self.content_encoding with _ | enc <;>
          rcases c.self.content_media_type with _ | mt <;>
            dsimp only <;>
            (try rcases henc : enc.2 s with _ | bytes) <;>
            (try dsimp only) <;>
            (try split_ifs) <;>
            simp

set_option maxHeartbeats 1600000 in
theorem numberKws_appendForm (c : VCtx) (n : Number) :
    ∀ es, numberKws c n es = es ++ numberKws c n [] := by
  intro es
  unfold numberKws
  rcases hn : n.asF64 with _ | nf <;>
    rcases c.self.minimum with _ | mn <;>
      rcases c.self.maximum with _ | mx <;>
        rcases c.self.exclusive_minimum with _ | emn <;>
          rcases c.self.exclusive_maximum with _ | emx <;>
            rcases c.self.multiple_of with _ | ml <;>
              dsimp only <;>
              (try rcases mn.asF64 with _ | mnf) <;>
              (try rcases mx.asF64 with _ | mxf) <;>
              (try rcases emn.asF64 with _ | emnf) <;>
              (try rcases emx.asF64 with _ | emxf) <;>
              (try rcases ml.asF64 with _ | mlf) <;>
              (try dsimp only) <;>
              (try split_ifs) <;>
              simp

theorem oneOfOutcome_rel (c : VCtx) (matched : List Nat)
    {oe₁ oe₂ es₁ es₂ : List ValidationError} (hoe : ErrsRel oe₁ oe₂)
    (hes : ErrsRel es₁ es₂) :
    ErrsRel (oneOfOutcome c es₁ matched oe₁) (oneOfOutcome c es₂ matched oe₂) := by
  unfold oneOfOutcome
  split_ifs
  · exact errsRel_append hes hoe
  · exact errsRel_append hes (errsRel_refl _)
  · exact hes

theorem arrContainsChecks_rel (c : VCtx) (m : List Nat)
    {ce₁ ce₂ es₁ es₂ : List ValidationError} (hce : ErrsRel ce₁ ce₂)
    (hes : ErrsRel es₁ es₂) :
    ErrsRel (arrContainsChecks c m ce₁ es₁) (arrContainsChecks c m ce₂ es₂) := by
  unfold arrContainsChecks
  cases c.self.min_contains <;> cases c.self.max_contains <;> dsimp only <;>
    split_ifs <;>
    first
      | exact hes
      | exact errsRel_append hes (errsRel_single (errRel_withCauses _ hce))
      | exact errsRel_append hes (errsRel_refl _)
      | exact errsRel_append (errsRel_append hes
          (errsRel_single (errRel_withCauses _ hce))) (errsRel_refl _)

theorem aggregate_rel (c : VCtx) {es₁ es₂ : List ValidationError} {u₁ u₂ : Uneval}
    (hes : ErrsRel es₁ es₂) (hu : UnevalRel u₁ u₂) :
    ResRel (aggregateErrors c es₁ u₁) (aggregateErrors c es₂ u₂) := by
  have hlen := errsRel_length hes
  unfold aggregateErrors
  cases es₁ with
  | nil =>
    cases es₂ with
    | nil => exact hu
    | cons b bs => simp at hlen
  | cons a as =>
    cases as with
    | nil =>
      cases es₂ with
      | nil => simp at hlen
      | cons b bs =>
        cases bs with
        | nil =>
          obtain ⟨l, hp, hf⟩ := hes
          have hl : l = [a] := List.Perm.eq_singleton hp.symm
          subst hl
          cases hf with
          | cons h _ => exact h
        | cons b₂ bs₂ => simp at hlen
    | cons a₂ as₂ =>
      cases es₂ with
      | nil => simp at hlen
      | cons b bs =>
        cases bs with
        | nil => simp at hlen
        | cons b₂ bs₂ =>
          dsimp only
          exact errRel_withCauses _ hes

theorem perm_isEmpty_eq {α : Type} {l₁ l₂ : List α} (h : l₁.Perm l₂) :
    l₁.isEmpty = l₂.isEmpty := by
  cases l₁ with
  | nil =>
    cases l₂ with
    | nil => rfl
    | cons b bs => have := h.length_eq; simp at this
  | cons a as =>
    cases l₂ with
    | nil => have := h.length_eq; simp at this
    | cons b bs => rfl

theorem objDependencies_rel {recur₁ recur₂ : Recur} (hrec : RecurRel recur₁ recur₂)
    (c : VCtx) (members : List (String × Value)) {es₁ es₂ : List ValidationError}
    {u₁ u₂ : Uneval} (hes : ErrsRel es₁ es₂) (hu : UnevalRel u₁ u₂) :
    RunRel StRel (objDependencies recur₁ c members es₁ u₁)
      (objDependencies recur₂ c members es₂ u₂) := by
  unfold objDependencies
  refine foldlM_rel _ ?_ ⟨hes, hu⟩
  intro pd _ s₁ s₂ hs
  rcases s₁ with ⟨e₁, w₁⟩
  rcases s₂ with ⟨e₂, w₂⟩
  dsimp only
  have h1 := hs.1
  have h2 := hs.2
  dsimp only at h1 h2
  split_ifs with hmem
  · cases hd : pd.2 with
    | props reqd =>
      dsimp only
      split_ifs
      · exact runRel_pure ⟨errsRel_append h1 (errsRel_refl _), h2⟩
      · exact runRel_pure ⟨h1, h2⟩
    | schemaRef sch =>
      refine runRel_bind (selfValidate_rel hrec c sch _ h2) ?_
      rintro ⟨r₁, w₁'⟩ ⟨r₂, w₂'⟩ ⟨hr, hw⟩
      exact runRel_pure ⟨addErr_rel h1 hr, hw⟩
  · exact runRel_pure ⟨h1, h2⟩

theorem objDependentSchemas_rel {recur₁ recur₂ : Recur} (hrec : RecurRel recur₁ recur₂)
    (c : VCtx) (members : List (String × Value)) {es₁ es₂ : List ValidationError}
    {u₁ u₂ : Uneval} (hes : ErrsRel es₁ es₂) (hu : UnevalRel u₁ u₂) :
    RunRel StRel (objDependentSchemas recur₁ c members es₁ u₁)
      (objDependentSchemas recur₂ c members es₂ u₂) := by
  unfold objDependentSchemas
  refine foldlM_rel _ ?_ ⟨hes, hu⟩
  intro ps _ s₁ s₂ hs
  rcases s₁ with ⟨e₁, w₁⟩
  rcases s₂ with ⟨e₂, w₂⟩
  dsimp only
  have h1 := hs.1
  have h2 := hs.2
  dsimp only at h1 h2
  split_ifs with hmem
  · refine runRel_bind (selfValidate_rel hrec c ps.2 _ h2) ?_
    rintro ⟨r₁, w₁'⟩ ⟨r₂, w₂'⟩ ⟨hr, hw⟩
    exact runRel_pure ⟨addErr_rel h1 hr, hw⟩
  · exact runRel_pure ⟨h1, h2⟩

theorem objProperties_rel {recur₁ recur₂ : Recur} (hrec : RecurRel recur₁ recur₂)
    (c : VCtx) (members : List (String × Value)) {es₁ es₂ : List ValidationError}
    {u₁ u₂ : Uneval} (hes : ErrsRel es₁ es₂) (hu : UnevalRel u₁ u₂) :
    RunRel StRel (objProperties recur₁ c members es₁ u₁)
      (objProperties recur₂ c members es₂ u₂) := by
  unfold objProperties
  refine foldlM_rel _ ?_ ⟨hes, hu⟩
  intro pp _ s₁ s₂ hs
  rcases s₁ with ⟨e₁, w₁⟩
  rcases s₂ with ⟨e₂, w₂⟩
  dsimp only
  have h1 := hs.1
  have h2 := hs.2
  dsimp only at h1 h2
  cases hpv : assocGet members pp.1 with
  | some pvalue =>
    refine runRel_bind (childValidate_rel hrec c pp.2 _ pvalue _) ?_
    intro a b hab
    exact runRel_pure ⟨addErr_rel h1 hab, unevalRel_filter h2 _⟩
  | none => exact runRel_pure ⟨h1, h2⟩

theorem objPatternProperties_rel {recur₁ recur₂ : Recur} (hrec : RecurRel recur₁ recur₂)
    (c : VCtx) (members : List (String × Value)) {es₁ es₂ : List ValidationError}
    {u₁ u₂ : Uneval} (hes : ErrsRel es₁ es₂) (hu : UnevalRel u₁ u₂) :
    RunRel StRel (objPatternProperties recur₁ c members es₁ u₁)
      (objPatternProperties recur₂ c members es₂ u₂) := by
  unfold objPatternProperties
  refine foldlM_rel _ ?_ ⟨hes, hu⟩
  intro rp _ s₁ s₂ hs
  refine foldlM_rel _ ?_ hs
  intro pv _ t₁ t₂ ht
  rcases t₁ with ⟨e₁, w₁⟩
  rcases t₂ with ⟨e₂, w₂⟩
  dsimp only
  have h1 := ht.1
  have h2 := ht.2
  dsimp only at h1 h2
  refine runRel_bind (childValidate_rel hrec c rp.2 _ pv.2 _) ?_
  intro a b hab
  exact runRel_pure ⟨addErr_rel h1 hab, unevalRel_filter h2 _⟩

theorem objPropertyNames_rel {recur₁ recur₂ : Recur} (hrec : RecurRel recur₁ recur₂)
    (c : VCtx) (members : List (String × Value)) {es₁ es₂ : List ValidationError}
    {u₁ u₂ : Uneval} (hes : ErrsRel es₁ es₂) (hu : UnevalRel u₁ u₂) :
    RunRel StRel (objPropertyNames recur₁ c members es₁ u₁)
      (objPropertyNames recur₂ c members es₂ u₂) := by
  unfold objPropertyNames
  cases c.self.property_names with
  | some sch =>
    refine foldlM_rel _ ?_ ⟨hes, hu⟩
    intro pv _ s₁ s₂ hs
    rcases s₁ with ⟨e₁, w₁⟩
    rcases s₂ with ⟨e₂, w₂⟩
    dsimp only
    have h1 := hs.1
    have h2 := hs.2
    dsimp only at h1 h2
    refine runRel_bind (childValidate_rel hrec c sch _ (.str pv.1) _) ?_
    intro a b hab
    exact runRel_pure ⟨addErr_rel h1 hab, h2⟩
  | none => exact runRel_pure ⟨hes, hu⟩

theorem objAdditionalPropertiesH_rel {ρ₁ ρ₂ : HashOrder} (hρ₁ : ρ₁.ok)
    (hρ₂ : ρ₂.ok) {recur₁ recur₂ : Recur} (hrec : RecurRel recur₁ recur₂)
    (c : VCtx) (members : List (String × Value)) {es₁ es₂ : List ValidationError}
    {u₁ u₂ : Uneval} (hes : ErrsRel es₁ es₂) (hu : UnevalRel u₁ u₂) :
    RunRel StRel (objAdditionalPropertiesH ρ₁ recur₁ c members es₁ u₁)
      (objAdditionalPropertiesH ρ₂ recur₂ c members es₂ u₂) := by
  unfold objAdditionalPropertiesH
  have hperm : (ρ₁.props c.scope c.vloc "additionalProperties" u₁.props).Perm
      (ρ₂.props c.scope c.vloc "additionalProperties" u₂.props) :=
    ((hρ₁.1 _ _ _ _).trans hu.1).trans (hρ₂.1 _ _ _ _).symm
  cases hap : c.self.additional_properties with
  | none => exact runRel_pure ⟨hes, hu⟩
  | some add =>
    cases add with
    | bool allowed =>
      refine runRel_pure ⟨?_, ⟨List.Perm.refl [], hu.2⟩⟩
      refine errsRel_append hes ?_
      unfold additionalPropertiesBoolErr
      rw [perm_isEmpty_eq hperm]
      split_ifs
      · exact errsRel_single
          (errRel_mk (Or.inr ⟨_, _, rfl, rfl, hperm⟩) (errsRel_refl []))
      · exact errsRel_refl []
    | schemaRef sch =>
      refine runRel_bind (foldAppend_rel ?_ ?_ hperm ?_ hes) ?_
      · intro es x
        dsimp only
        cases hpv : assocGet members x with
        | none => simp
        | some pvalue =>
          dsimp only
          cases hc : childValidate recur₁ c sch "additionalProperties" pvalue (escape x) with
          | panic => rfl
          | fuelOut => rfl
          | val r =>
            cases r with
            | ok _ => simp [addErr]
            | error e => simp [addErr]
      · intro es x
        dsimp only
        cases hpv : assocGet members x with
        | none => simp
        | some pvalue =>
          dsimp only
          cases hc : childValidate recur₂ c sch "additionalProperties" pvalue (escape x) with
          | panic => rfl
          | fuelOut => rfl
          | val r =>
            cases r with
            | ok _ => simp [addErr]
            | error e => simp [addErr]
      · intro x _
        dsimp only
        cases hpv : assocGet members x with
        | none => exact runRel_pure (errsRel_refl [])
        | some pvalue =>
          refine runRel_bind (childValidate_rel hrec c sch _ pvalue _) ?_
          intro a b hab
          exact runRel_pure (addErr_rel (errsRel_refl []) hab)
      · intro d₁ d₂ hd
        exact runRel_pure ⟨hd, ⟨List.Perm.refl [], hu.2⟩⟩

/-- The object keyword section relates two runs: shared deterministic keywords
pass the relation through, the hash-ordered `additionalProperties` closes it. -/
theorem objectKwsH_rel {ρ₁ ρ₂ : HashOrder} (hρ₁ : ρ₁.ok) (hρ₂ : ρ₂.ok)
    {recur₁ recur₂ : Recur} (hrec : RecurRel recur₁ recur₂) (c : VCtx)
    (members : List (String × Value)) {es₁ es₂ : List ValidationError}
    {u₁ u₂ : Uneval} (hes : ErrsRel es₁ es₂) (hu : UnevalRel u₁ u₂) :
    RunRel StRel (objectKwsH ρ₁ recur₁ c members es₁ u₁)
      (objectKwsH ρ₂ recur₂ c members es₂ u₂) := by
  unfold objectKwsH
  refine runRel_bind (objDependencies_rel hrec c members
    (appendForm_rel (objChecks_appendForm c members) hes) hu) ?_
  rintro ⟨e₁, w₁⟩ ⟨e₂, w₂⟩ ⟨h1, h2⟩
  dsimp only at h1 h2 ⊢
  refine runRel_bind (objDependentSchemas_rel hrec c members h1 h2) ?_
  rintro ⟨e₁', w₁'⟩ ⟨e₂', w₂'⟩ ⟨h1', h2'⟩
  dsimp only at h1' h2' ⊢
  refine runRel_bind (objProperties_rel hrec c members
    (appendForm_rel (objDependentRequired_appendForm c members) h1') h2') ?_
  rintro ⟨e₁'', w₁''⟩ ⟨e₂'', w₂''⟩ ⟨h1'', h2''⟩
  dsimp only at h1'' h2'' ⊢
  refine runRel_bind (objPatternProperties_rel hrec c members h1'' h2'') ?_
  rintro ⟨f₁, x₁⟩ ⟨f₂, x₂⟩ ⟨g1, g2⟩
  dsimp only at g1 g2 ⊢
  refine runRel_bind (objPropertyNames_rel hrec c members g1 g2) ?_
  rintro ⟨f₁', x₁'⟩ ⟨f₂', x₂'⟩ ⟨g1', g2'⟩
  dsimp only at g1' g2' ⊢
  exact objAdditionalPropertiesH_rel hρ₁ hρ₂ hrec c members g1' g2'

theorem arrItems_rel {recur₁ recur₂ : Recur} (hrec : RecurRel recur₁ recur₂)
    (c : VCtx) (arr : List Value) {es₁ es₂ : List ValidationError}
    {u₁ u₂ : Uneval} (hes : ErrsRel es₁ es₂) (hu : UnevalRel u₁ u₂) :
    RunRel StRel (arrItems recur₁ c arr es₁ u₁) (arrItems recur₂ c arr es₂ u₂) := by
  unfold arrItems
  cases hi : c.self.items with
  | none => exact runRel_pure ⟨hes, hu⟩
  | some items =>
    cases items with
    | schemaRef sch =>
      refine runRel_bind (foldlM_rel (R := ErrsRel) _ ?_ hes) ?_
      · intro iv _ s₁ s₂ hs
        refine runRel_bind (childValidate_rel hrec c sch _ iv.2 _) ?_
        intro a b hab
        exact runRel_pure (addErr_rel hs hab)
      · intro d₁ d₂ hd
        exact runRel_pure ⟨hd, ⟨hu.1, List.Perm.refl []⟩⟩
    | schemaRefs list =>
      refine foldlM_rel _ ?_ ⟨hes, hu⟩
      intro p _ s₁ s₂ hs
      rcases s₁ with ⟨e₁, w₁⟩
      rcases s₂ with ⟨e₂, w₂⟩
      dsimp only
      have h1 := hs.1
      have h2 := hs.2
      dsimp only at h1 h2
      refine runRel_bind (childValidate_rel hrec c p.2.2 _ p.2.1 _) ?_
      intro a b hab
      exact runRel_pure ⟨addErr_rel h1 hab, unevalRel_filterItems h2 _⟩

theorem arrAdditionalItemsH_rel {ρ₁ ρ₂ : HashOrder} (hρ₁ : ρ₁.ok) (hρ₂ : ρ₂.ok)
    {recur₁ recur₂ : Recur} (hrec : RecurRel recur₁ recur₂) (c : VCtx)
    (arr : List Value) {es₁ es₂ : List ValidationError} {u₁ u₂ : Uneval}
    (hes : ErrsRel es₁ es₂) (hu : UnevalRel u₁ u₂) :
    RunRel StRel (arrAdditionalItemsH ρ₁ recur₁ c arr es₁ u₁)
      (arrAdditionalItemsH ρ₂ recur₂ c arr es₂ u₂) := by
  unfold arrAdditionalItemsH
  have hperm : (ρ₁.items c.scope c.vloc "additionalItems" u₁.items).Perm
      (ρ₂.items c.scope c.vloc "additionalItems" u₂.items) :=
    ((hρ₁.2 _ _ _ _).trans hu.2).trans (hρ₂.2 _ _ _ _).symm
  cases hai : c.self.additional_items with
  | none => exact runRel_pure ⟨hes, hu⟩
  | some add =>
    cases add with
    | bool allowed =>
      dsimp only
      rw [perm_isEmpty_eq hu.2, hu.2.length_eq]
      split_ifs
      · exact runRel_pure ⟨errsRel_append hes (errsRel_refl _), ⟨hu.1, List.Perm.refl []⟩⟩
      · exact runRel_pure ⟨hes, ⟨hu.1, List.Perm.refl []⟩⟩
    | schemaRef sch =>
      refine runRel_bind (foldAppend_rel ?_ ?_ hperm ?_ hes) ?_
      · intro es x
        dsimp only
        cases hx : arr[x]? with
        | none => simp
        | some pvalue =>
          dsimp only
          cases hc : childValidate recur₁ c sch "additionalItems" pvalue (toString x) with
          | panic => rfl
          | fuelOut => rfl
          | val r =>
            cases r with
            | ok _ => simp [addErr]
            | error e => simp [addErr]
      · intro es x
        dsimp only
        cases hx : arr[x]? with
        | none => simp
        | some pvalue =>
          dsimp only
          cases hc : childValidate recur₂ c sch "additionalItems" pvalue (toString x) with
          | panic => rfl
          | fuelOut => rfl
          | val r =>
            cases r with
            | ok _ => simp [addErr]
            | error e => simp [addErr]
      · intro x _
        dsimp only
        cases hx : arr[x]? with
        | none => exact runRel_pure (errsRel_refl [])
        | some pvalue =>
          refine runRel_bind (childValidate_rel hrec c sch _ pvalue _) ?_
          intro a b hab
          exact runRel_pure (addErr_rel (errsRel_refl []) hab)
      · intro d₁ d₂ hd
        exact runRel_pure ⟨hd, ⟨hu.1, List.Perm.refl []⟩⟩

theorem arrPrefixItems_rel {recur₁ recur₂ : Recur} (hrec : RecurRel recur₁ recur₂)
    (c : VCtx) (arr : List Value) {es₁ es₂ : List ValidationError}
    {u₁ u₂ : Uneval} (hes : ErrsRel es₁ es₂) (hu : UnevalRel u₁ u₂) :
    RunRel StRel (arrPrefixItems recur₁ c arr es₁ u₁)
      (arrPrefixItems recur₂ c arr es₂ u₂) := by
  unfold arrPrefixItems
  refine foldlM_rel _ ?_ ⟨hes, hu⟩
  intro p _ s₁ s₂ hs
  rcases s₁ with ⟨e₁, w₁⟩
  rcases s₂ with ⟨e₂, w₂⟩
  dsimp only
  have h1 := hs.1
  have h2 := hs.2
  dsimp only at h1 h2
  refine runRel_bind (childValidate_rel hrec c p.2.1 _ p.2.2 _) ?_
  intro a b hab
  exact runRel_pure ⟨addErr_rel h1 hab, unevalRel_filterItems h2 _⟩

theorem arrItems2020H_rel {ρ₁ ρ₂ : HashOrder} (hρ₁ : ρ₁.ok) (hρ₂ : ρ₂.ok)
    {recur₁ recur₂ : Recur} (hrec : RecurRel recur₁ recur₂) (c : VCtx)
    (arr : List Value) {es₁ es₂ : List ValidationError} {u₁ u₂ : Uneval}
    (hes : ErrsRel es₁ es₂) (hu : UnevalRel u₁ u₂) :
    RunRel StRel (arrItems2020H ρ₁ recur₁ c arr es₁ u₁)
      (arrItems2020H ρ₂ recur₂ c arr es₂ u₂) := by
  unfold arrItems2020H
  have hperm : (ρ₁.items c.scope c.vloc "items" u₁.items).Perm
      (ρ₂.items c.scope c.vloc "items" u₂.items) :=
    ((hρ₁.2 _ _ _ _).trans hu.2).trans (hρ₂.2 _ _ _ _).symm
  cases hi : c.self.items2020 with
  | none => exact runRel_pure ⟨hes, hu⟩
  | some sch =>
    refine runRel_bind (foldAppend_rel ?_ ?_ hperm ?_ hes) ?_
    · intro es x
      dsimp only
      cases hx : arr[x]? with
      | none => simp
      | some pvalue =>
        dsimp only
        cases hc : childValidate recur₁ c sch "items" pvalue (toString x) with
        | panic => rfl
        | fuelOut => rfl
        | val r =>
          cases r with
          | ok _ => simp [addErr]
          | error e => simp [addErr]
    · intro es x
      dsimp only
      cases hx : arr[x]? with
      | none => simp
      | some pvalue =>
        dsimp only
        cases hc : childValidate recur₂ c sch "items" pvalue (toString x) with
        | panic => rfl
        | fuelOut => rfl
        | val r =>
          cases r with
          | ok _ => simp [addErr]
          | error e => simp [addErr]
    · intro x _
      dsimp only
      cases hx : arr[x]? with
      | none => exact runRel_pure (errsRel_refl [])
      | some pvalue =>
        refine runRel_bind (childValidate_rel hrec c sch _ pvalue _) ?_
        intro a b hab
        exact runRel_pure (addErr_rel (errsRel_refl []) hab)
    · intro d₁ d₂ hd
      exact runRel_pure ⟨hd, ⟨hu.1, List.Perm.refl []⟩⟩

/-- Agreement of the contains-scan state: equal matched indices, related
collected branch errors, related bookkeeping. -/
def ContRel (t₁ t₂ : List Nat × List ValidationError × Uneval) : Prop :=
  t₁.1 = t₂.1 ∧ ErrsRel t₁.2.1 t₂.2.1 ∧ UnevalRel t₁.2.2 t₂.2.2

theorem arrContains_rel {recur₁ recur₂ : Recur} (hrec : RecurRel recur₁ recur₂)
    (c : VCtx) (arr : List Value) {u₁ u₂ : Uneval} (hu : UnevalRel u₁ u₂) :
    RunRel ContRel (arrContains recur₁ c arr u₁) (arrContains recur₂ c arr u₂) := by
  unfold arrContains
  cases hc : c.self.contains with
  | none => exact runRel_pure ⟨rfl, errsRel_refl [], hu⟩
  | some sch =>
    refine foldlM_rel _ ?_ ⟨rfl, errsRel_refl [], hu⟩
    intro iv _ s₁ s₂ hs
    rcases s₁ with ⟨m₁, ce₁, w₁⟩
    rcases s₂ with ⟨m₂, ce₂, w₂⟩
    obtain ⟨hm, hce, hw⟩ := hs
    dsimp only at hm hce hw
    dsimp only
    refine runRel_bind (childValidate_rel hrec c sch _ iv.2 _) ?_
    intro a b hab
    cases a with
    | error e₁ =>
      cases b with
      | error e₂ =>
        exact runRel_pure ⟨hm, errsRel_append hce (errsRel_single hab), hw⟩
      | ok _ => exact False.elim hab
    | ok _ =>
      cases b with
      | error e₂ => exact False.elim hab
      | ok _ =>
        rw [hm]
        split_ifs
        · exact runRel_pure ⟨rfl, hce, unevalRel_filterItems hw _⟩
        · exact runRel_pure ⟨rfl, hce, hw⟩

theorem arrayKwsH_rel {ρ₁ ρ₂ : HashOrder} (hρ₁ : ρ₁.ok) (hρ₂ : ρ₂.ok)
    {recur₁ recur₂ : Recur} (hrec : RecurRel recur₁ recur₂) (c : VCtx)
    (arr : List Value) {es₁ es₂ : List ValidationError} {u₁ u₂ : Uneval}
    (hes : ErrsRel es₁ es₂) (hu : UnevalRel u₁ u₂) :
    RunRel StRel (arrayKwsH ρ₁ recur₁ c arr es₁ u₁)
      (arrayKwsH ρ₂ recur₂ c arr es₂ u₂) := by
  unfold arrayKwsH
  refine runRel_bind (arrItems_rel hrec c arr
    (appendForm_rel (arrChecks_appendForm c arr) hes) hu) ?_
  rintro ⟨e₁, w₁⟩ ⟨e₂, w₂⟩ ⟨h1, h2⟩
  dsimp only at h1 h2 ⊢
  refine runRel_bind (arrAdditionalItemsH_rel hρ₁ hρ₂ hrec c arr h1 h2) ?_
  rintro ⟨e₁', w₁'⟩ ⟨e₂', w₂'⟩ ⟨h1', h2'⟩
  dsimp only at h1' h2' ⊢
  refine runRel_bind (arrPrefixItems_rel hrec c arr h1' h2') ?_
  rintro ⟨e₁'', w₁''⟩ ⟨e₂'', w₂''⟩ ⟨h1'', h2''⟩
  dsimp only at h1'' h2'' ⊢
  refine runRel_bind (arrItems2020H_rel hρ₁ hρ₂ hrec c arr h1'' h2'') ?_
  rintro ⟨f₁, x₁⟩ ⟨f₂, x₂⟩ ⟨g1, g2⟩
  dsimp only at g1 g2 ⊢
  refine runRel_bind (arrContains_rel hrec c arr g2) ?_
  rintro ⟨m₁, ce₁, y₁⟩ ⟨m₂, ce₂, y₂⟩ ⟨hm, hce, hy⟩
  dsimp only at hm hce hy ⊢
  rw [hm]
  exact runRel_pure ⟨arrContainsChecks_rel c m₂ hce g1, hy⟩

theorem shapeKwsH_rel {ρ₁ ρ₂ : HashOrder} (hρ₁ : ρ₁.ok) (hρ₂ : ρ₂.ok)
    {recur₁ recur₂ : Recur} (hrec : RecurRel recur₁ recur₂) (c : VCtx)
    {es₁ es₂ : List ValidationError} {u₁ u₂ : Uneval}
    (hes : ErrsRel es₁ es₂) (hu : UnevalRel u₁ u₂) :
    RunRel StRel (shapeKwsH ρ₁ recur₁ c es₁ u₁) (shapeKwsH ρ₂ recur₂ c es₂ u₂) := by
  unfold shapeKwsH
  cases hv : c.v with
  | obj members => exact objectKwsH_rel hρ₁ hρ₂ hrec c members hes hu
  | arr elems => exact arrayKwsH_rel hρ₁ hρ₂ hrec c elems hes hu
  | str s => exact runRel_pure ⟨appendForm_rel (stringKws_appendForm c s) hes, hu⟩
  | num n => exact runRel_pure ⟨appendForm_rel (numberKws_appendForm c n) hes, hu⟩
  | null => exact runRel_pure ⟨hes, hu⟩
  | bool b => exact runRel_pure ⟨hes, hu⟩

theorem refKw_rel {recur₁ recur₂ : Recur} (hrec : RecurRel recur₁ recur₂)
    (c : VCtx) {es₁ es₂ : List ValidationError} {u₁ u₂ : Uneval}
    (hes : ErrsRel es₁ es₂) (hu : UnevalRel u₁ u₂) :
    RunRel StRel (refKw recur₁ c es₁ u₁) (refKw recur₂ c es₂ u₂) := by
  unfold refKw
  cases hr : c.self.ref_ with
  | none => exact runRel_pure ⟨hes, hu⟩
  | some r =>
    refine runRel_bind (validateRef_rel hrec c r _ hu) ?_
    rintro ⟨r₁, w₁⟩ ⟨r₂, w₂⟩ ⟨hr', hw⟩
    dsimp only at hr' hw ⊢
    exact runRel_pure ⟨addErr_rel hes hr', hw⟩

theorem recursiveRefKw_rel {recur₁ recur₂ : Recur} (hrec : RecurRel recur₁ recur₂)
    (c : VCtx) {es₁ es₂ : List ValidationError} {u₁ u₂ : Uneval}
    (hes : ErrsRel es₁ es₂) (hu : UnevalRel u₁ u₂) :
    RunRel StRel (recursiveRefKw recur₁ c es₁ u₁) (recursiveRefKw recur₂ c es₂ u₂) := by
  unfold recursiveRefKw
  cases hr : c.self.recursive_ref with
  | none => exact runRel_pure ⟨hes, hu⟩
  | some rref =>
    dsimp only
    cases ht : selectRecursiveTarget c.schemas c.scope rref with
    | none => exact True.intro
    | some target =>
      simp only [RunRes.ofPanic, RunRes.val_bind]
      refine runRel_bind (validateRef_rel hrec c target _ hu) ?_
      rintro ⟨r₁, w₁⟩ ⟨r₂, w₂⟩ ⟨hr', hw⟩
      dsimp only at hr' hw ⊢
      exact runRel_pure ⟨addErr_rel hes hr', hw⟩

theorem dynamicRefKw_rel {recur₁ recur₂ : Recur} (hrec : RecurRel recur₁ recur₂)
    (c : VCtx) {es₁ es₂ : List ValidationError} {u₁ u₂ : Uneval}
    (hes : ErrsRel es₁ es₂) (hu : UnevalRel u₁ u₂) :
    RunRel StRel (dynamicRefKw recur₁ c es₁ u₁) (dynamicRefKw recur₂ c es₂ u₂) := by
  unfold dynamicRefKw
  cases hr : c.self.dynamic_ref with
  | none => exact runRel_pure ⟨hes, hu⟩
  | some dref =>
    dsimp only
    cases ht : selectDynamicTarget c.schemas c.scope dref with
    | none => exact True.intro
    | some target =>
      simp only [RunRes.ofPanic, RunRes.val_bind]
      refine runRel_bind (validateRef_rel hrec c target _ hu) ?_
      rintro ⟨r₁, w₁⟩ ⟨r₂, w₂⟩ ⟨hr', hw⟩
      dsimp only at hr' hw ⊢
      exact runRel_pure ⟨addErr_rel hes hr', hw⟩

theorem refKws_rel {recur₁ recur₂ : Recur} (hrec : RecurRel recur₁ recur₂)
    (c : VCtx) {es₁ es₂ : List ValidationError} {u₁ u₂ : Uneval}
    (hes : ErrsRel es₁ es₂) (hu : UnevalRel u₁ u₂) :
    RunRel StRel (refKws recur₁ c es₁ u₁) (refKws recur₂ c es₂ u₂) := by
  unfold refKws
  refine runRel_bind (refKw_rel hrec c hes hu) ?_
  rintro ⟨e₁, w₁⟩ ⟨e₂, w₂⟩ ⟨h1, h2⟩
  dsimp only at h1 h2 ⊢
  refine runRel_bind (recursiveRefKw_rel hrec c h1 h2) ?_
  rintro ⟨e₁', w₁'⟩ ⟨e₂', w₂'⟩ ⟨h1', h2'⟩
  dsimp only at h1' h2' ⊢
  exact dynamicRefKw_rel hrec c h1' h2'

theorem anyOfStep_rel : ∀ {rs₁ rs₂ : List (Except ValidationError Uneval)},
    List.Forall₂ ResRel rs₁ rs₂ → ∀ {u₁ u₂ : Uneval}, UnevalRel u₁ u₂ →
    UnevalRel (anyOfStep rs₁ u₁).1 (anyOfStep rs₂ u₂).1 ∧
    List.Forall₂ ErrRel (anyOfStep rs₁ u₁).2 (anyOfStep rs₂ u₂).2 := by
  intro rs₁ rs₂ h
  induction h with
  | nil => intro u₁ u₂ hu; exact ⟨hu, List.Forall₂.nil⟩
  | cons hx hxs ih =>
    rename_i a b l₁ l₂
    intro u₁ u₂ hu
    cases a with
    | ok rep₁ =>
      cases b with
      | ok rep₂ => exact ih (unevalRel_merge hu hx)
      | error e₂ => exact False.elim hx
    | error e₁ =>
      cases b with
      | ok rep₂ => exact False.elim hx
      | error e₂ =>
        have hih := ih hu
        rcases h₁ : anyOfStep l₁ u₁ with ⟨w₁, ae₁⟩
        rcases h₂ : anyOfStep l₂ u₂ with ⟨w₂, ae₂⟩
        rw [h₁, h₂] at hih
        simp only [anyOfStep, h₁, h₂]
        exact ⟨hih.1, List.Forall₂.cons hx hih.2⟩

theorem notKw_rel {recur₁ recur₂ : Recur} (hrec : RecurRel recur₁ recur₂)
    (c : VCtx) {es₁ es₂ : List ValidationError} {u₁ u₂ : Uneval}
    (hes : ErrsRel es₁ es₂) (hu : UnevalRel u₁ u₂) :
    RunRel StRel (notKw recur₁ c es₁ u₁) (notKw recur₂ c es₂ u₂) := by
  unfold notKw
  cases hn : c.self.not with
  | none => exact runRel_pure ⟨hes, hu⟩
  | some notSch =>
    refine runRel_bind (selfValidate_rel hrec c notSch _ hu) ?_
    rintro ⟨r₁, w₁⟩ ⟨r₂, w₂⟩ ⟨hr, hw⟩
    dsimp only at hr hw ⊢
    cases r₁ with
    | ok _ =>
      cases r₂ with
      | ok _ => exact runRel_pure ⟨errsRel_append hes (errsRel_refl _), hw⟩
      | error _ => exact False.elim hr
    | error _ =>
      cases r₂ with
      | ok _ => exact False.elim hr
      | error _ => exact runRel_pure ⟨hes, hw⟩

theorem allOfKw_rel {recur₁ recur₂ : Recur} (hrec : RecurRel recur₁ recur₂)
    (c : VCtx) {es₁ es₂ : List ValidationError} {u₁ u₂ : Uneval}
    (hes : ErrsRel es₁ es₂) (hu : UnevalRel u₁ u₂) :
    RunRel StRel (allOfKw recur₁ c es₁ u₁) (allOfKw recur₂ c es₂ u₂) := by
  unfold allOfKw
  split_ifs
  · exact runRel_pure ⟨hes, hu⟩
  · refine foldlM_rel _ ?_ ⟨hes, hu⟩
    intro p _ s₁ s₂ hs
    rcases s₁ with ⟨e₁, w₁⟩
    rcases s₂ with ⟨e₂, w₂⟩
    dsimp only
    have h1 := hs.1
    have h2 := hs.2
    dsimp only at h1 h2
    refine runRel_bind (selfValidate_rel hrec c p.2 _ h2) ?_
    rintro ⟨r₁, w₁'⟩ ⟨r₂, w₂'⟩ ⟨hr, hw⟩
    exact runRel_pure ⟨addErr_rel h1 hr, hw⟩

theorem anyOfKw_rel {recur₁ recur₂ : Recur} (hrec : RecurRel recur₁ recur₂)
    (c : VCtx) {es₁ es₂ : List ValidationError} {u₁ u₂ : Uneval}
    (hes : ErrsRel es₁ es₂) (hu : UnevalRel u₁ u₂) :
    RunRel StRel (anyOfKw recur₁ c es₁ u₁) (anyOfKw recur₂ c es₂ u₂) := by
  unfold anyOfKw
  split_ifs
  · exact runRel_pure ⟨hes, hu⟩
  · refine runRel_bind
      (foldlM_rel (R := List.Forall₂ ResRel) _ ?_ List.Forall₂.nil) ?_
    · intro p _ rs₁ rs₂ hrs
      refine runRel_bind (selfValidateRaw_rel hrec c p.2 _) ?_
      intro a b hab
      exact runRel_pure (forall₂_append hrs (List.Forall₂.cons hab List.Forall₂.nil))
    · intro rs₁ rs₂ hrs
      have hstep := anyOfStep_rel hrs hu
      rcases h₁ : anyOfStep rs₁ u₁ with ⟨w₁, ae₁⟩
      rcases h₂ : anyOfStep rs₂ u₂ with ⟨w₂, ae₂⟩
      rw [h₁, h₂] at hstep
      dsimp only at hstep ⊢
      rw [hstep.2.length_eq]
      split_ifs
      · exact runRel_pure
          ⟨errsRel_append hes ⟨ae₁, List.Perm.refl _, hstep.2⟩, hstep.1⟩
      · exact runRel_pure ⟨hes, hstep.1⟩

/-- Agreement of the oneOf loop state: related bookkeeping, equal matched
indices, related collected errors. -/
def OneRel (t₁ t₂ : Uneval × List Nat × List ValidationError) : Prop :=
  UnevalRel t₁.1 t₂.1 ∧ t₁.2.1 = t₂.2.1 ∧ ErrsRel t₁.2.2 t₂.2.2

theorem oneOfLoop_rel {bval₁ bval₂ : Nat → Nat → RunRes (Except ValidationError Uneval)}
    (hb : ∀ i sch, RunRel ResRel (bval₁ i sch) (bval₂ i sch)) :
    ∀ (l : List (Nat × Nat)) {u₁ u₂ : Uneval} (m : List Nat)
      {es₁ es₂ : List ValidationError},
      UnevalRel u₁ u₂ → ErrsRel es₁ es₂ →
      RunRel OneRel (oneOfLoop bval₁ l u₁ m es₁) (oneOfLoop bval₂ l u₂ m es₂) := by
  intro l
  induction l with
  | nil => intro u₁ u₂ m es₁ es₂ hu hes; exact runRel_pure ⟨hu, rfl, hes⟩
  | cons p rest ih =>
    intro u₁ u₂ m es₁ es₂ hu hes
    dsimp only [oneOfLoop]
    refine runRel_bind (hb p.1 p.2) ?_
    intro a b hab
    cases a with
    | error e₁ =>
      cases b with
      | error e₂ => exact ih _ hu (errsRel_append hes (errsRel_single hab))
      | ok _ => exact False.elim hab
    | ok rep₁ =>
      cases b with
      | error _ => exact False.elim hab
      | ok rep₂ =>
        dsimp only
        split_ifs
        · exact runRel_pure ⟨unevalRel_merge hu hab, rfl, hes⟩
        · exact ih _ (unevalRel_merge hu hab) hes

theorem oneOfKw_rel {recur₁ recur₂ : Recur} (hrec : RecurRel recur₁ recur₂)
    (c : VCtx) {es₁ es₂ : List ValidationError} {u₁ u₂ : Uneval}
    (hes : ErrsRel es₁ es₂) (hu : UnevalRel u₁ u₂) :
    RunRel StRel (oneOfKw recur₁ c es₁ u₁) (oneOfKw recur₂ c es₂ u₂) := by
  unfold oneOfKw
  split_ifs
  · exact runRel_pure ⟨hes, hu⟩
  · refine runRel_bind (oneOfLoop_rel
      (fun i sch => selfValidateRaw_rel hrec c sch ("oneOf/" ++ toString i))
      c.self.one_of.enum [] hu (errsRel_refl [])) ?_
    rintro ⟨w₁, m₁, oe₁⟩ ⟨w₂, m₂, oe₂⟩ ⟨hw, hm, hoe⟩
    dsimp only at hw hm hoe ⊢
    rw [hm]
    exact runRel_pure ⟨oneOfOutcome_rel c m₂ hoe hes, hw⟩

theorem ifThenElseKw_rel {recur₁ recur₂ : Recur} (hrec : RecurRel recur₁ recur₂)
    (c : VCtx) {es₁ es₂ : List ValidationError} {u₁ u₂ : Uneval}
    (hes : ErrsRel es₁ es₂) (hu : UnevalRel u₁ u₂) :
    RunRel StRel (ifThenElseKw recur₁ c es₁ u₁) (ifThenElseKw recur₂ c es₂ u₂) := by
  unfold ifThenElseKw
  cases hi : c.self.if_ with
  | none => exact runRel_pure ⟨hes, hu⟩
  | some ifSch =>
    refine runRel_bind (selfValidate_rel hrec c ifSch _ hu) ?_
    rintro ⟨r₁, w₁⟩ ⟨r₂, w₂⟩ ⟨hr, hw⟩
    dsimp only at hr hw ⊢
    cases r₁ with
    | ok _ =>
      cases r₂ with
      | error _ => exact False.elim hr
      | ok _ =>
        cases ht : c.self.then_ with
        | none => exact runRel_pure ⟨hes, hw⟩
        | some thenSch =>
          refine runRel_bind (selfValidate_rel hrec c thenSch _ hw) ?_
          rintro ⟨r₁', w₁'⟩ ⟨r₂', w₂'⟩ ⟨hr', hw'⟩
          exact runRel_pure ⟨addErr_rel hes hr', hw'⟩
    | error _ =>
      cases r₂ with
      | ok _ => exact False.elim hr
      | error _ =>
        cases he : c.self.else_ with
        | none => exact runRel_pure ⟨hes, hw⟩
        | some elseSch =>
          refine runRel_bind (selfValidate_rel hrec c elseSch _ hw) ?_
          rintro ⟨r₁', w₁'⟩ ⟨r₂', w₂'⟩ ⟨hr', hw'⟩
          exact runRel_pure ⟨addErr_rel hes hr', hw'⟩

theorem combinatorKws_rel {recur₁ recur₂ : Recur} (hrec : RecurRel recur₁ recur₂)
    (c : VCtx) {es₁ es₂ : List ValidationError} {u₁ u₂ : Uneval}
    (hes : ErrsRel es₁ es₂) (hu : UnevalRel u₁ u₂) :
    RunRel StRel (combinatorKws recur₁ c es₁ u₁) (combinatorKws recur₂ c es₂ u₂) := by
  unfold combinatorKws
  refine runRel_bind (notKw_rel hrec c hes hu) ?_
  rintro ⟨e₁, w₁⟩ ⟨e₂, w₂⟩ ⟨h1, h2⟩
  dsimp only at h1 h2 ⊢
  refine runRel_bind (allOfKw_rel hrec c h1 h2) ?_
  rintro ⟨e₁', w₁'⟩ ⟨e₂', w₂'⟩ ⟨h1', h2'⟩
  dsimp only at h1' h2' ⊢
  refine runRel_bind (anyOfKw_rel hrec c h1' h2') ?_
  rintro ⟨e₁'', w₁''⟩ ⟨e₂'', w₂''⟩ ⟨h1'', h2''⟩
  dsimp only at h1'' h2'' ⊢
  refine runRel_bind (oneOfKw_rel hrec c h1'' h2'') ?_
  rintro ⟨f₁, x₁⟩ ⟨f₂, x₂⟩ ⟨g1, g2⟩
  dsimp only at g1 g2 ⊢
  exact ifThenElseKw_rel hrec c g1 g2

theorem unevalPropsKwH_rel {ρ₁ ρ₂ : HashOrder} (hρ₁ : ρ₁.ok) (hρ₂ : ρ₂.ok)
    {recur₁ recur₂ : Recur} (hrec : RecurRel recur₁ recur₂) (c : VCtx)
    {es₁ es₂ : List ValidationError} {u₁ u₂ : Uneval}
    (hes : ErrsRel es₁ es₂) (hu : UnevalRel u₁ u₂) :
    RunRel StRel (unevalPropsKwH ρ₁ recur₁ c es₁ u₁)
      (unevalPropsKwH ρ₂ recur₂ c es₂ u₂) := by
  unfold unevalPropsKwH
  have hperm : (ρ₁.props c.scope c.vloc "unevaluatedProperties" u₁.props).Perm
      (ρ₂.props c.scope c.vloc "unevaluatedProperties" u₂.props) :=
    ((hρ₁.1 _ _ _ _).trans hu.1).trans (hρ₂.1 _ _ _ _).symm
  cases hup : c.self.unevaluated_properties with
  | none => cases hv : c.v <;> exact runRel_pure ⟨hes, hu⟩
  | some sch =>
    cases hv : c.v with
    | obj members =>
      refine runRel_bind (foldAppend_rel ?_ ?_ hperm ?_ hes) ?_
      · intro es x
        dsimp only
        cases hpv : assocGet members x with
        | none => simp
        | some pvalue =>
          dsimp only
          cases hc : childValidate recur₁ c sch "unevaluatedProperties" pvalue (escape x) with
          | panic => rfl
          | fuelOut => rfl
          | val r =>
            cases r with
            | ok _ => simp [addErr]
            | error e => simp [addErr]
      · intro es x
        dsimp only
        cases hpv : assocGet members x with
        | none => simp
        | some pvalue =>
          dsimp only
          cases hc : childValidate recur₂ c sch "unevaluatedProperties" pvalue (escape x) with
          | panic => rfl
          | fuelOut => rfl
          | val r =>
            cases r with
            | ok _ => simp [addErr]
            | error e => simp [addErr]
      · intro x _
        dsimp only
        cases hpv : assocGet members x with
        | none => exact runRel_pure (errsRel_refl [])
        | some pvalue =>
          refine runRel_bind (childValidate_rel hrec c sch _ pvalue _) ?_
          intro a b hab
          exact runRel_pure (addErr_rel (errsRel_refl []) hab)
      · intro d₁ d₂ hd
        exact runRel_pure ⟨hd, ⟨List.Perm.refl [], hu.2⟩⟩
    | null => exact runRel_pure ⟨hes, hu⟩
    | bool b => exact runRel_pure ⟨hes, hu⟩
    | num n => exact runRel_pure ⟨hes, hu⟩
    | str s => exact runRel_pure ⟨hes, hu⟩
    | arr elems => exact runRel_pure ⟨hes, hu⟩

theorem unevalItemsKwH_rel {ρ₁ ρ₂ : HashOrder} (hρ₁ : ρ₁.ok) (hρ₂ : ρ₂.ok)
    {recur₁ recur₂ : Recur} (hrec : RecurRel recur₁ recur₂) (c : VCtx)
    {es₁ es₂ : List ValidationError} {u₁ u₂ : Uneval}
    (hes : ErrsRel es₁ es₂) (hu : UnevalRel u₁ u₂) :
    RunRel StRel (unevalItemsKwH ρ₁ recur₁ c es₁ u₁)
      (unevalItemsKwH ρ₂ recur₂ c es₂ u₂) := by
  unfold unevalItemsKwH
  have hperm : (ρ₁.items c.scope c.vloc "unevaluatedItems" u₁.items).Perm
      (ρ₂.items c.scope c.vloc "unevaluatedItems" u₂.items) :=
    ((hρ₁.2 _ _ _ _).trans hu.2).trans (hρ₂.2 _ _ _ _).symm
  cases hui : c.self.unevaluated_items with
  | none => cases hv : c.v <;> exact runRel_pure ⟨hes, hu⟩
  | some sch =>
    cases hv : c.v with
    | arr arr =>
      refine runRel_bind (foldAppend_rel ?_ ?_ hperm ?_ hes) ?_
      · intro es x
        dsimp only
        cases hx : arr[x]? with
        | none => simp
        | some pvalue =>
          dsimp only
          cases hc : childValidate recur₁ c sch "unevaluatedItems" pvalue (toString x) with
          | panic => rfl
          | fuelOut => rfl
          | val r =>
            cases r with
            | ok _ => simp [addErr]
            | error e => simp [addErr]
      · intro es x
        dsimp only
        cases hx : arr[x]? with
        | none => simp
        | some pvalue =>
          dsimp only
          cases hc : childValidate recur₂ c sch "unevaluatedItems" pvalue (toString x) with
          | panic => rfl
          | fuelOut => rfl
          | val r =>
            cases r with
            | ok _ => simp [addErr]
            | error e => simp [addErr]
      · intro x _
        dsimp only
        cases hx : arr[x]? with
        | none => exact runRel_pure (errsRel_refl [])
        | some pvalue =>
          refine runRel_bind (childValidate_rel hrec c sch _ pvalue _) ?_
          intro a b hab
          exact runRel_pure (addErr_rel (errsRel_refl []) hab)
      · intro d₁ d₂ hd
        exact runRel_pure ⟨hd, ⟨hu.1, List.Perm.refl []⟩⟩
    | null => exact runRel_pure ⟨hes, hu⟩
    | bool b => exact runRel_pure ⟨hes, hu⟩
    | num n => exact runRel_pure ⟨hes, hu⟩
    | str s => exact runRel_pure ⟨hes, hu⟩
    | obj members => exact runRel_pure ⟨hes, hu⟩

theorem unevalKwsH_rel {ρ₁ ρ₂ : HashOrder} (hρ₁ : ρ₁.ok) (hρ₂ : ρ₂.ok)
    {recur₁ recur₂ : Recur} (hrec : RecurRel recur₁ recur₂) (c : VCtx)
    {es₁ es₂ : List ValidationError} {u₁ u₂ : Uneval}
    (hes : ErrsRel es₁ es₂) (hu : UnevalRel u₁ u₂) :
    RunRel StRel (unevalKwsH ρ₁ recur₁ c es₁ u₁) (unevalKwsH ρ₂ recur₂ c es₂ u₂) := by
  unfold unevalKwsH
  refine runRel_bind (unevalPropsKwH_rel hρ₁ hρ₂ hrec c hes hu) ?_
  rintro ⟨e₁, w₁⟩ ⟨e₂, w₂⟩ ⟨h1, h2⟩
  dsimp only at h1 h2 ⊢
  exact unevalItemsKwH_rel hρ₁ hρ₂ hrec c h1 h2

theorem processKeywordsH_rel {ρ₁ ρ₂ : HashOrder} (hρ₁ : ρ₁.ok) (hρ₂ : ρ₂.ok)
    {recur₁ recur₂ : Recur} (hrec : RecurRel recur₁ recur₂) (c : VCtx) :
    RunRel StRel (processKeywordsH ρ₁ recur₁ c) (processKeywordsH ρ₂ recur₂ c) := by
  unfold processKeywordsH
  refine runRel_bind (shapeKwsH_rel hρ₁ hρ₂ hrec c (errsRel_refl _)
    ⟨List.Perm.refl _, List.Perm.refl _⟩) ?_
  rintro ⟨e₁, w₁⟩ ⟨e₂, w₂⟩ ⟨h1, h2⟩
  dsimp only at h1 h2 ⊢
  refine runRel_bind (refKws_rel hrec c h1 h2) ?_
  rintro ⟨e₁', w₁'⟩ ⟨e₂', w₂'⟩ ⟨h1', h2'⟩
  dsimp only at h1' h2' ⊢
  refine runRel_bind (combinatorKws_rel hrec c h1' h2') ?_
  rintro ⟨e₁'', w₁''⟩ ⟨e₂'', w₂''⟩ ⟨h1'', h2''⟩
  dsimp only at h1'' h2'' ⊢
  exact unevalKwsH_rel hρ₁ hρ₂ hrec c h1'' h2''

theorem validateBodyH_rel {ρ₁ ρ₂ : HashOrder} (hρ₁ : ρ₁.ok) (hρ₂ : ρ₂.ok)
    {recur₁ recur₂ : Recur} (hrec : RecurRel recur₁ recur₂) (c : VCtx) :
    RunRel ResRel (validateBodyH ρ₁ recur₁ c) (validateBodyH ρ₂ recur₂ c) := by
  unfold validateBodyH
  cases hb : c.self.boolean with
  | none =>
    refine runRel_bind (processKeywordsH_rel hρ₁ hρ₂ hrec c) ?_
    rintro ⟨e₁, w₁⟩ ⟨e₂, w₂⟩ ⟨h1, h2⟩
    dsimp only at h1 h2 ⊢
    exact runRel_pure (aggregate_rel c h1 h2)
  | some bv =>
    cases bv with
    | false => exact runRel_pure (errRel_refl _)
    | true => exact runRel_pure ⟨List.Perm.refl _, List.Perm.refl _⟩

/-- Two runs of `Schema::validate` under different admissible hash-set
enumeration strategies either both fail to complete or return related results:
the same verdict, with error trees agreeing up to hash enumeration order. -/
theorem validateH_rel {ρ₁ ρ₂ : HashOrder} (hρ₁ : ρ₁.ok) (hρ₂ : ρ₂.ok) :
    ∀ (fuel : Nat) (pool : Schemas) (s : Schema) (v : Value) (vl : String)
      (sc : Scope),
      RunRel ResRel (Schema.validateH ρ₁ fuel pool s v vl sc)
        (Schema.validateH ρ₂ fuel pool s v vl sc) := by
  intro fuel
  induction fuel with
  | zero => intro pool s v vl sc; exact True.intro
  | succ n ih =>
    intro pool s v vl sc
    show RunRel ResRel
      (if sc.hasCycle then
          RunRes.val (.error (VCtx.mkError ⟨pool, s, v, vl, sc⟩ "" .refCycle))
        else validateBodyH ρ₁ (fun s2 v2 vl2 sc2 => Schema.validateH ρ₁ n pool s2 v2 vl2 sc2)
          ⟨pool, s, v, vl, sc⟩)
      (if sc.hasCycle then
          RunRes.val (.error (VCtx.mkError ⟨pool, s, v, vl, sc⟩ "" .refCycle))
        else validateBodyH ρ₂ (fun s2 v2 vl2 sc2 => Schema.validateH ρ₂ n pool s2 v2 vl2 sc2)
          ⟨pool, s, v, vl, sc⟩)
    split_ifs
    · exact runRel_pure (errRel_refl _)
    · exact validateBodyH_rel hρ₁ hρ₂
        (fun s2 v2 vl2 sc2 => ih pool s2 v2 vl2 sc2) _

/-- The canonical-order instance of the explicit-order pipeline is the
order-free pipeline: `Schema.validate` is one run of `Schema.validateH`. -/
theorem validateH_id :
    ∀ (fuel : Nat) (pool : Schemas) (s : Schema) (v : Value) (vl : String)
      (sc : Scope),
      Schema.validateH canonOrder fuel pool s v vl sc
        = Schema.validate fuel pool s v vl sc := by
  intro fuel
  induction fuel with
  | zero => intro pool s v vl sc; rfl
  | succ n ih =>
    intro pool s v vl sc
    show (if sc.hasCycle then
        RunRes.val (.error (VCtx.mkError ⟨pool, s, v, vl, sc⟩ "" .refCycle))
      else validateBodyH canonOrder
        (fun s2 v2 vl2 sc2 => Schema.validateH canonOrder n pool s2 v2 vl2 sc2)
        ⟨pool, s, v, vl, sc⟩)
      = (if sc.hasCycle then
        RunRes.val (.error (VCtx.mkError ⟨pool, s, v, vl, sc⟩ "" .refCycle))
      else validateBody (fun s2 v2 vl2 sc2 => Schema.validate n pool s2 v2 vl2 sc2)
        ⟨pool, s, v, vl, sc⟩)
    split_ifs
    · rfl
    · have hrec : (fun s2 v2 vl2 sc2 => Schema.validateH canonOrder n pool s2 v2 vl2 sc2)
          = (fun s2 v2 vl2 sc2 => Schema.validate n pool s2 v2 vl2 sc2) := by
        funext s2 v2 vl2 sc2
        exact ih pool s2 v2 vl2 sc2
      rw [hrec]
      rfl

/-- The schema pool of the C8 witness: the node `{"additionalProperties": false}`. -/
def c8Pool : Schemas :=
  { list := [{ additional_properties := some (.bool false) }], map := [] }

/-- The instance of the C8 witness: the object `{"b": null, "c": null}`. -/
def c8Val : Value := .obj [("b", .null), ("c", .null)]

/-- C8 as amended: a run of `Schemas::validate` is a run of the explicit-order
pipeline under some admissible enumeration of the freshly created hash sets
(the order-free `Schemas.validate` being the canonical-order run, third
conjunct).  Any two runs on the same compiled pool and instance that complete
return the same success/failure verdict (second conjunct), and their error
trees agree up to hash enumeration: equal locations and kinds except that the
AdditionalProperties key lists are permutations of each other, and cause lists
are permutations with pairwise-agreeing elements (first conjunct; two runs
that fail to complete — a panic or fuel exhaustion of the embedding — are
related trivially). -/
theorem claim_C8 (pool : Schemas) (fuel : Nat) (v : Value) (i : Nat)
    (ρ₁ ρ₂ : HashOrder) (h₁ : ρ₁.ok) (h₂ : ρ₂.ok) :
    RunRel UnitResRel (Schemas.validateH ρ₁ pool fuel v i)
      (Schemas.validateH ρ₂ pool fuel v i) ∧
    (∀ r₁ r₂, Schemas.validateH ρ₁ pool fuel v i = RunRes.val r₁ →
      Schemas.validateH ρ₂ pool fuel v i = RunRes.val r₂ →
      (r₁ = Except.ok () ↔ r₂ = Except.ok ())) ∧
    Schemas.validateH canonOrder pool fuel v i = Schemas.validate pool fuel v i := by
  have hrel : RunRel UnitResRel (Schemas.validateH ρ₁ pool fuel v i)
      (Schemas.validateH ρ₂ pool fuel v i) := by
    unfold Schemas.validateH
    cases hl : pool.list[i]? with
    | none => exact True.intro
    | some sch =>
      dsimp only
      have h := validateH_rel h₁ h₂ fuel pool sch v "" (Scope.root sch.index "" 0)
      cases hv₁ : Schema.validateH ρ₁ fuel pool sch v "" (Scope.root sch.index "" 0) with
      | panic =>
        cases hv₂ : Schema.validateH ρ₂ fuel pool sch v "" (Scope.root sch.index "" 0) with
        | panic => exact True.intro
        | fuelOut => exact True.intro
        | val r =>
          rw [hv₁, hv₂] at h
          exact False.elim h
      | fuelOut =>
        cases hv₂ : Schema.validateH ρ₂ fuel pool sch v "" (Scope.root sch.index "" 0) with
        | panic => exact True.intro
        | fuelOut => exact True.intro
        | val r =>
          rw [hv₁, hv₂] at h
          exact False.elim h
      | val r₁ =>
        cases hv₂ : Schema.validateH ρ₂ fuel pool sch v "" (Scope.root sch.index "" 0) with
        | panic =>
          rw [hv₁, hv₂] at h
          exact False.elim h
        | fuelOut =>
          rw [hv₁, hv₂] at h
          exact False.elim h
        | val r₂ =>
          rw [hv₁, hv₂] at h
          cases r₁ with
          | ok _ =>
            cases r₂ with
            | ok _ => exact True.intro
            | error e₂ => exact False.elim h
          | error e₁ =>
            cases r₂ with
            | ok _ => exact False.elim h
            | error e₂ =>
              exact errRel_mk (kindRel_refl _) (errsRel_single h)
  refine ⟨hrel, ?_, ?_⟩
  · intro r₁ r₂ hv₁ hv₂
    rw [hv₁, hv₂] at hrel
    cases r₁ with
    | ok _ =>
      cases r₂ with
      | ok _ => simp
      | error e₂ => exact False.elim hrel
    | error e₁ =>
      cases r₂ with
      | ok _ => exact False.elim hrel
      | error e₂ => simp
  · unfold Schemas.validateH Schemas.validate
    cases hl : pool.list[i]? with
    | none => rfl
    | some sch =>
      dsimp only
      rw [validateH_id fuel pool sch v "" (Scope.root sch.index "" 0)]

/-- Witness for C8 at concrete inputs: the canonical run and the reversed run
of `{"additionalProperties": false}` against `{"b": null, "c": null}` are
related, yet produce error payloads listing the same key set in the two
orders; the canonical run is the order-free validate. -/
theorem claim_C8_witness :
    RunRel UnitResRel (Schemas.validateH canonOrder c8Pool 1 c8Val 0)
      (Schemas.validateH reverseOrder c8Pool 1 c8Val 0) ∧
    Schemas.validateH canonOrder c8Pool 1 c8Val 0
      = RunRes.val (.error (.mk "" "" "" (.schema "")
          [.mk "/additionalProperties" "/additionalProperties" ""
            (.additionalProperties ["b", "c"]) []])) ∧
    Schemas.validateH reverseOrder c8Pool 1 c8Val 0
      = RunRes.val (.error (.mk "" "" "" (.schema "")
          [.mk "/additionalProperties" "/additionalProperties" ""
            (.additionalProperties ["c", "b"]) []])) ∧
    Schemas.validateH canonOrder c8Pool 1 c8Val 0 = Schemas.validate c8Pool 1 c8Val 0 := by
  have hcan : HashOrder.ok canonOrder :=
    ⟨fun _ _ _ l => List.Perm.refl l, fun _ _ _ l => List.Perm.refl l⟩
  have hrev : HashOrder.ok reverseOrder :=
    ⟨fun _ _ _ l => List.reverse_perm l, fun _ _ _ l => List.reverse_perm l⟩
  refine ⟨(claim_C8 c8Pool 1 c8Val 0 canonOrder reverseOrder hcan hrev).1, ?_, ?_,
    (claim_C8 c8Pool 1 c8Val 0 canonOrder reverseOrder hcan hrev).2.2⟩
  · with_unfolding_all rfl
  · with_unfolding_all rfl

/-- Every index the option may hold is inside the pool. -/
def optLT (len : Nat) (o : Option Nat) : Prop := ∀ i, o = some i → i < len

/-- Well-formedness of the index fields of one compiled node: every stored
schema index points into the pool.  The compiler (whose source is not included)
establishes this for every pool it returns; `Schemas::get` unconditionally
indexes the pool, so validation relies on it. -/
def Schema.wfIdx (len : Nat) (s : Schema) : Prop :=
  s.index < len ∧
  s.resource < len ∧
  (∀ p ∈ s.dynamic_anchors, p.2 < len) ∧
  optLT len s.ref_ ∧
  optLT len s.recursive_ref ∧
  optLT len s.dynamic_ref ∧
  optLT len s.not ∧
  (∀ i ∈ s.all_of, i < len) ∧
  (∀ i ∈ s.any_of, i < len) ∧
  (∀ i ∈ s.one_of, i < len) ∧
  optLT len s.if_ ∧
  optLT len s.then_ ∧
  optLT len s.else_ ∧
  (∀ p ∈ s.properties, p.2 < len) ∧
  (∀ p ∈ s.pattern_properties, p.2 < len) ∧
  optLT len s.property_names ∧
  (∀ i, s.additional_properties = some (.schemaRef i) → i < len) ∧
  (∀ p ∈ s.dependent_schemas, p.2 < len) ∧
  (∀ p ∈ s.dependencies, ∀ i, p.2 = Dependency.schemaRef i → i < len) ∧
  optLT len s.unevaluated_properties ∧
  (∀ i, s.items = some (.schemaRef i) → i < len) ∧
  (∀ l, s.items = some (.schemaRefs l) → ∀ i ∈ l, i < len) ∧
  (∀ i, s.additional_items = some (.schemaRef i) → i < len) ∧
  (∀ i ∈ s.prefix_items, i < len) ∧
  optLT len s.items2020 ∧
  optLT len s.contains ∧
  optLT len s.unevaluated_items

/-- Well-formedness of a pool: every node's index fields point into the pool. -/
def Schemas.wf (pool : Schemas) : Prop :=
  ∀ s ∈ pool.list, Schema.wfIdx pool.list.length s

/-- Every schema index on the scope chain points into the pool. -/
def Scope.schOK (len : Nat) : Scope → Prop
  | .root s _ _ => s < len
  | .child s _ _ p => s < len ∧ Scope.schOK len p

/-- The recursive validator never panics on well-formed arguments. -/
def RecurOK (c : VCtx) (recur : Recur) : Prop :=
  ∀ s v vl sc, Schema.wfIdx c.schemas.list.length s →
    Scope.schOK c.schemas.list.length sc → recur s v vl sc ≠ .panic

/-- The context is well-formed: pool, current node and scope chain. -/
def VCtxOK (c : VCtx) : Prop :=
  c.schemas.wf ∧ Schema.wfIdx c.schemas.list.length c.self ∧
    Scope.schOK c.schemas.list.length c.scope

theorem get?_wfIdx {pool : Schemas} (hw : pool.wf) {i : Nat} {s : Schema}
    (h : pool.get? i = some s) : Schema.wfIdx pool.list.length s := by
  apply hw
  simp only [Schemas.get?] at h
  exact List.getElem?_mem h

theorem get?_isSome (pool : Schemas) {i : Nat} (h : i < pool.list.length) :
    ∃ s, pool.get? i = some s := by
  simp only [Schemas.get?]
  exact ⟨pool.list[i], List.getElem?_eq_getElem h⟩

theorem selfValidateRaw_ne_panic {recur : Recur} {c : VCtx} {sch : Nat}
    {kwPath : String} (hr : RecurOK c recur) (hc : VCtxOK c)
    (hs : sch < c.schemas.list.length) :
    selfValidateRaw recur c sch kwPath ≠ .panic := by
  obtain ⟨s, hget⟩ := get?_isSome c.schemas hs
  unfold selfValidateRaw
  rw [hget]
  simp only [RunRes.ofPanic, RunRes.val_bind]
  exact hr s _ _ _ (get?_wfIdx hc.1 hget) ⟨hs, hc.2.2⟩

theorem selfValidate_ne_panic {recur : Recur} {c : VCtx} {sch : Nat}
    {kwPath : String} {uneval : Uneval} (hr : RecurOK c recur) (hc : VCtxOK c)
    (hs : sch < c.schemas.list.length) :
    selfValidate recur c sch kwPath uneval ≠ .panic := by
  unfold selfValidate
  refine RunRes.bind_ne_panic _ _ (selfValidateRaw_ne_panic hr hc hs) ?_
  intro r
  cases r <;> simp

theorem childValidate_ne_panic {recur : Recur} {c : VCtx} {sch : Nat}
    {kwPath : String} {v : Value} {vpath : String}
    (hr : RecurOK c recur) (hc : VCtxOK c)
    (hs : sch < c.schemas.list.length) :
    childValidate recur c sch kwPath v vpath ≠ .panic := by
  obtain ⟨s, hget⟩ := get?_isSome c.schemas hs
  unfold childValidate
  rw [hget]
  simp only [RunRes.ofPanic, RunRes.val_bind]
  refine RunRes.bind_ne_panic _ _ (hr s _ _ _ (get?_wfIdx hc.1 hget) ⟨hs, hc.2.2⟩) ?_
  intro r
  cases r <;> simp

theorem validateRef_ne_panic {recur : Recur} {c : VCtx} {sch : Nat}
    {kw : String} {uneval : Uneval} (hr : RecurOK c recur) (hc : VCtxOK c)
    (hs : sch < c.schemas.list.length) :
    validateRef recur c sch kw uneval ≠ .panic := by
  unfold validateRef
  refine RunRes.bind_ne_panic _ _ (selfValidate_ne_panic hr hc hs) ?_
  rintro ⟨r, u⟩
  cases r with
  | ok _ => simp
  | error refErr =>
    obtain ⟨s, hget⟩ := get?_isSome c.schemas hs
    simp only [hget, RunRes.ofPanic, RunRes.val_bind]
    cases refErr.kind <;> simp

theorem recursiveResolve_isSome_lt {pool : Schemas} (hw : pool.wf) :
    ∀ (scope : Scope) (cur : Nat), Scope.schOK pool.list.length scope →
      cur < pool.list.length →
      ∃ t, recursiveResolve pool scope cur = some t ∧ t < pool.list.length := by
  intro scope
  induction scope with
  | root sch k v =>
    intro cur hsc hcur
    obtain ⟨s, hget⟩ := get?_isSome pool hsc
    obtain ⟨b, hbget⟩ := get?_isSome pool (get?_wfIdx hw hget).2.1
    refine ⟨if b.recursive_anchor then sch else cur, ?_, ?_⟩
    · simp [recursiveResolve, hget, hbget]
    · split <;> [exact hsc; exact hcur]
  | child sch k v p ih =>
    intro cur hsc hcur
    obtain ⟨s, hget⟩ := get?_isSome pool hsc.1
    obtain ⟨b, hbget⟩ := get?_isSome pool (get?_wfIdx hw hget).2.1
    obtain ⟨t, ht, htlt⟩ := ih (if b.recursive_anchor then sch else cur) hsc.2
      (by split <;> [exact hsc.1; exact hcur])
    exact ⟨t, by simp [recursiveResolve, hget, hbget, ht], htlt⟩

theorem anchor_lt {pool : Schemas} (hw : pool.wf) (name : String) {b : Schema}
    {t cur : Nat} (hb : b ∈ pool.list)
    (h : (match assocGet b.dynamic_anchors name with
          | some t => t
          | none => cur) = t) (hcur : cur < pool.list.length) :
    t < pool.list.length := by
  have hanch := (hw b hb).2.2.1
  rcases ha : assocGet b.dynamic_anchors name with _ | t2
  · rw [ha] at h; simpa [← h] using hcur
  · rw [ha] at h
    simp only [assocGet, Option.map_eq_some'] at ha
    obtain ⟨pp, hp, hp2⟩ := ha
    have hm := List.mem_of_find?_eq_some hp
    subst h; subst hp2
    exact hanch pp hm

theorem dynamicResolve_isSome_lt {pool : Schemas} (hw : pool.wf) (name : String) :
    ∀ (scope : Scope) (cur : Nat), Scope.schOK pool.list.length scope →
      cur < pool.list.length →
      ∃ t, dynamicResolve pool name scope cur = some t ∧ t < pool.list.length := by
  intro scope
  induction scope with
  | root sch k v =>
    intro cur hsc hcur
    obtain ⟨s, hget⟩ := get?_isSome pool hsc
    obtain ⟨b, hbget⟩ := get?_isSome pool (get?_wfIdx hw hget).2.1
    have hbmem : b ∈ pool.list := by
      simp only [Schemas.get?] at hbget
      exact List.getElem?_mem hbget
    exact ⟨_, by simp [dynamicResolve, hget, hbget],
      anchor_lt hw name hbmem rfl hcur⟩
  | child sch k v p ih =>
    intro cur hsc hcur
    obtain ⟨s, hget⟩ := get?_isSome pool hsc.1
    obtain ⟨b, hbget⟩ := get?_isSome pool (get?_wfIdx hw hget).2.1
    have hbmem : b ∈ pool.list := by
      simp only [Schemas.get?] at hbget
      exact List.getElem?_mem hbget
    obtain ⟨t, ht, htlt⟩ := ih _ hsc.2 (anchor_lt hw name hbmem rfl hcur)
    exact ⟨t, by simp [dynamicResolve, hget, hbget, ht], htlt⟩

theorem selectRecursiveTarget_isSome_lt {pool : Schemas} (hw : pool.wf)
    {scope : Scope} {rref : Nat} (hsc : Scope.schOK pool.list.length scope)
    (h : rref < pool.list.length) :
    ∃ t, selectRecursiveTarget pool scope rref = some t ∧ t < pool.list.length := by
  obtain ⟨s, hget⟩ := get?_isSome pool h
  by_cases hra : s.recursive_anchor
  · obtain ⟨t, ht, htlt⟩ := recursiveResolve_isSome_lt hw scope rref hsc h
    exact ⟨t, by simp [selectRecursiveTarget, hget, hra, ht], htlt⟩
  · exact ⟨rref, by simp [selectRecursiveTarget, hget, hra], h⟩

theorem selectDynamicTarget_isSome_lt {pool : Schemas} (hw : pool.wf)
    {scope : Scope} {dref : Nat} (hsc : Scope.schOK pool.list.length scope)
    (h : dref < pool.list.length) :
    ∃ t, selectDynamicTarget pool scope dref = some t ∧ t < pool.list.length := by
  obtain ⟨s, hget⟩ := get?_isSome pool h
  rcases ha : s.dynamic_anchor with _ | name
  · exact ⟨dref, by simp [selectDynamicTarget, hget, ha], h⟩
  · obtain ⟨t, ht, htlt⟩ := dynamicResolve_isSome_lt hw name scope dref hsc h
    exact ⟨t, by simp [selectDynamicTarget, hget, ha, ht], htlt⟩

/-- Shorthand for destructuring the 27 well-formedness components of a node. -/
theorem wfIdx_parts {c : VCtx} (hc : VCtxOK c) :
    Schema.wfIdx c.schemas.list.length c.self := hc.2.1

theorem snd_mem_of_mem_enum {α : Type} {l : List α} {p : Nat × α}
    (h : p ∈ l.enum) : p.2 ∈ l := by
  have h2 := List.mem_enum_iff_getElem?.mp h
  exact List.getElem?_mem h2

theorem refKw_ne_panic {recur : Recur} {c : VCtx} (hr : RecurOK c recur)
    (hc : VCtxOK c) (errors : List ValidationError) (uneval : Uneval) :
    refKw recur c errors uneval ≠ .panic := by
  unfold refKw
  rcases h1 : c.self.ref_ with _ | r
  · simp
  · refine RunRes.bind_ne_panic _ _
      (validateRef_ne_panic hr hc ((wfIdx_parts hc).2.2.2.1 r h1)) ?_
    rintro ⟨res, u⟩; simp

theorem recursiveRefKw_ne_panic {recur : Recur} {c : VCtx} (hr : RecurOK c recur)
    (hc : VCtxOK c) (errors : List ValidationError) (uneval : Uneval) :
    recursiveRefKw recur c errors uneval ≠ .panic := by
  unfold recursiveRefKw
  rcases h1 : c.self.recursive_ref with _ | rref
  · simp
  · obtain ⟨t, ht, htlt⟩ := selectRecursiveTarget_isSome_lt hc.1 hc.2.2
      ((wfIdx_parts hc).2.2.2.2.1 rref h1)
    have hof : RunRes.ofPanic (selectRecursiveTarget c.schemas c.scope rref)
        = .val t := by rw [ht]; rfl
    refine RunRes.bind_ne_panic2 _ _ t hof ?_
    refine RunRes.bind_ne_panic _ _ (validateRef_ne_panic hr hc htlt) ?_
    rintro ⟨res, u⟩; simp

theorem dynamicRefKw_ne_panic {recur : Recur} {c : VCtx} (hr : RecurOK c recur)
    (hc : VCtxOK c) (errors : List ValidationError) (uneval : Uneval) :
    dynamicRefKw recur c errors uneval ≠ .panic := by
  unfold dynamicRefKw
  rcases h1 : c.self.dynamic_ref with _ | dref
  · simp
  · obtain ⟨t, ht, htlt⟩ := selectDynamicTarget_isSome_lt hc.1 hc.2.2
      ((wfIdx_parts hc).2.2.2.2.2.1 dref h1)
    have hof : RunRes.ofPanic (selectDynamicTarget c.schemas c.scope dref)
        = .val t := by rw [ht]; rfl
    refine RunRes.bind_ne_panic2 _ _ t hof ?_
    refine RunRes.bind_ne_panic _ _ (validateRef_ne_panic hr hc htlt) ?_
    rintro ⟨res, u⟩; simp

theorem refKws_ne_panic {recur : Recur} {c : VCtx} (hr : RecurOK c recur)
    (hc : VCtxOK c) (errors : List ValidationError) (uneval : Uneval) :
    refKws recur c errors uneval ≠ .panic := by
  unfold refKws
  refine RunRes.bind_ne_panic _ _ (refKw_ne_panic hr hc errors uneval) ?_
  rintro ⟨e1, u1⟩
  refine RunRes.bind_ne_panic _ _ (recursiveRefKw_ne_panic hr hc e1 u1) ?_
  rintro ⟨e2, u2⟩
  exact dynamicRefKw_ne_panic hr hc e2 u2

theorem objDependencies_ne_panic {recur : Recur} {c : VCtx}
    {members : List (String × Value)} (hr : RecurOK c recur) (hc : VCtxOK c)
    (errors : List ValidationError) (uneval : Uneval) :
    objDependencies recur c members errors uneval ≠ .panic := by
  unfold objDependencies
  refine RunRes.foldlM_ne_panic _ _ _ ?_
  rintro ⟨es, un⟩ ⟨pname, dep⟩ hmem
  dsimp only
  by_cases hhas : (members.any (fun m => m.1 == pname)) = true
  · rw [if_pos hhas]
    rcases dep with reqd | sch
    · dsimp only
      split <;> simp
    · dsimp only
      refine RunRes.bind_ne_panic _ _ (selfValidate_ne_panic hr hc
        ((wfIdx_parts hc).2.2.2.2.2.2.2.2.2.2.2.2.2.2.2.2.2.2.1
          (pname, Dependency.schemaRef sch) hmem sch rfl)) ?_
      rintro ⟨r, u2⟩; simp
  · rw [if_neg hhas]
    simp

theorem objDependentSchemas_ne_panic {recur : Recur} {c : VCtx}
    {members : List (String × Value)} (hr : RecurOK c recur) (hc : VCtxOK c)
    (errors : List ValidationError) (uneval : Uneval) :
    objDependentSchemas recur c members errors uneval ≠ .panic := by
  unfold objDependentSchemas
  refine RunRes.foldlM_ne_panic _ _ _ ?_
  rintro ⟨es, un⟩ ps hmem
  dsimp only
  by_cases hhas : (members.any (fun m => m.1 == ps.1)) = true
  · rw [if_pos hhas]
    refine RunRes.bind_ne_panic _ _ (selfValidate_ne_panic hr hc
      ((wfIdx_parts hc).2.2.2.2.2.2.2.2.2.2.2.2.2.2.2.2.2.1 ps hmem)) ?_
    rintro ⟨r, u2⟩; simp
  · rw [if_neg hhas]
    simp

theorem objProperties_ne_panic {recur : Recur} {c : VCtx}
    {members : List (String × Value)} (hr : RecurOK c recur) (hc : VCtxOK c)
    (errors : List ValidationError) (uneval : Uneval) :
    objProperties recur c members errors uneval ≠ .panic := by
  unfold objProperties
  refine RunRes.foldlM_ne_panic _ _ _ ?_
  rintro ⟨es, un⟩ pp hmem
  rcases hv : assocGet members pp.1 with _ | pvalue
  · simp [hv]
  · simp only [hv]
    refine RunRes.bind_ne_panic _ _ (childValidate_ne_panic hr hc
      ((wfIdx_parts hc).2.2.2.2.2.2.2.2.2.2.2.2.2.1 pp hmem)) ?_
    intro r; simp

theorem objPatternProperties_ne_panic {recur : Recur} {c : VCtx}
    {members : List (String × Value)} (hr : RecurOK c recur) (hc : VCtxOK c)
    (errors : List ValidationError) (uneval : Uneval) :
    objPatternProperties recur c members errors uneval ≠ .panic := by
  unfold objPatternProperties
  refine RunRes.foldlM_ne_panic _ _ _ ?_
  intro acc rp hmem
  refine RunRes.foldlM_ne_panic _ _ _ ?_
  rintro ⟨es, un⟩ pv hpv
  refine RunRes.bind_ne_panic _ _ (childValidate_ne_panic hr hc
    ((wfIdx_parts hc).2.2.2.2.2.2.2.2.2.2.2.2.2.2.1 rp hmem)) ?_
  intro r; simp

theorem objPropertyNames_ne_panic {recur : Recur} {c : VCtx}
    {members : List (String × Value)} (hr : RecurOK c recur) (hc : VCtxOK c)
    (errors : List ValidationError) (uneval : Uneval) :
    objPropertyNames recur c members errors uneval ≠ .panic := by
  unfold objPropertyNames
  rcases h1 : c.self.property_names with _ | sch
  · simp
  · refine RunRes.foldlM_ne_panic _ _ _ ?_
    rintro ⟨es, un⟩ pv hpv
    refine RunRes.bind_ne_panic _ _ (childValidate_ne_panic hr hc
      ((wfIdx_parts hc).2.2.2.2.2.2.2.2.2.2.2.2.2.2.2.1 sch h1)) ?_
    intro r; simp

theorem objAdditionalProperties_ne_panic {recur : Recur} {c : VCtx}
    {members : List (String × Value)} (hr : RecurOK c recur) (hc : VCtxOK c)
    (errors : List ValidationError) (uneval : Uneval) :
    objAdditionalProperties recur c members errors uneval ≠ .panic := by
  unfold objAdditionalProperties
  rcases h1 : c.self.additional_properties with _ | add
  · simp
  · rcases add with allowed | sch
    · simp
    · refine RunRes.bind_ne_panic _ _ ?_ ?_
      · refine RunRes.foldlM_ne_panic _ _ _ ?_
        intro es pname hmem
        rcases hv : assocGet members pname with _ | pvalue
        · simp [hv]
        · simp only [hv]
          refine RunRes.bind_ne_panic _ _ (childValidate_ne_panic hr hc
            ((wfIdx_parts hc).2.2.2.2.2.2.2.2.2.2.2.2.2.2.2.2.1 sch h1)) ?_
          intro r; simp
      · intro es; simp

theorem objectKws_ne_panic {recur : Recur} {c : VCtx}
    {members : List (String × Value)} (hr : RecurOK c recur) (hc : VCtxOK c)
    (errors : List ValidationError) (uneval : Uneval) :
    objectKws recur c members errors uneval ≠ .panic := by
  unfold objectKws
  refine RunRes.bind_ne_panic _ _ (objDependencies_ne_panic hr hc _ _) ?_
  rintro ⟨e1, u1⟩
  refine RunRes.bind_ne_panic _ _ (objDependentSchemas_ne_panic hr hc _ _) ?_
  rintro ⟨e2, u2⟩
  refine RunRes.bind_ne_panic _ _ (objProperties_ne_panic hr hc _ _) ?_
  rintro ⟨e3, u3⟩
  refine RunRes.bind_ne_panic _ _ (objPatternProperties_ne_panic hr hc _ _) ?_
  rintro ⟨e4, u4⟩
  refine RunRes.bind_ne_panic _ _ (objPropertyNames_ne_panic hr hc _ _) ?_
  rintro ⟨e5, u5⟩
  exact objAdditionalProperties_ne_panic hr hc _ _

theorem arrItems_ne_panic {recur : Recur} {c : VCtx} {arr : List Value}
    (hr : RecurOK c recur) (hc : VCtxOK c)
    (errors : List ValidationError) (uneval : Uneval) :
    arrItems recur c arr errors uneval ≠ .panic := by
  unfold arrItems
  rcases h1 : c.self.items with _ | it
  · simp
  · rcases it with sch | list
    · refine RunRes.bind_ne_panic _ _ ?_ ?_
      · refine RunRes.foldlM_ne_panic _ _ _ ?_
        intro es iv hmem
        refine RunRes.bind_ne_panic _ _ (childValidate_ne_panic hr hc
          ((wfIdx_parts hc).2.2.2.2.2.2.2.2.2.2.2.2.2.2.2.2.2.2.2.2.1 sch h1)) ?_
        intro r; simp
      · intro es; simp
    · refine RunRes.foldlM_ne_panic _ _ _ ?_
      rintro ⟨es, un⟩ p hmem
      have hp2 : p.2.2 ∈ list := by
        have h := List.of_mem_zip (snd_mem_of_mem_enum hmem)
        exact h.2
      refine RunRes.bind_ne_panic _ _ (childValidate_ne_panic hr hc
        ((wfIdx_parts hc).2.2.2.2.2.2.2.2.2.2.2.2.2.2.2.2.2.2.2.2.2.1 list h1 _ hp2)) ?_
      intro r; simp

theorem arrAdditionalItems_ne_panic {recur : Recur} {c : VCtx} {arr : List Value}
    (hr : RecurOK c recur) (hc : VCtxOK c)
    (errors : List ValidationError) (uneval : Uneval) :
    arrAdditionalItems recur c arr errors uneval ≠ .panic := by
  unfold arrAdditionalItems
  rcases h1 : c.self.additional_items with _ | add
  · simp
  · rcases add with allowed | sch
    · simp
    · refine RunRes.bind_ne_panic _ _ ?_ ?_
      · refine RunRes.foldlM_ne_panic _ _ _ ?_
        intro es index hmem
        rcases hv : arr[index]? with _ | pvalue
        · simp [hv]
        · simp only [hv]
          refine RunRes.bind_ne_panic _ _ (childValidate_ne_panic hr hc
            ((wfIdx_parts hc).2.2.2.2.2.2.2.2.2.2.2.2.2.2.2.2.2.2.2.2.2.2.1 sch h1)) ?_
          intro r; simp
      · intro es; simp

theorem arrPrefixItems_ne_panic {recur : Recur} {c : VCtx} {arr : List Value}
    (hr : RecurOK c recur) (hc : VCtxOK c)
    (errors : List ValidationError) (uneval : Uneval) :
    arrPrefixItems recur c arr errors uneval ≠ .panic := by
  unfold arrPrefixItems
  refine RunRes.foldlM_ne_panic _ _ _ ?_
  rintro ⟨es, un⟩ p hmem
  have hp1 : p.2.1 ∈ c.self.prefix_items := by
    have h := List.of_mem_zip (snd_mem_of_mem_enum hmem)
    exact h.1
  refine RunRes.bind_ne_panic _ _ (childValidate_ne_panic hr hc
    ((wfIdx_parts hc).2.2.2.2.2.2.2.2.2.2.2.2.2.2.2.2.2.2.2.2.2.2.2.1 _ hp1)) ?_
  intro r; simp

theorem arrItems2020_ne_panic {recur : Recur} {c : VCtx} {arr : List Value}
    (hr : RecurOK c recur) (hc : VCtxOK c)
    (errors : List ValidationError) (uneval : Uneval) :
    arrItems2020 recur c arr errors uneval ≠ .panic := by
  unfold arrItems2020
  rcases h1 : c.self.items2020 with _ | sch
  · simp
  · refine RunRes.bind_ne_panic _ _ ?_ ?_
    · refine RunRes.foldlM_ne_panic _ _ _ ?_
      intro es index hmem
      rcases hv : arr[index]? with _ | pvalue
      · simp [hv]
      · simp only [hv]
        refine RunRes.bind_ne_panic _ _ (childValidate_ne_panic hr hc
          ((wfIdx_parts hc).2.2.2.2.2.2.2.2.2.2.2.2.2.2.2.2.2.2.2.2.2.2.2.2.1 sch h1)) ?_
        intro r; simp
    · intro es; simp

theorem arrContains_ne_panic {recur : Recur} {c : VCtx} {arr : List Value}
    (hr : RecurOK c recur) (hc : VCtxOK c) (uneval : Uneval) :
    arrContains recur c arr uneval ≠ .panic := by
  unfold arrContains
  rcases h1 : c.self.contains with _ | sch
  · simp
  · refine RunRes.foldlM_ne_panic _ _ _ ?_
    rintro ⟨matched, cerrs, un⟩ iv hmem
    refine RunRes.bind_ne_panic _ _ (childValidate_ne_panic hr hc
      ((wfIdx_parts hc).2.2.2.2.2.2.2.2.2.2.2.2.2.2.2.2.2.2.2.2.2.2.2.2.2.1 sch h1)) ?_
    intro r; cases r <;> simp

theorem arrayKws_ne_panic {recur : Recur} {c : VCtx} {arr : List Value}
    (hr : RecurOK c recur) (hc : VCtxOK c)
    (errors : List ValidationError) (uneval : Uneval) :
    arrayKws recur c arr errors uneval ≠ .panic := by
  unfold arrayKws
  refine RunRes.bind_ne_panic _ _ (arrItems_ne_panic hr hc _ _) ?_
  rintro ⟨e1, u1⟩
  refine RunRes.bind_ne_panic _ _ (arrAdditionalItems_ne_panic hr hc _ _) ?_
  rintro ⟨e2, u2⟩
  refine RunRes.bind_ne_panic _ _ (arrPrefixItems_ne_panic hr hc _ _) ?_
  rintro ⟨e3, u3⟩
  refine RunRes.bind_ne_panic _ _ (arrItems2020_ne_panic hr hc _ _) ?_
  rintro ⟨e4, u4⟩
  refine RunRes.bind_ne_panic _ _ (arrContains_ne_panic hr hc _) ?_
  rintro ⟨cm, ce, u5⟩; simp

theorem shapeKws_ne_panic {recur : Recur} {c : VCtx} (hr : RecurOK c recur)
    (hc : VCtxOK c) (errors : List ValidationError) (uneval : Uneval) :
    shapeKws recur c errors uneval ≠ .panic := by
  unfold shapeKws
  rcases c.v with _ | b | n | st | elems | members
  · simp
  · simp
  · simp
  · simp
  · exact arrayKws_ne_panic hr hc errors uneval
  · exact objectKws_ne_panic hr hc errors uneval

theorem notKw_ne_panic {recur : Recur} {c : VCtx} (hr : RecurOK c recur)
    (hc : VCtxOK c) (errors : List ValidationError) (uneval : Uneval) :
    notKw recur c errors uneval ≠ .panic := by
  unfold notKw
  rcases h1 : c.self.not with _ | notSch
  · simp
  · refine RunRes.bind_ne_panic _ _ (selfValidate_ne_panic hr hc
      ((wfIdx_parts hc).2.2.2.2.2.2.1 notSch h1)) ?_
    rintro ⟨r, u⟩; cases r <;> simp

theorem allOfKw_ne_panic {recur : Recur} {c : VCtx} (hr : RecurOK c recur)
    (hc : VCtxOK c) (errors : List ValidationError) (uneval : Uneval) :
    allOfKw recur c errors uneval ≠ .panic := by
  unfold allOfKw
  split
  · simp
  · refine RunRes.foldlM_ne_panic _ _ _ ?_
    rintro ⟨es, un⟩ p hmem
    refine RunRes.bind_ne_panic _ _ (selfValidate_ne_panic hr hc
      ((wfIdx_parts hc).2.2.2.2.2.2.2.1 _ (snd_mem_of_mem_enum hmem))) ?_
    rintro ⟨r, u⟩; simp

theorem anyOfKw_ne_panic {recur : Recur} {c : VCtx} (hr : RecurOK c recur)
    (hc : VCtxOK c) (errors : List ValidationError) (uneval : Uneval) :
    anyOfKw recur c errors uneval ≠ .panic := by
  unfold anyOfKw
  split
  · simp
  · refine RunRes.bind_ne_panic _ _ ?_ ?_
    · refine RunRes.foldlM_ne_panic _ _ _ ?_
      intro rs p hmem
      refine RunRes.bind_ne_panic _ _ (selfValidateRaw_ne_panic hr hc
        ((wfIdx_parts hc).2.2.2.2.2.2.2.2.1 _ (snd_mem_of_mem_enum hmem))) ?_
      intro r; simp
    · intro results; simp

theorem oneOfLoop_ne_panic (bval : Nat → Nat → RunRes (Except ValidationError Uneval)) :
    ∀ (branches : List (Nat × Nat)), (∀ p ∈ branches, bval p.1 p.2 ≠ .panic) →
    ∀ (u : Uneval) (m : List Nat) (es : List ValidationError),
      oneOfLoop bval branches u m es ≠ .panic := by
  intro branches
  induction branches with
  | nil => intro hb u m es; simp [oneOfLoop]
  | cons p rest ih =>
    intro hb u m es
    rw [oneOfLoop]
    refine RunRes.bind_ne_panic _ _ (hb p (by simp)) ?_
    intro r
    cases r with
    | error e =>
      dsimp only
      exact ih (fun q hq => hb q (by simp [hq])) u m (es ++ [e])
    | ok reply =>
      dsimp only
      split
      · simp
      · exact ih (fun q hq => hb q (by simp [hq])) (u.merge reply) (m ++ [p.1]) es

theorem oneOfKw_ne_panic {recur : Recur} {c : VCtx} (hr : RecurOK c recur)
    (hc : VCtxOK c) (errors : List ValidationError) (uneval : Uneval) :
    oneOfKw recur c errors uneval ≠ .panic := by
  unfold oneOfKw
  split
  · simp
  · refine RunRes.bind_ne_panic _ _ ?_ ?_
    · refine oneOfLoop_ne_panic _ _ ?_ uneval [] []
      intro p hmem
      exact selfValidateRaw_ne_panic hr hc
        ((wfIdx_parts hc).2.2.2.2.2.2.2.2.2.1 _ (snd_mem_of_mem_enum hmem))
    · rintro ⟨u, matched, oes⟩; simp

theorem ifThenElseKw_ne_panic {recur : Recur} {c : VCtx} (hr : RecurOK c recur)
    (hc : VCtxOK c) (errors : List ValidationError) (uneval : Uneval) :
    ifThenElseKw recur c errors uneval ≠ .panic := by
  unfold ifThenElseKw
  rcases h1 : c.self.if_ with _ | ifSch
  · simp
  · refine RunRes.bind_ne_panic _ _ (selfValidate_ne_panic hr hc
      ((wfIdx_parts hc).2.2.2.2.2.2.2.2.2.2.1 ifSch h1)) ?_
    rintro ⟨r, u⟩
    cases r with
    | ok _ =>
      rcases h2 : c.self.then_ with _ | thenSch
      · simp
      · refine RunRes.bind_ne_panic _ _ (selfValidate_ne_panic hr hc
          ((wfIdx_parts hc).2.2.2.2.2.2.2.2.2.2.2.1 thenSch h2)) ?_
        rintro ⟨r2, u2⟩; simp
    | error _ =>
      rcases h2 : c.self.else_ with _ | elseSch
      · simp
      · refine RunRes.bind_ne_panic _ _ (selfValidate_ne_panic hr hc
          ((wfIdx_parts hc).2.2.2.2.2.2.2.2.2.2.2.2.1 elseSch h2)) ?_
        rintro ⟨r2, u2⟩; simp

theorem combinatorKws_ne_panic {recur : Recur} {c : VCtx} (hr : RecurOK c recur)
    (hc : VCtxOK c) (errors : List ValidationError) (uneval : Uneval) :
    combinatorKws recur c errors uneval ≠ .panic := by
  unfold combinatorKws
  refine RunRes.bind_ne_panic _ _ (notKw_ne_panic hr hc _ _) ?_
  rintro ⟨e1, u1⟩
  refine RunRes.bind_ne_panic _ _ (allOfKw_ne_panic hr hc _ _) ?_
  rintro ⟨e2, u2⟩
  refine RunRes.bind_ne_panic _ _ (anyOfKw_ne_panic hr hc _ _) ?_
  rintro ⟨e3, u3⟩
  refine RunRes.bind_ne_panic _ _ (oneOfKw_ne_panic hr hc _ _) ?_
  rintro ⟨e4, u4⟩
  exact ifThenElseKw_ne_panic hr hc _ _

theorem unevalPropsKw_ne_panic {recur : Recur} {c : VCtx} (hr : RecurOK c recur)
    (hc : VCtxOK c) (errors : List ValidationError) (uneval : Uneval) :
    unevalPropsKw recur c errors uneval ≠ .panic := by
  unfold unevalPropsKw
  split
  · rename_i sch members heq1 heq2
    refine RunRes.bind_ne_panic _ _ ?_ ?_
    · refine RunRes.foldlM_ne_panic _ _ _ ?_
      intro es pname hmem
      rcases hv : assocGet members pname with _ | pvalue
      · simp [hv]
      · simp only [hv]
        refine RunRes.bind_ne_panic _ _ (childValidate_ne_panic hr hc
          ((wfIdx_parts hc).2.2.2.2.2.2.2.2.2.2.2.2.2.2.2.2.2.2.2.1 sch heq1)) ?_
        intro r; simp
    · intro es; simp
  · simp

theorem unevalItemsKw_ne_panic {recur : Recur} {c : VCtx} (hr : RecurOK c recur)
    (hc : VCtxOK c) (errors : List ValidationError) (uneval : Uneval) :
    unevalItemsKw recur c errors uneval ≠ .panic := by
  unfold unevalItemsKw
  split
  · rename_i sch arr heq1 heq2
    refine RunRes.bind_ne_panic _ _ ?_ ?_
    · refine RunRes.foldlM_ne_panic _ _ _ ?_
      intro es i hmem
      rcases hv : arr[i]? with _ | pvalue
      · simp [hv]
      · simp only [hv]
        refine RunRes.bind_ne_panic _ _ (childValidate_ne_panic hr hc
          ((wfIdx_parts hc).2.2.2.2.2.2.2.2.2.2.2.2.2.2.2.2.2.2.2.2.2.2.2.2.2.2 sch heq1)) ?_
        intro r; simp
    · intro es; simp
  · simp

theorem unevalKws_ne_panic {recur : Recur} {c : VCtx} (hr : RecurOK c recur)
    (hc : VCtxOK c) (errors : List ValidationError) (uneval : Uneval) :
    unevalKws recur c errors uneval ≠ .panic := by
  unfold unevalKws
  refine RunRes.bind_ne_panic _ _ (unevalPropsKw_ne_panic hr hc _ _) ?_
  rintro ⟨e1, u1⟩
  exact unevalItemsKw_ne_panic hr hc _ _

theorem processKeywords_ne_panic {recur : Recur} {c : VCtx} (hr : RecurOK c recur)
    (hc : VCtxOK c) : Schema.processKeywords recur c ≠ .panic := by
  unfold Schema.processKeywords
  refine RunRes.bind_ne_panic _ _ (shapeKws_ne_panic hr hc _ _) ?_
  rintro ⟨e1, u1⟩
  refine RunRes.bind_ne_panic _ _ (refKws_ne_panic hr hc _ _) ?_
  rintro ⟨e2, u2⟩
  refine RunRes.bind_ne_panic _ _ (combinatorKws_ne_panic hr hc _ _) ?_
  rintro ⟨e3, u3⟩
  exact unevalKws_ne_panic hr hc _ _

theorem validateBody_ne_panic {recur : Recur} {c : VCtx} (hr : RecurOK c recur)
    (hc : VCtxOK c) : validateBody recur c ≠ .panic := by
  unfold validateBody
  split
  · simp
  · simp
  · refine RunRes.bind_ne_panic _ _ (processKeywords_ne_panic hr hc) ?_
    rintro ⟨es, un⟩; simp

theorem validate_ne_panic (pool : Schemas) (hw : pool.wf) :
    ∀ (fuel : Nat) (self : Schema) (v : Value) (vloc : String) (scope : Scope),
      Schema.wfIdx pool.list.length self → Scope.schOK pool.list.length scope →
      Schema.validate fuel pool self v vloc scope ≠ .panic := by
  intro fuel
  induction fuel with
  | zero => intro self v vloc scope _ _; simp [Schema.validate]
  | succ n ih =>
    intro self v vloc scope hself hscope
    show (if scope.hasCycle then
        RunRes.val (.error (VCtx.mkError ⟨pool, self, v, vloc, scope⟩ "" .refCycle))
      else validateBody (fun s v2 vl sc => Schema.validate n pool s v2 vl sc)
        ⟨pool, self, v, vloc, scope⟩) ≠ .panic
    by_cases hcy : scope.hasCycle = true
    · rw [if_pos hcy]; simp
    · rw [if_neg hcy]
      exact validateBody_ne_panic
        (fun s v2 vl sc hs hsc => ih s v2 vl sc hs hsc) ⟨hw, hself, hscope⟩

/-- C10: `contains` answers exactly whether the index is inside the compiled
pool; `validate` panics exactly when it is not; and on a pool whose stored
indices all point into the pool — the invariant the compiler establishes —
`validate` on a contained index never panics on any schema-index access and
yields an explicit Ok or Err verdict. -/
theorem claim_C10 (pool : Schemas) (i : Nat) :
    (pool.containsIdx i = true ↔ i < pool.list.length) ∧
    (∀ fuel v, pool.containsIdx i = false → Schemas.validate pool fuel v i = .panic) ∧
    (∀ fuel v, pool.wf → pool.containsIdx i = true →
      Schemas.validate pool fuel v i ≠ .panic ∧
      ∀ r, Schemas.validate pool fuel v i = .val r →
        (∃ u, r = .ok u) ∨ (∃ e, r = .error e)) := by
  refine ⟨?_, ?_, ?_⟩
  · constructor
    · intro h
      by_contra hlt
      push_neg at hlt
      rw [Schemas.containsIdx, List.getElem?_eq_none hlt] at h
      simp at h
    · intro hlt
      rw [Schemas.containsIdx, List.getElem?_eq_getElem hlt]
      rfl
  · intro fuel v hfalse
    unfold Schemas.validate
    have hnone : pool.list[i]? = none := by
      rcases h : pool.list[i]? with _ | s
      · rfl
      · rw [Schemas.containsIdx, h] at hfalse
        simp at hfalse
    rw [hnone]
  · intro fuel v hw htrue
    have hs : ∃ s, pool.list[i]? = some s := by
      rcases h : pool.list[i]? with _ | s
      · rw [Schemas.containsIdx, h] at htrue
        simp at htrue
      · exact ⟨s, rfl⟩
    obtain ⟨s, hget⟩ := hs
    have hsw : Schema.wfIdx pool.list.length s := hw s (List.getElem?_mem hget)
    have hne := validate_ne_panic pool hw fuel s v "" (Scope.root s.index "" 0)
      hsw hsw.1
    constructor
    · unfold Schemas.validate
      rw [hget]
      dsimp only
      rcases hv : Schema.validate fuel pool s v "" (Scope.root s.index "" 0)
        with _ | _ | r
      · exact absurd hv hne
      · simp
      · cases r <;> simp
    · intro r hr
      cases r with
      | ok u => exact Or.inl ⟨u, rfl⟩
      | error e => exact Or.inr ⟨e, rfl⟩

/-- Witness for C10: on a well-formed one-schema pool, index 0 is contained and
validation runs without panicking, while index 1 is not contained and the call
panics. -/
theorem claim_C10_witness :
    (({ list := [{}], map := [] } : Schemas).containsIdx 0 = true) ∧
    Schemas.validate { list := [{}], map := [] } 1 (.null) 1 = .panic ∧
    Schemas.validate { list := [{}], map := [] } 1 (.null) 0 ≠ .panic := by
  refine ⟨by rfl, ?_, ?_⟩
  · exact (claim_C10 _ 1).2.1 1 .null (by rfl)
  · refine ((claim_C10 ({ list := [{}], map := [] } : Schemas) 0).2.2 1 .null ?_
      (by rfl)).1
    intro s hsmem
    simp only [List.mem_singleton] at hsmem
    subst hsmem
    simp [Schema.wfIdx, optLT]

end JsonSch
